import Mathlib

/-!
# totoroar: behaviour state machine, animation sequencer and anger escalation

A shallow embedding of `src/js/ActionStateManager.js`, of the queue logic of
`src/js/AnimationManager.js` and of the part of `src/js/totoroar.js` that drives them,
followed by the properties established about them.

Conventions of the embedding

* JavaScript numbers (times, durations, fade times) are modelled as exact rationals.
  The truthiness tests the source applies to them (`!x`, `x && ...`) are kept: a number
  is falsy exactly when it is `0`, and `null`/`undefined` is `none`.
* Callbacks handed to the `ActionStateManager` are JavaScript functions that may do
  anything to the manager, including calling it again, and may raise an exception.  They
  are modelled by a handle together with an interpretation `Env` that gives, for each
  handle, its effect on the manager and whether it returns or raises; `switchState`
  additionally returns the list of callbacks it invoked itself.
* The calls the `AnimationManager` makes on THREE.js objects and on request callbacks are
  recorded, in order, in an effect log.  Request callbacks are assumed not to call back
  into the manager.
* The dictionaries `this.states` and `this.animClips` are plain objects: a lookup that
  misses the stored entries finds the members of `Object.prototype`.
* The driver is a function on the record `App` of its module-level variables, with the
  value of `performance.now()` as an argument; a raised `TypeError` is `Except.error`.
  What the driver does by itself between two inputs of the user, firings of pending timers
  at or after the time they are due and frames, is the relation `Elapses`.  The states the
  driver reaches are `DriverReachable`, and the bookkeeping of its timers that holds in
  each of them is `Tracked`.
-/

namespace ActionStateManager

/-- Handle of a JavaScript callback function. -/
abbrev Handler := Nat

/-- The object stored by `addState`: `{"switchInFn": ..., "switchOutFn": ...}`; `none` is
`null`, `some h` a function. -/
structure StateEntry where
  switchInFn : Option Handler
  switchOutFn : Option Handler
deriving DecidableEq, Repr

/-- The fields of an `ActionStateManager`.  `this.states` is a plain object created by
`{}`: `own` holds its own properties and `proto` its prototype, where `none` stands for
`Object.prototype` (the prototype of every `{}`) and `some e` for an entry object that
was installed by the assignment `this.states["__proto__"] = e`. -/
structure Manager where
  own : List (String × StateEntry)
  proto : Option StateEntry
  currentStateName : String
deriving DecidableEq, Repr

/-- `ActionStateManager.UNDEFINED_STATE = "undefined_state"`. -/
def UNDEFINED_STATE : String := "undefined_state"

/-- The property names every plain object inherits from `Object.prototype` (the accessor
`__proto__` is treated separately).  Each of them holds a function. -/
def objectPrototypeMembers : List String :=
  ["constructor", "hasOwnProperty", "isPrototypeOf", "propertyIsEnumerable",
   "toLocaleString", "toString", "valueOf", "__defineGetter__", "__defineSetter__",
   "__lookupGetter__", "__lookupSetter__"]

/-- A truthy value that carries neither a `switchInFn` nor a `switchOutFn` property:
a built-in function, `Object.prototype`, or a callback function. -/
def noHandlers : StateEntry := { switchInFn := none, switchOutFn := none }

/-- What `Object.prototype[name]` evaluates to, as far as `switchState` can tell. -/
def inheritedMember (name : String) : Option StateEntry :=
  if name ∈ objectPrototypeMembers then some noHandlers else none

/-- The expression `this.states[name]`, reduced to what `switchState` observes of it:
`none` when the value is falsy (`undefined` or `null`), otherwise the `switchInFn` and
`switchOutFn` properties of the value.  Own properties come first, then the properties of
an installed prototype entry, then `Object.prototype`. -/
def lookup (m : Manager) (name : String) : Option StateEntry :=
  if name = "__proto__" then
    some (m.proto.getD noHandlers)
  else
    match m.own.lookup name with
    | some e => some e
    | none =>
      match m.proto with
      | none => inheritedMember name
      | some e =>
        if name = "switchInFn" then e.switchInFn.map (fun _ => noHandlers)
        else if name = "switchOutFn" then e.switchOutFn.map (fun _ => noHandlers)
        else inheritedMember name

/-- The entry registered under a name: what `addState` stored under it and `removeState`
has not deleted since.  (An entry stored under `"__proto__"` lives in the prototype slot,
where `delete` does not reach it.) -/
def registeredEntry (m : Manager) (name : String) : Option StateEntry :=
  if name = "__proto__" then m.proto else m.own.lookup name

/-- `clearAll()`; the constructor does nothing else. -/
def clearAll : Manager :=
  { own := [], proto := none, currentStateName := UNDEFINED_STATE }

/-- `addState(stateName, switchInFn, switchOutFn)`: the assignment
`this.states[stateName] = {...}`.  For `"__proto__"` the assignment runs the inherited
setter and replaces the prototype of `this.states`. -/
def addState (m : Manager) (stateName : String) (switchInFn switchOutFn : Option Handler) :
    Manager :=
  let e : StateEntry := { switchInFn := switchInFn, switchOutFn := switchOutFn }
  if stateName = "__proto__" then
    { m with proto := some e }
  else
    { m with own := (stateName, e) :: m.own.filter (fun p => p.1 ≠ stateName) }

/-- `removeState(stateName)`: `delete this.states[stateName]` removes an own property
only. -/
def removeState (m : Manager) (stateName : String) : Manager :=
  { m with own := m.own.filter (fun p => p.1 ≠ stateName) }

/-- `getState()`. -/
def getState (m : Manager) : String := m.currentStateName

/-- `reset()`. -/
def reset (m : Manager) : Manager :=
  { m with currentStateName := UNDEFINED_STATE }

/-- The effect of running a callback: `env h old new m` is the outcome of calling the
function `h` with the arguments `(old, new)` on the manager `m`: `Except.ok m2` when the
function returns, having left the manager `m2`, and `Except.error m2` when it raises an
exception, having left the manager `m2`. -/
abbrev Env := Handler → String → String → Manager → Except Manager Manager

/-- One callback invocation made by `switchState`: the function, its two arguments, and
what `getState()` returns when the function starts to run. -/
structure Call where
  fn : Handler
  oldStateName : String
  newStateName : String
  stateAtEntry : String
deriving DecidableEq, Repr

/-- Outcome of a `switchState`/`toggleState` call: whether the call was left by an
exception that a callback raised (the class catches nothing), the returned boolean (`false`
when the call raised and so returned nothing), the manager afterwards and the callbacks the
call invoked, in order. -/
structure SwitchResult where
  ok : Bool
  raised : Bool
  mgr : Manager
  calls : List Call

/-- `switchState(stateName)`.  An exception raised by the `switchOutFn` leaves the call
before the current state is assigned; one raised by the `switchInFn` leaves it after the
assignment and before `return true`. -/
def switchState (env : Env) (m : Manager) (stateName : String) : SwitchResult :=
  match lookup m stateName with
  | none => { ok := false, raised := false, mgr := m, calls := [] }
  | some newState =>
    let oldState := lookup m m.currentStateName
    let oldStateName := m.currentStateName
    let afterOut : Except Manager Manager × List Call :=
      match oldState.bind (fun o => o.switchOutFn) with
      | some f =>
        (env f oldStateName stateName m, [Call.mk f oldStateName stateName (getState m)])
      | none => (Except.ok m, [])
    match afterOut.1 with
    | Except.error m1 => { ok := false, raised := true, mgr := m1, calls := afterOut.2 }
    | Except.ok m1 =>
      let m2 : Manager := { m1 with currentStateName := stateName }
      match newState.switchInFn with
      | some g =>
        match env g oldStateName stateName m2 with
        | Except.ok m3 =>
          { ok := true, raised := false, mgr := m3,
            calls := afterOut.2 ++ [Call.mk g oldStateName stateName (getState m2)] }
        | Except.error m3 =>
          { ok := false, raised := true, mgr := m3,
            calls := afterOut.2 ++ [Call.mk g oldStateName stateName (getState m2)] }
      | none => { ok := true, raised := false, mgr := m2, calls := afterOut.2 }

/-- `toggleState(toStateName, defaultState)`. -/
def toggleState (env : Env) (m : Manager) (toStateName defaultState : String) :
    SwitchResult :=
  if m.currentStateName ≠ toStateName then switchState env m toStateName
  else switchState env m defaultState

/-- Callbacks that return and leave the manager alone. -/
def inertEnv : Env := fun _ _ _ m => Except.ok m

/-- A manager with the states `"Idling"` (callbacks `1`, `2`) and `"Waving"` (callbacks
`3`, `4`), currently in `"Idling"`. -/
def twoStates : Manager :=
  { (addState (addState clearAll "Idling" (some 1) (some 2)) "Waving" (some 3) (some 4))
      with currentStateName := "Idling" }

/-- The interpretation of callbacks in which callback `1` calls `switchState("b")` on the
manager and every other callback does nothing. -/
def reentrantEnv : Env := fun h _ _ m =>
  if h = 1 then Except.ok (switchState inertEnv m "b").mgr else Except.ok m

/-- The interpretation of callbacks in which callback `1` raises an exception at once and
every other callback does nothing. -/
def raisingEnv : Env := fun h _ _ m =>
  if h = 1 then Except.error m else Except.ok m

/-- The exit callback a switch away from the current state is to invoke, in the words of
the specification: the `switchOutFn` of the current state if that state is still
registered and has one, and none if the current state was removed or is the undefined
sentinel. -/
def specExit (m : Manager) : Option Handler :=
  if getState m = UNDEFINED_STATE then none
  else (registeredEntry m (getState m)).bind (fun o => o.switchOutFn)

/-- The callbacks a successful `switchState(n)` to the entry `newState` is to invoke, in
the words of the specification: the exit callback, entered while `getState()` is still the
old state, then the `switchInFn` of the new state, entered while `getState()` is already
`n`; both are called with the old and the new state name. -/
def specCalls (m : Manager) (n : String) (newState : StateEntry) : List Call :=
  ((specExit m).map (fun f => Call.mk f (getState m) n (getState m))).toList
    ++ (newState.switchInFn.map (fun g => Call.mk g (getState m) n n)).toList

end ActionStateManager

namespace AnimationManager

/-- Handle of a THREE.js `Object3D` used as alternative animation root. -/
abbrev Root := Nat

/-- Handle of a request callback function. -/
abbrev Callback := Nat

/-- What the manager reads of a `THREE.AnimationClip`: its name and its duration in
seconds. -/
structure Clip where
  name : String
  duration : ℚ
deriving DecidableEq, Repr

/-- The `AnimationAction` that `this.animMxr.clipAction(clip, altRoot)` returns.  The
mixer caches one action per clip and root, so the pair identifies it; for a clip object
the call always yields an action. -/
structure Action where
  clip : Clip
  root : Option Root
deriving DecidableEq, Repr

/-- The `AnimOpts` option bag.  An absent (or `null`) property is `none` for the numeric
and object valued options and `false` for the boolean ones. -/
structure AnimOpts where
  name : String
  fadeTime : Option ℚ
  loop : Bool
  clamp : Bool
  isMixin : Bool
  delay : Option ℚ
  reverse : Bool
  disableAnims : Option (List String)
  altRoot : Option Root
  forcePlaythrough : Bool
  callback : Option Callback
deriving DecidableEq, Repr

/-- The request `{"name": name}` with every option left out. -/
def AnimOpts.named (name : String) : AnimOpts :=
  { name := name, fadeTime := none, loop := false, clamp := false, isMixin := false,
    delay := none, reverse := false, disableAnims := none, altRoot := none,
    forcePlaythrough := false, callback := none }

/-- The object stored in `this.currentBaseAnimInfo`. -/
structure BaseAnimInfo where
  action : Action
  endTime : Option ℚ
  startNextTime : Option ℚ
  forcePlaythrough : Bool
deriving DecidableEq, Repr

/-- The calls the manager makes on its collaborators, in the order they are made. -/
inductive Effect where
  | warnNoAnimations
  | warnUnknown (name : String)
  | clipActionNonClip (name : String) (root : Option Root)
  | reset (a : Action)
  | startAt (a : Action) (t : ℚ)
  | fadeIn (a : Action) (duration : ℚ)
  | fadeOutAfter (a : Action) (timeoutMs : ℚ) (duration : ℚ)
  | crossFadeFrom (a : Action) (src : Action) (duration : ℚ)
  | clampWhenFinished (a : Action) (flag : Bool)
  | setLoop (a : Action) (loopRepeat : Bool)
  | playReversedFrom (a : Action) (t : ℚ)
  | playForward (a : Action)
  | disable (a : Action)
  | play (a : Action)
  | callback (cb : Callback) (name : String)
  | stopAllAction
deriving DecidableEq, Repr

/-- Whether a call of the log raises: the `clipAction` call on a value that is not a clip
raises a `TypeError` inside THREE.js. -/
def raisesTypeError : Effect → Bool
  | Effect.clipActionNonClip _ _ => true
  | _ => false

/-- The fields of an `AnimationManager`.  `animClips` holds the clips the constructor
stored in the dictionary `this.animClips`, by name (`none` when no clip of that name was
stored; no clip is assumed to be named `__proto__`), `time` is `this.animMxr.time`, and
`effects` is the log of calls made so far.  `this.timerId` is never assigned after the
constructor and is left out. -/
structure Manager where
  animClips : String → Option Clip
  time : ℚ
  currentBaseAnimInfo : Option BaseAnimInfo
  animQueue : List AnimOpts
  effects : List Effect

/-- `this.defaultFadeTime = 0.25`, assigned once by the constructor. -/
def defaultFadeTime : ℚ := 1 / 4

/-- The manager the constructor returns for a clip dictionary: mixer time `0`, no current
base animation, empty queue. -/
def create (animClips : String → Option Clip) : Manager :=
  { animClips := animClips, time := 0, currentBaseAnimInfo := none, animQueue := [],
    effects := [] }

/-- JavaScript truthiness of a number that may be `null`: `null` and `0` are falsy. -/
def truthy : Option ℚ → Bool
  | none => false
  | some x => decide (x ≠ 0)

/-- The fade time the source derives from a request, in three places:
`fadeTime != null ? Math.max(0, fadeTime) : this.defaultFadeTime`. -/
def effectiveFadeTime (info : AnimOpts) : ℚ :=
  match info.fadeTime with
  | some f => max 0 f
  | none => defaultFadeTime

/-- `_findNextBaseAnim()` on a queue: the first entry whose `isMixin` is falsy. -/
def findNextBaseAnimIn (queue : List AnimOpts) : Option AnimOpts :=
  queue.find? (fun info => !info.isMixin)

/-- `_findNextBaseAnim()`. -/
def findNextBaseAnim (m : Manager) : Option AnimOpts :=
  findNextBaseAnimIn m.animQueue

/-- Whether `this.animClips[name]` finds a member of `Object.prototype` when no clip of
that name was stored: `this.animClips` is a plain object created by `{}`, so a lookup that
misses the stored clips goes on to the prototype. -/
def inheritedName (name : String) : Bool :=
  decide (name ∈ ActionStateManager.objectPrototypeMembers) || decide (name = "__proto__")

/-- The effects of the `disableAnims` loop of `_playNextAnim`.  A name that only resolves
to a member of `Object.prototype` passes the test `if (tmpClip)` and is handed to
`clipAction`. -/
def disableEffects (animClips : String → Option Clip) (altRoot : Option Root) :
    Option (List String) → List Effect
  | none => []
  | some names =>
    names.filterMap (fun el =>
      match animClips el with
      | some c => some (Effect.disable ⟨c, altRoot⟩)
      | none => if inheritedName el then some (Effect.clipActionNonClip el altRoot) else none)

/-- The fade-in or cross-fade calls of `_playNextAnim`. -/
def fadeEffects (cur : Option BaseAnimInfo) (action : Action) (clip : Clip)
    (isMixin : Bool) (delay fadeTime : ℚ) : List Effect :=
  if 0 < fadeTime then
    match cur with
    | none => [Effect.fadeIn action fadeTime]
    | some b =>
      if isMixin then
        [Effect.fadeIn action fadeTime,
         Effect.fadeOutAfter action (max (clip.duration + delay - fadeTime) 0 * 1000) fadeTime]
      else [Effect.crossFadeFrom action b.action fadeTime]
  else []

/-- The calls `_playNextAnim` makes on the mixer, the action and the request callback
while it starts the request `info` with clip `clip`, in the order of the source; `rest` is
the queue after the `shift()` and `m` the manager at that moment. -/
def startEffects (m : Manager) (info : AnimOpts) (rest : List AnimOpts) (clip : Clip)
    (startDelta : ℚ) : List Effect :=
  let isMixin : Bool := info.isMixin || info.altRoot.isSome
  let action : Action := ⟨clip, info.altRoot⟩
  let delay : ℚ := info.delay.getD 0
  [Effect.reset action]
    ++ (if 0 < delay ∨ 0 < startDelta then
          [Effect.startAt action (m.time + delay - startDelta)] else [])
    ++ fadeEffects m.currentBaseAnimInfo action clip isMixin delay (effectiveFadeTime info)
    ++ [Effect.clampWhenFinished action info.clamp,
        Effect.setLoop action (info.loop && rest.isEmpty),
        if info.reverse then Effect.playReversedFrom action clip.duration
        else Effect.playForward action]
    ++ disableEffects m.animClips info.altRoot info.disableAnims
    ++ [Effect.play action]
    ++ (match info.callback with
        | some cb => [Effect.callback cb info.name]
        | none => [])

/-- `_playNextAnim(startDelta)`, written as a recursion over the queue it consumes: the
first argument is `this.animQueue` at the time of the call (the `animQueue` field of the
manager argument is overwritten by the `shift()`).  A request is a mixin when it is
flagged so or carries an `altRoot`; it loops when it asks for it and nothing is queued
behind it.

When no clip of the requested name was stored, `this.animClips[info.name]` is `undefined`
and the request is skipped, unless the name is one of the inherited members: then the
value is truthy, the test `!clip` fails and the value is handed to
`this.animMxr.clipAction`.  THREE.js builds an `AnimationAction` from it and raises a
`TypeError` on the missing `tracks`, which ends the call; the model records the call to
`clipAction` and returns the manager as it is at that point (it does not follow the
exception through the callers). -/
def playNextAnimFrom : List AnimOpts → Manager → ℚ → Manager
  | [], m, _ => { m with animQueue := [] }
  | info :: rest, m, startDelta =>
    match m.animClips info.name with
    | none =>
      if inheritedName info.name then
        { m with
          animQueue := rest
          effects := m.effects ++ [Effect.clipActionNonClip info.name info.altRoot] }
      else
        playNextAnimFrom rest
          { m with animQueue := rest, effects := m.effects ++ [Effect.warnUnknown info.name] }
          0
    | some clip =>
      let isMixin : Bool := info.isMixin || info.altRoot.isSome
      let delay : ℚ := info.delay.getD 0
      let loopRepeat : Bool := info.loop && rest.isEmpty
      let forcePlaythrough : Bool := info.forcePlaythrough && !(loopRepeat || isMixin)
      let started : Manager :=
        { m with
          animQueue := rest
          effects := m.effects ++ startEffects m info rest clip startDelta }
      if isMixin then
        playNextAnimFrom rest started startDelta
      else
        let endTime : Option ℚ :=
          if loopRepeat then none else some (m.time + clip.duration + delay - startDelta)
        let startNextTime : Option ℚ :=
          match endTime, findNextBaseAnimIn rest with
          | some e, some nextBaseAnim => some (e - effectiveFadeTime nextBaseAnim)
          | _, _ => none
        { started with
          currentBaseAnimInfo := some
            { action := ⟨clip, info.altRoot⟩, endTime := endTime,
              startNextTime := startNextTime, forcePlaythrough := forcePlaythrough } }

/-- `_playNextAnim(startDelta)`. -/
def playNextAnim (m : Manager) (startDelta : ℚ) : Manager :=
  playNextAnimFrom m.animQueue m startDelta

/-- The `anims` argument of `queueAnimations`/`playAnimations`: nothing (`undefined` or
`null`), a single `AnimOpts` object, or an array of them. -/
inductive Anims where
  | missing
  | single (a : AnimOpts)
  | many (l : List AnimOpts)
deriving DecidableEq, Repr

/-- The array `queueAnimations` pushes: `if (!Array.isArray(anims)) anims = [anims]`. -/
def Anims.toList : Anims → List AnimOpts
  | .missing => []
  | .single a => [a]
  | .many l => l

/-- The condition under which `queueAnimations` calls `_playNextAnim()` right away:
`!cur || !cur.endTime || (_purgeNonForced && !cur.forcePlaythrough)`. -/
def startsAtOnce (cur : Option BaseAnimInfo) (purgeNonForced : Bool) : Bool :=
  match cur with
  | none => true
  | some b => !truthy b.endTime || (purgeNonForced && !b.forcePlaythrough)

/-- The queue after the purge and the `push` of `queueAnimations`. -/
def queueAfterPush (queue : List AnimOpts) (anims : List AnimOpts) (purgeNonForced : Bool) :
    List AnimOpts :=
  (if purgeNonForced then queue.filter (fun item => item.forcePlaythrough) else queue)
    ++ anims

/-- `queueAnimations(anims, _purgeNonForced)`. -/
def queueAnimations (m : Manager) (anims : Anims) (purgeNonForced : Bool) : Manager :=
  match anims with
  | .missing => { m with effects := m.effects ++ [Effect.warnNoAnimations] }
  | anims =>
    let m1 : Manager :=
      { m with animQueue := queueAfterPush m.animQueue anims.toList purgeNonForced }
    if startsAtOnce m1.currentBaseAnimInfo purgeNonForced then playNextAnim m1 0
    else
      match m1.currentBaseAnimInfo with
      | none => m1
      | some b =>
        if !truthy b.startNextTime then
          let startTime : Option ℚ :=
            match findNextBaseAnim m1 with
            | some nextBaseAnim => b.endTime.map (fun e => e - effectiveFadeTime nextBaseAnim)
            | none => b.endTime
          { m1 with currentBaseAnimInfo := some { b with startNextTime := startTime } }
        else m1

/-- `playAnimations(anims)`. -/
def playAnimations (m : Manager) (anims : Anims) : Manager :=
  queueAnimations m anims true

/-- `clearQueue(removeForcedPlayFromCurrent)`. -/
def clearQueue (m : Manager) (removeForcedPlayFromCurrent : Bool) : Manager :=
  { m with
    animQueue := []
    currentBaseAnimInfo :=
      if removeForcedPlayFromCurrent then
        m.currentBaseAnimInfo.map (fun b => { b with forcePlaythrough := false })
      else m.currentBaseAnimInfo }

/-- `update(delta)`.  The final `this.animMxr.update(delta)` adds `delta` to the mixer
time (the mixer keeps its default time scale `1`). -/
def update (m : Manager) (delta : ℚ) : Manager :=
  let m1 : Manager :=
    match m.currentBaseAnimInfo with
    | none => m
    | some b =>
      let animTime : ℚ := m.time + delta
      match b.endTime with
      | none => m
      | some endTime =>
        if endTime ≠ 0 then
          let m2 : Manager :=
            if endTime ≤ animTime then { m with currentBaseAnimInfo := none } else m
          match b.startNextTime with
          | none => m2
          | some startNextTime =>
            if startNextTime ≠ 0 ∧ startNextTime ≤ animTime then
              playNextAnim m2 (animTime - startNextTime)
            else m2
        else m
  { m1 with time := m1.time + delta }

/-- `stopAll()`. -/
def stopAll (m : Manager) : Manager :=
  { m with
    effects := m.effects ++ [Effect.stopAllAction]
    currentBaseAnimInfo := none
    animQueue := [] }

/-- `getAnimClip(name)`, for a name that is a stored clip or resolves to nothing. -/
def getAnimClip (m : Manager) (name : String) : Option Clip :=
  m.animClips name

/-- The loop of `getTotalQueueBaseTime` over the queue: every entry that is not skipped
adds `delay - fadeTime + duration`.  An entry is skipped when it is a mixin, has an
`altRoot`, is a loop request in last position, or (with `whenPurged`) lacks
`forcePlaythrough`. -/
def queuedBaseTime (animClips : String → Option Clip) (whenPurged : Bool) :
    List AnimOpts → ℚ
  | [] => 0
  | info :: rest =>
    (if info.isMixin || info.altRoot.isSome || (info.loop && rest.isEmpty)
          || (whenPurged && !info.forcePlaythrough) then 0
      else
        info.delay.getD 0 - effectiveFadeTime info
          + ((animClips info.name).map (fun clip => clip.duration)).getD 0)
      + queuedBaseTime animClips whenPurged rest

/-- `getTotalQueueBaseTime(whenPurged)`.  The second test reads
`this.currentBaseAnimInfo.startTime`; the object `_playNextAnim` stores has the properties
`action`, `endTime`, `startNextTime` and `forcePlaythrough` and nothing ever adds a
`startTime`, so the value read is `undefined`. -/
def getTotalQueueBaseTime (m : Manager) (whenPurged : Bool) : ℚ :=
  match m.currentBaseAnimInfo with
  | none => 0
  | some b =>
    if !truthy b.endTime then 0
    else
      let startTime : Option ℚ := none
      if truthy startTime then
        (if whenPurged && !b.forcePlaythrough then 0 else b.startNextTime.getD 0 - m.time)
          + queuedBaseTime m.animClips whenPurged m.animQueue
      else if !whenPurged || b.forcePlaythrough then b.endTime.getD 0 - m.time
      else 0

/-- The total the specification describes for an active non-looping base whose successor
is scheduled at `s`: the time left until `s`, plus `delay - fadeTime + duration` for every
queued request that is not a mixin, has no `altRoot` and is not a loop request in last
position. -/
def specTotalQueueBaseTime (m : Manager) (s : ℚ) : ℚ :=
  (s - m.time) + queuedBaseTime m.animClips false m.animQueue

/-- The states an `AnimationManager` can be in: those obtained from a freshly constructed
manager by calls of its public methods. -/
inductive Reachable (animClips : String → Option Clip) : Manager → Prop where
  | create : Reachable animClips (create animClips)
  | queueAnimations {m : Manager} (anims : Anims) (purgeNonForced : Bool) :
      Reachable animClips m → Reachable animClips (queueAnimations m anims purgeNonForced)
  | playAnimations {m : Manager} (anims : Anims) :
      Reachable animClips m → Reachable animClips (playAnimations m anims)
  | clearQueue {m : Manager} (removeForcedPlayFromCurrent : Bool) :
      Reachable animClips m → Reachable animClips (clearQueue m removeForcedPlayFromCurrent)
  | update {m : Manager} (delta : ℚ) :
      Reachable animClips m → Reachable animClips (update m delta)
  | stopAll {m : Manager} :
      Reachable animClips m → Reachable animClips (stopAll m)

/-- The property of a manager state that a base animation whose `forcePlaythrough` flag is
set has an end time. -/
def ForcedImpliesFinite (m : Manager) : Prop :=
  ∀ b, m.currentBaseAnimInfo = some b → b.forcePlaythrough = true → b.endTime ≠ none

/-- The property of a manager state that the current base animation, if any, is well
formed: without an end time there is no successor time, and a successor time is not later
than the end time. -/
def WellFormed (m : Manager) : Prop :=
  ∀ b, m.currentBaseAnimInfo = some b →
    (b.endTime = none → b.startNextTime = none) ∧
    (∀ s, b.startNextTime = some s → ∃ e, b.endTime = some e ∧ s ≤ e)

/-- A clip dictionary used for concrete runs: `A` (1 s), `B` (0.25 s), `Idle` (2 s),
`Blink` (0.5 s), `C` (3 s). -/
def exampleClips : String → Option Clip := fun name =>
  if name = "A" then some ⟨"A", 1⟩
  else if name = "B" then some ⟨"B", 1 / 4⟩
  else if name = "Idle" then some ⟨"Idle", 2⟩
  else if name = "Blink" then some ⟨"Blink", 1 / 2⟩
  else if name = "C" then some ⟨"C", 3⟩
  else none

/-- The condition under which, in the words of the specification, `queueAnimations`
starts the next request at once: no base is active, or the active base is looping
(`endTime` is `null`), or the purge was asked for and the active base lacks
`forcePlaythrough`. -/
def specStartCondition (cur : Option BaseAnimInfo) (purgeNonForced : Bool) : Prop :=
  cur = none ∨
    ∃ b, cur = some b ∧
      (b.endTime = none ∨ (purgeNonForced = true ∧ b.forcePlaythrough = false))

/-- The run `queueAnimations([A, B])` on a new manager followed by `update(1)`: clip `A`
lasts 1 s and `B` 0.25 s, so the update hands over to `B` with a start offset of 0.25 s. -/
def handedOver : Manager :=
  update
    (queueAnimations (create exampleClips) (.many [AnimOpts.named "A", AnimOpts.named "B"])
      false) 1

/-- The run `queueAnimations([B, A])` on a new manager followed by `clearQueue()`: `B`
(0.25 s) is the current base, and the start of its former successor `A` was scheduled
at `0.25 - 0.25 = 0`. -/
def scheduledAtZero : Manager :=
  clearQueue
    (queueAnimations (create exampleClips) (.many [AnimOpts.named "B", AnimOpts.named "A"])
      false) false

/-- The request `{"name": "C", "fadeTime": 0}`. -/
def instantC : AnimOpts := { AnimOpts.named "C" with fadeTime := some 0 }

/-- The request `{"name": "B", "altRoot": obj}`, not flagged as mixin. -/
def rerootedB : AnimOpts := { AnimOpts.named "B" with altRoot := some 5 }

/-- The request `{"name": "A", "forcePlaythrough": true}`. -/
def forcedA : AnimOpts := { AnimOpts.named "A" with forcePlaythrough := true }

/-- The request `{"name": "Idle", "loop": true}`. -/
def loopIdle : AnimOpts := { AnimOpts.named "Idle" with loop := true }

/-- The request `{"name": "Blink", "isMixin": true}`. -/
def mixinBlink : AnimOpts := { AnimOpts.named "Blink" with isMixin := true }

/-- The run `queueAnimations([A, B])` on a new manager: `A` is the current base until
`1`, and `B` is scheduled to start at `0.75`. -/
def playingA : Manager :=
  queueAnimations (create exampleClips) (.many [AnimOpts.named "A", AnimOpts.named "B"]) false

/-- The request `{"name": "Blink", "isMixin": true, "forcePlaythrough": true}`. -/
def forcedMixinBlink : AnimOpts := { mixinBlink with forcePlaythrough := true }

/-- The request `{"name": "B", "fadeTime": -1}`. -/
def negativeFadeB : AnimOpts := { AnimOpts.named "B" with fadeTime := some (-1) }

/-- The request `{"name": "C", "loop": true}`. -/
def loopC : AnimOpts := { AnimOpts.named "C" with loop := true }

/-- A clip dictionary with the durations of the example in the specification: `A` (2 s),
`B` (3 s), `C` (1 s). -/
def timedClips : String → Option Clip := fun name =>
  if name = "A" then some ⟨"A", 2⟩
  else if name = "B" then some ⟨"B", 3⟩
  else if name = "C" then some ⟨"C", 1⟩
  else none

/-- The run `queueAnimations([A, B, {"name": "C", "loop": true}])` on a new manager with
the clips `timedClips`. -/
def queuedABC : Manager :=
  queueAnimations (create timedClips) (.many [AnimOpts.named "A", AnimOpts.named "B", loopC])
    false

/-- The run `queueAnimations([{"name": "A", "forcePlaythrough": true}, blink])` on a new
manager, where `blink` is a mixin request. -/
def forcedAThen (blink : AnimOpts) : Manager :=
  queueAnimations (create exampleClips) (.many [forcedA, blink]) false

/-- The run `queueAnimations([A, {"name": "B", "altRoot": obj}])` on a new manager. -/
def playingAThenRerooted : Manager :=
  queueAnimations (create exampleClips) (.many [AnimOpts.named "A", rerootedB]) false

/-- The state `playingA` after `update(0.74)`: `A` is active until `1`, the mixer time is
`0.74` and `B` is scheduled to start at `0.75`. -/
def nearHandOver : Manager := update playingA (37 / 50)

/-- The run `queueAnimations([A, {"name": "Nope"}, B])` on a new manager followed by
`update(0.74)`; no clip named `Nope` exists.  `A` is active until `1` and its successor is
scheduled at `0.75`. -/
def nearHandOverUnknown : Manager :=
  update
    (queueAnimations (create exampleClips)
      (.many [AnimOpts.named "A", AnimOpts.named "Nope", AnimOpts.named "B"]) false)
    (37 / 50)

/-- The request `{"name": "Wave", "forcePlaythrough": true}`, with the property name the
manager reads. -/
def forcedWave : AnimOpts := { AnimOpts.named "Wave" with forcePlaythrough := true }

end AnimationManager

namespace Totoroar

/-! ### The application driver (`src/js/totoroar.js`)

The part of the driver that deals with the behaviour states and the anger escalation.
The module-level variables it uses are gathered in `App`.  A function that can raise a
`TypeError` (a method call on a variable that is `null`) returns `Except App _`: an error
carries the state the variables are left in when the exception is raised.  Rendering,
scene-graph updates and the playback itself are outside the model: calls on the audio
manager are recorded in `audio`, `triggerRoarEffect()` calls are counted, and pending
`window.setTimeout` timers are kept in `timers` with the time at which they are due. -/

/-- `MDL_STATE_IDLE`. -/
def MDL_STATE_IDLE : String := "Idling"

/-- `MDL_STATE_WHISTLE`. -/
def MDL_STATE_WHISTLE : String := "Whistling"

/-- `MDL_STATE_UMBRELLA`. -/
def MDL_STATE_UMBRELLA : String := "Umbrella"

/-- `MDL_STATE_WAVE`. -/
def MDL_STATE_WAVE : String := "Waving"

/-- The object `g_modelMesh.userData.angerData`: `coolOffId` is `null` or the id of the
pending cool-off timer (ids handed out by `window.setTimeout` are positive, hence
truthy). -/
structure AngerData where
  level : ℤ
  cooldown : ℚ
  coolOffId : Option Nat
deriving DecidableEq, Repr

/-- What a pending timer does when it fires. -/
inductive TimerAction where
  | coolOff
  | whistleFlute
  | waveEnd (oldState : String)
  | umbrellaShow
  | umbrellaHide
deriving DecidableEq, Repr

/-- A pending `window.setTimeout` timer: its id, the time (in ms, on the clock of
`performance.now()`) at which it is due, and what it does. -/
structure Timer where
  id : Nat
  due : ℚ
  action : TimerAction
deriving DecidableEq, Repr

/-- A call on `g_audioMgr`: `playAudio(name, objForAudio, {loop, fadeInTime})`, where
`onModel` says whether `g_modelMesh` was passed, or `stopAudio(name, {fadeOutTime})`. -/
inductive AudioCall where
  | playAudio (name : String) (onModel : Bool) (loop : Bool) (fadeInTime : ℚ)
  | stopAudio (name : String) (fadeOutTime : ℚ)
deriving DecidableEq, Repr

/-- The module-level state of the driver: `g_actionStateMgr` and `g_animMgr` (`none` is
`null`), the anger data stored on the model (`none` before the first hit), the object
`"ArmatureUmbrella"` of the model if it has one, the time of day in hours, `g_curWaveSound`,
the four `g_timerId...` variables (`none` is `0`), the pending timers and the next id
`window.setTimeout` hands out, the calls made on `g_audioMgr` (which exists from
`loadResources()` on), and the number of `triggerRoarEffect()` calls. -/
structure App where
  actionStateMgr : Option ActionStateManager.Manager
  animMgr : Option AnimationManager.Manager
  angerData : Option AngerData
  umbrellaObj : Option AnimationManager.Root
  hourOfDay : ℚ
  curWaveSound : String
  timerIdWhistle : Option Nat
  timerIdWaveEnd : Option Nat
  timerIdUmbrellaShow : Option Nat
  timerIdUmbrellaHide : Option Nat
  timers : List Timer
  nextTimerId : Nat
  audio : List AudioCall
  roarTriggers : Nat

/-- `window.setTimeout(fn, delayMs)` called at time `now`: the id returned and the state
with the new timer pending. -/
def setTimeout (app : App) (now delayMs : ℚ) (action : TimerAction) : Nat × App :=
  (app.nextTimerId,
    { app with
      timers := app.timers ++ [⟨app.nextTimerId, now + delayMs, action⟩]
      nextTimerId := app.nextTimerId + 1 })

/-- `window.clearTimeout(id)`. -/
def clearTimeout (app : App) (id : Nat) : App :=
  { app with timers := app.timers.filter (fun t => t.id ≠ id) }

/-- `g_audioMgr.playAudio(name, obj, options)`. -/
def playAudio (app : App) (name : String) (onModel loop : Bool) (fadeInTime : ℚ) : App :=
  { app with audio := app.audio ++ [AudioCall.playAudio name onModel loop fadeInTime] }

/-- `g_audioMgr.stopAudio(name, options)`. -/
def stopAudio (app : App) (name : String) (fadeOutTime : ℚ) : App :=
  { app with audio := app.audio ++ [AudioCall.stopAudio name fadeOutTime] }

/-- Handle of the callback of the `Pickup` request of the whistle state. -/
def CB_PICKUP : AnimationManager.Callback := 1

/-- Handle of the callback of the `UmbrellaRaise` request of the umbrella state. -/
def CB_UMBRELLA_RAISE : AnimationManager.Callback := 2

/-- What a request callback does when the `AnimationManager` invokes it at time `now`.
The `Pickup` callback schedules the flute sound after 3300 ms; the `UmbrellaRaise` callback
cancels a pending hide timer, schedules showing the umbrella after 600 ms and starts the
rain sound. -/
def animCallback (cb : AnimationManager.Callback) (now : ℚ) (app : App) : App :=
  if cb = CB_PICKUP then
    let r := setTimeout app now 3300 TimerAction.whistleFlute
    { r.2 with timerIdWhistle := some r.1 }
  else if cb = CB_UMBRELLA_RAISE then
    let app1 : App :=
      match app.timerIdUmbrellaHide with
      | some id => { clearTimeout app id with timerIdUmbrellaHide := none }
      | none => app
    let r := setTimeout app1 now 600 TimerAction.umbrellaShow
    playAudio { r.2 with timerIdUmbrellaShow := some r.1 } "rain" false true 2
  else app

/-- The request callbacks among a list of calls made by the `AnimationManager`, run in
order. -/
def runAnimCallbacks (effects : List AnimationManager.Effect) (now : ℚ) (app : App) : App :=
  effects.foldl
    (fun a e =>
      match e with
      | AnimationManager.Effect.callback cb _ => animCallback cb now a
      | _ => a)
    app

/-- A method call `g_animMgr.f(...)` at time `now`: a `TypeError` if `g_animMgr` is `null`;
otherwise the manager is updated and the request callbacks it invoked during the call take
effect.  When one of the calls the manager made raises, the exception reaches the caller:
the callbacks invoked before that call have taken effect and the result is an error (the
manager kept in the error state is the one of the `AnimationManager` model, which does not
cut the call short). -/
def callAnimMgr (app : App) (now : ℚ)
    (f : AnimationManager.Manager → AnimationManager.Manager) : Except App App :=
  match app.animMgr with
  | none => Except.error app
  | some am =>
    let am2 := f am
    let calls := am2.effects.drop am.effects.length
    let app2 : App :=
      runAnimCallbacks (calls.takeWhile (fun e => !AnimationManager.raisesTypeError e)) now
        { app with animMgr := some am2 }
    if calls.all (fun e => !AnimationManager.raisesTypeError e) then Except.ok app2
    else Except.error app2

/-- The method call `g_animMgr.f(...)` on the manager `am` returns: none of the calls the
manager makes on its collaborators during it raises. -/
def AnimCallReturns (am : AnimationManager.Manager)
    (f : AnimationManager.Manager → AnimationManager.Manager) : Prop :=
  ((f am).effects.drop am.effects.length).all
    (fun e => !AnimationManager.raisesTypeError e) = true

/-- No request of the list names a member of `Object.prototype`, neither as the clip to
play nor as a clip to disable. -/
def PlainNames (q : List AnimationManager.AnimOpts) : Prop :=
  ∀ r ∈ q, AnimationManager.inheritedName r.name = false ∧
    ∀ n ∈ r.disableAnims.getD [], AnimationManager.inheritedName n = false

/-- Handles of the callbacks `initActionStates()` registers, in the order of the source. -/
def H_IDLE_IN : ActionStateManager.Handler := 1

/-- Handle of the switch-in callback of the whistle state. -/
def H_WHISTLE_IN : ActionStateManager.Handler := 2

/-- Handle of the switch-out callback of the whistle state. -/
def H_WHISTLE_OUT : ActionStateManager.Handler := 3

/-- Handle of the switch-in callback of the umbrella state. -/
def H_UMBRELLA_IN : ActionStateManager.Handler := 4

/-- Handle of the switch-out callback of the umbrella state. -/
def H_UMBRELLA_OUT : ActionStateManager.Handler := 5

/-- Handle of the switch-in callback of the wave state. -/
def H_WAVE_IN : ActionStateManager.Handler := 6

/-- Handle of the switch-out callback of the wave state. -/
def H_WAVE_OUT : ActionStateManager.Handler := 7

/-- The manager `initActionStates()` builds. -/
def initActionStatesMgr : ActionStateManager.Manager :=
  ActionStateManager.addState
    (ActionStateManager.addState
      (ActionStateManager.addState
        (ActionStateManager.addState ActionStateManager.clearAll
          MDL_STATE_IDLE (some H_IDLE_IN) none)
        MDL_STATE_WHISTLE (some H_WHISTLE_IN) (some H_WHISTLE_OUT))
      MDL_STATE_UMBRELLA (some H_UMBRELLA_IN) (some H_UMBRELLA_OUT))
    MDL_STATE_WAVE (some H_WAVE_IN) (some H_WAVE_OUT)

/-- `initActionStates()`. -/
def initActionStates (app : App) : App :=
  match app.actionStateMgr with
  | some _ => app
  | none => { app with actionStateMgr := some initActionStatesMgr }

/-- The request `{"name": "Idle", "loop": true}` of the idle state. -/
def idleRequest : AnimationManager.AnimOpts :=
  { AnimationManager.AnimOpts.named "Idle" with loop := true }

/-- The requests of the switch-in callback of the whistle state. -/
def whistleRequests : List AnimationManager.AnimOpts :=
  [{ AnimationManager.AnimOpts.named "Pickup" with callback := some CB_PICKUP },
   { AnimationManager.AnimOpts.named "Whistle" with fadeTime := some 0, loop := true }]

/-- The request of the switch-out callback of the whistle state. -/
def whistleEndRequest : AnimationManager.AnimOpts :=
  { AnimationManager.AnimOpts.named "Pickup" with reverse := true, forcePlaythrough := true }

/-- The requests of the switch-in callback of the umbrella state. -/
def umbrellaRequests (umbrellaObj : AnimationManager.Root) :
    List AnimationManager.AnimOpts :=
  [{ AnimationManager.AnimOpts.named "UmbrellaOpen" with
      fadeTime := some 0, clamp := true, disableAnims := some ["UmbrellaClose"],
      isMixin := true, altRoot := some umbrellaObj },
   { AnimationManager.AnimOpts.named "UmbrellaRaise" with callback := some CB_UMBRELLA_RAISE },
   { AnimationManager.AnimOpts.named "UmbrellaIdle" with fadeTime := some 0, loop := true }]

/-- The requests of the switch-out callback of the umbrella state. -/
def umbrellaEndRequests (umbrellaObj : AnimationManager.Root) :
    List AnimationManager.AnimOpts :=
  [{ AnimationManager.AnimOpts.named "UmbrellaClose" with
      fadeTime := some 0, clamp := true, disableAnims := some ["UmbrellaOpen"],
      isMixin := true, altRoot := some umbrellaObj },
   { AnimationManager.AnimOpts.named "UmbrellaRaise" with
      reverse := true, forcePlaythrough := true }]

/-- The request of the switch-in callback of the wave state.  The source writes
`{"name": "Wave", "forcePlayThrough": true}`; the `AnimationManager` reads the property
`forcePlaythrough`, which this object does not have. -/
def waveRequest : AnimationManager.AnimOpts :=
  AnimationManager.AnimOpts.named "Wave"

/-- The sound the wave state plays, by the time of day in hours. -/
def waveSoundAt (hour : ℚ) : String :=
  if 6 < hour ∧ hour < 21 / 2 then "ohayo"
  else if 21 / 2 ≤ hour ∧ hour < 21 then "konnichiwa"
  else "konbanwa"

/-- The callbacks registered by `initActionStates()`, run at time `now` with the arguments
`(oldState, newState)`. -/
def runStateCallback (h : ActionStateManager.Handler) (oldState : String) (now : ℚ)
    (app : App) : Except App App :=
  if h = H_IDLE_IN then
    match app.animMgr with
    | none => Except.ok app
    | some _ =>
      callAnimMgr app now (fun am =>
        AnimationManager.queueAnimations am (AnimationManager.Anims.many [idleRequest]) false)
  else if h = H_WHISTLE_IN then
    match app.animMgr with
    | none => Except.ok app
    | some _ =>
      callAnimMgr app now (fun am =>
        AnimationManager.playAnimations am (AnimationManager.Anims.many whistleRequests))
  else if h = H_WHISTLE_OUT then
    let played : Except App App :=
      match app.animMgr with
      | none => Except.ok app
      | some _ =>
        callAnimMgr app now (fun am =>
          AnimationManager.playAnimations am
            (AnimationManager.Anims.many [whistleEndRequest]))
    match played with
    | Except.error a => Except.error a
    | Except.ok app1 =>
      match app1.timerIdWhistle with
      | some id => Except.ok { clearTimeout app1 id with timerIdWhistle := none }
      | none => Except.ok (stopAudio app1 "flute" 1)
  else if h = H_UMBRELLA_IN then
    match app.animMgr, app.umbrellaObj with
    | some _, some obj =>
      callAnimMgr app now (fun am =>
        AnimationManager.playAnimations am (AnimationManager.Anims.many (umbrellaRequests obj)))
    | _, _ => Except.ok app
  else if h = H_UMBRELLA_OUT then
    match app.animMgr, app.umbrellaObj with
    | some _, some obj =>
      let app1 : App :=
        match app.timerIdUmbrellaShow with
        | some id => { clearTimeout app id with timerIdUmbrellaShow := none }
        | none => app
      let r := setTimeout app1 now (2360 - 600) TimerAction.umbrellaHide
      match callAnimMgr { r.2 with timerIdUmbrellaHide := some r.1 } now (fun am =>
          AnimationManager.playAnimations am
            (AnimationManager.Anims.many (umbrellaEndRequests obj))) with
      | Except.error a => Except.error a
      | Except.ok app2 => Except.ok (stopAudio app2 "rain" 2)
    | _, _ => Except.ok app
  else if h = H_WAVE_IN then
    match app.animMgr with
    | none => Except.ok app
    | some _ =>
      match callAnimMgr app now (fun am =>
          AnimationManager.playAnimations am (AnimationManager.Anims.many [waveRequest])) with
      | Except.error a => Except.error a
      | Except.ok app1 =>
        match app1.animMgr.bind (fun am => AnimationManager.getAnimClip am "Wave") with
        | none => Except.error app1
        | some clip =>
          let r := setTimeout app1 now
            (max ((clip.duration - AnimationManager.defaultFadeTime) * 1000) 0)
            (TimerAction.waveEnd oldState)
          let app2 : App :=
            { r.2 with timerIdWaveEnd := some r.1, curWaveSound := waveSoundAt app.hourOfDay }
          Except.ok (playAudio app2 app2.curWaveSound true false 0)
  else if h = H_WAVE_OUT then
    let app1 : App :=
      match app.timerIdWaveEnd with
      | some id => { clearTimeout app id with timerIdWaveEnd := none }
      | none => app
    Except.ok (stopAudio app1 app1.curWaveSound 0)
  else Except.ok app

/-- `g_actionStateMgr.switchState(stateName)` at time `now`, with the callbacks of
`initActionStates()` acting on the driver state: the returned boolean and the state
afterwards.  A callback that raises leaves the current state as it is at that moment. -/
def switchState (app : App) (stateName : String) (now : ℚ) : Except App (Bool × App) :=
  match app.actionStateMgr with
  | none => Except.error app
  | some mgr =>
    match ActionStateManager.lookup mgr stateName with
    | none => Except.ok (false, app)
    | some newState =>
      let oldStateName := mgr.currentStateName
      let afterOut : Except App App :=
        match (ActionStateManager.lookup mgr oldStateName).bind (fun o => o.switchOutFn) with
        | some f => runStateCallback f oldStateName now app
        | none => Except.ok app
      match afterOut with
      | Except.error a => Except.error a
      | Except.ok app1 =>
        let app2 : App :=
          { app1 with
            actionStateMgr :=
              app1.actionStateMgr.map (fun g => { g with currentStateName := stateName }) }
        match newState.switchInFn with
        | some g =>
          match runStateCallback g oldStateName now app2 with
          | Except.error a => Except.error a
          | Except.ok app3 => Except.ok (true, app3)
        | none => Except.ok (true, app2)

/-- `_resetAngerData(g_modelMesh)`. -/
def resetAngerData (app : App) : App :=
  let app1 : App :=
    match app.angerData.bind (fun ad => ad.coolOffId) with
    | some id => clearTimeout app id
    | none => app
  { app1 with angerData := some { level := 0, cooldown := 0, coolOffId := none } }

/-- `triggerRoarEffect()`: the call is counted; positioning and playing the roar object is
rendering. -/
def triggerRoarEffect (app : App) : App :=
  { app with roarTriggers := app.roarTriggers + 1 }

/-- The request `{"name": "Poked", "fadeTime": 0.1, "isMixin": true}`. -/
def pokedRequest : AnimationManager.AnimOpts :=
  { AnimationManager.AnimOpts.named "Poked" with fadeTime := some (1 / 10), isMixin := true }

/-- The start of the cool-off timeout in `handleModelHit`: the pending cool-off timer of
the anger data, if any, is cancelled and a new one is started; the id of the new timer and
the state afterwards. -/
def restartCoolOff (app : App) (angerData : AngerData) (curTime : ℚ) : Nat × App :=
  setTimeout
    (match angerData.coolOffId with
      | some id => clearTimeout app id
      | none => app)
    curTime 5000 TimerAction.coolOff

/-- The part of `handleModelHit` that follows the increment of the anger level: `raised`
is the anger data object after the increment, already stored in `app`.  The feedback is
chosen by the new level, and at level 3 or more the anger data is reset, the state machine
is switched to the wave state and the roar effect is triggered. -/
def handleClearedHit (app : App) (raised : AngerData) (curTime : ℚ) : Except App App :=
  let soundToPlay : Option String :=
    if raised.level = 3 then none
    else if raised.level = 2 then some "poke2"
    else some "poke1"
  let animated : Except App App :=
    if raised.level = 3 then Except.ok app
    else
      callAnimMgr app curTime (fun am =>
        AnimationManager.playAnimations am (AnimationManager.Anims.many [pokedRequest]))
  match animated with
  | Except.error a => Except.error a
  | Except.ok app4 =>
    let app5 : App :=
      match soundToPlay with
      | some s => playAudio app4 s true false 0
      | none => app4
    if 3 ≤ raised.level then
      match switchState (resetAngerData app5) MDL_STATE_WAVE curTime with
      | Except.error a => Except.error a
      | Except.ok sw => Except.ok (triggerRoarEffect sw.2)
    else Except.ok app5

/-- `handleModelHit(hit)` with `performance.now()` returning `curTime`. -/
def handleModelHit (app : App) (curTime : ℚ) : Except App App :=
  match app.actionStateMgr with
  | none => Except.error app
  | some mgr =>
    if ActionStateManager.getState mgr ≠ MDL_STATE_IDLE then
      if ActionStateManager.getState mgr ≠ MDL_STATE_WAVE then
        Except.ok (playAudio app "nopoke" true false 0)
      else Except.ok app
    else
      let app1 : App :=
        match app.angerData with
        | none => resetAngerData app
        | some _ => app
      match app1.angerData with
      | none => Except.ok app1
      | some angerData =>
        let r := restartCoolOff app1 angerData curTime
        let cooldownExpireTime := angerData.cooldown
        let gated : AngerData :=
          { angerData with coolOffId := some r.1, cooldown := curTime + 2500 }
        if curTime ≤ cooldownExpireTime then
          Except.ok (playAudio { r.2 with angerData := some gated } "nopoke" true false 0)
        else
          let raised : AngerData := { gated with level := gated.level + 1 }
          handleClearedHit { r.2 with angerData := some raised } raised curTime

/-- The state the driver is left in by a call, whether it returned or raised. -/
def stateAfter (r : Except App App) : App :=
  match r with
  | Except.ok a => a
  | Except.error a => a

/-- The anger data a hit works on: the stored object, or the fresh one `handleModelHit`
creates on the first hit. -/
def angerOf (app : App) : AngerData :=
  app.angerData.getD { level := 0, cooldown := 0, coolOffId := none }

/-- The behaviour state machine is the one `initActionStates()` set up: its registry is
the one of `initActionStatesMgr` (the driver never adds or removes a state afterwards). -/
def SetUp (mgr : ActionStateManager.Manager) : Prop :=
  mgr.own = initActionStatesMgr.own ∧ mgr.proto = none

/-- Every timer id in use, pending or stored in a `g_timerId...` variable, was handed out
by an earlier `window.setTimeout`, which never hands out an id twice. -/
def FreshTimerIds (app : App) : Prop :=
  ∀ id : Nat,
    (app.timerIdWhistle = some id ∨ app.timerIdWaveEnd = some id ∨
      app.timerIdUmbrellaShow = some id ∨ app.timerIdUmbrellaHide = some id ∨
      ∃ t ∈ app.timers, t.id = id) →
    id < app.nextTimerId

/-- Whether a call on the audio manager plays one of the cues of `handleModelHit`:
`"poke1"`, `"poke2"` or the neutral `"nopoke"`. -/
def isPokeCue : AudioCall → Bool
  | AudioCall.playAudio name _ _ _ =>
    decide (name = "poke1") || decide (name = "poke2") || decide (name = "nopoke")
  | AudioCall.stopAudio _ _ => false

/-- A step of the driver from `app` to `a` that is quiet as far as the anger escalation is
concerned: it keeps the behaviour state machine, the anger data and the roar count, plays
no poke cue, and leaves no cool-off timer pending that was not pending before. -/
def Quiet (app a : App) : Prop :=
  a.actionStateMgr = app.actionStateMgr ∧ a.angerData = app.angerData ∧
    a.roarTriggers = app.roarTriggers ∧
    a.audio.filter isPokeCue = app.audio.filter isPokeCue ∧
    ∀ t ∈ a.timers, t.action = TimerAction.coolOff → t ∈ app.timers

/-- The clips of the model used for concrete runs: `Idle` (2 s), `Wave` (3 s), `Poked`
(0.5 s). -/
def modelClips : String → Option AnimationManager.Clip := fun name =>
  if name = "Idle" then some ⟨"Idle", 2⟩
  else if name = "Wave" then some ⟨"Wave", 3⟩
  else if name = "Poked" then some ⟨"Poked", 1 / 2⟩
  else none

/-- The driver state after the model was placed: the state machine of
`initActionStates()` in the idle state, an `AnimationManager` for `modelClips` that plays
the looping `Idle` request, no anger data yet, no timer pending, at 12 o'clock. -/
def placedApp : App :=
  { actionStateMgr := some { initActionStatesMgr with currentStateName := MDL_STATE_IDLE }
    animMgr := some
      (AnimationManager.queueAnimations (AnimationManager.create modelClips)
        (AnimationManager.Anims.many [idleRequest]) false)
    angerData := none
    umbrellaObj := none
    hourOfDay := 12
    curWaveSound := "konnichiwa"
    timerIdWhistle := none
    timerIdWaveEnd := none
    timerIdUmbrellaShow := none
    timerIdUmbrellaHide := none
    timers := []
    nextTimerId := 1
    audio := []
    roarTriggers := 0 }

/-- The state `placedApp` with the given anger data. -/
def placedAppWith (ad : AngerData) : App :=
  { placedApp with angerData := some ad }

/-- The state `placedApp` at anger level 2: the cooldown runs until 5500 ms and the
cool-off timer with id 2 is pending for 8000 ms. -/
def angryApp : App :=
  { placedApp with
    angerData := some { level := 2, cooldown := 5500, coolOffId := some 2 }
    timers := [⟨2, 8000, TimerAction.coolOff⟩]
    nextTimerId := 3 }

/-- `_coolOffFn(angerData)` run at time `now`.  The object it is passed is the anger data
object stored on the model: `_resetAngerData`, the only place where that object is
replaced, cancels the pending cool-off timer first. -/
def coolOffFn (app : App) (angerData : AngerData) (now : ℚ) : App :=
  let cooled : AngerData :=
    if 0 < angerData.level then { angerData with level := angerData.level - 1 }
    else angerData
  let app1 : App :=
    if 0 < angerData.level then playAudio app "sigh" true false 0 else app
  if 0 < cooled.level then
    let r := setTimeout app1 now 5000 TimerAction.coolOff
    { r.2 with angerData := some { cooled with coolOffId := some r.1 } }
  else { app1 with angerData := some { cooled with coolOffId := none } }

/-- The cool-off timer with id `id` fires at time `now`: it is no longer pending, and
`_coolOffFn` runs on the stored anger data. -/
def fireCoolOff (app : App) (id : Nat) (now : ℚ) : App :=
  match app.angerData with
  | some angerData => coolOffFn (clearTimeout app id) angerData now
  | none => clearTimeout app id

/-- The state a `switchState` call leaves the driver in, whether it returned or raised. -/
def stateAfterSwitch (r : Except App (Bool × App)) : App :=
  match r with
  | Except.ok sw => sw.2
  | Except.error a => a

/-- The stored level is one of `0`, `1`, `2` (also when no anger data was created yet). -/
def LevelBounded (app : App) : Prop :=
  0 ≤ (angerOf app).level ∧ (angerOf app).level ≤ 2

/-- The driver states reachable from a `_resetAngerData` call through `handleModelHit`
calls at any time (whether they return or raise), firings of a cool-off timer,
`_resetAngerData` calls, and any other step of the driver that leaves the anger data alone
(which covers every change of the behaviour state). -/
inductive AngerReachable : App → Prop where
  | reset (app : App) : AngerReachable (resetAngerData app)
  | hit (app : App) (t : ℚ) :
      AngerReachable app → AngerReachable (stateAfter (handleModelHit app t))
  | coolOff (app : App) (id : Nat) (t : ℚ) :
      AngerReachable app → AngerReachable (fireCoolOff app id t)
  | other (app app2 : App) :
      AngerReachable app → app2.angerData = app.angerData → AngerReachable app2

/-- The animation manager is absent, or it knows the `"Wave"` clip and its `playAnimations`
call for the wave request returns. -/
def WaveReady (app : App) : Prop :=
  ∀ am, app.animMgr = some am →
    am.animClips "Wave" ≠ none ∧
    AnimCallReturns am (fun am =>
      AnimationManager.playAnimations am (AnimationManager.Anims.many [waveRequest]))

/-- Handle of a callback registered on a HUD element with `setActionCallback`. -/
abbrev UICallback := Nat

/-- A UI element of the HUD, as far as `handleSelectDelayed` looks at it: the `visible`
flag of the object and its `userData.disabled`, `userData.uiAction` and
`userData.uiCallback` (`none` when no callback was set). -/
structure UIElement where
  visible : Bool
  disabled : Bool
  uiAction : String
  uiCallback : Option UICallback
deriving DecidableEq, Repr

/-- What the ray of an input pose meets: the HUD objects on the ray, nearest first and
whether visible or not, and whether the ray meets the model. -/
structure Ray where
  hudOnRay : List UIElement
  modelOnRay : Bool
deriving DecidableEq, Repr

/-- The variables of the driver that `handleSelectDelayed` uses besides those of `App`:
`g_storedSelectData` (`none` is `null`; `some none` is a stored event whose `inputPose` is
`null`), `g_recticle.isStable`, `g_modelMesh.visible`, `g_btnSndsActive`, and the number
of times the model was put at the position of the reticle.  `g_hud`, `g_raycaster`,
`g_modelMesh` and `g_recticle` exist. -/
structure Session where
  app : App
  storedSelectData : Option (Option Ray)
  recticleIsStable : Bool
  modelVisible : Bool
  btnSndsActive : Bool
  placements : Nat

/-- A handler that `handleSelectDelayed` invokes itself. -/
inductive Invoked where
  | uiCallback (cb : UICallback) (action : String)
  | modelHit
deriving DecidableEq, Repr

/-- What the callbacks set on the HUD elements do when they are called with the action
name: they are functions of the driver that may do anything to its state, or raise. -/
abbrev UIEnv := UICallback → String → Session → Except Session Session

/-- The outcome of a `handleSelectDelayed` call: the state it returns or raises with, and
the handlers it invoked itself, in order. -/
structure SelectResult where
  result : Except Session Session
  invoked : List Invoked

/-- `g_raycaster.castRay(inputPose, g_hud.getObjectsForRaycasting())`: the objects handed
to the raycaster are the visible HUD objects. -/
def castRayOnHud (ray : Ray) : List UIElement :=
  ray.hudOnRay.filter (fun obj => obj.visible)

/-- The part of `handleSelectDelayed` inside `if ( inputPose )`: the state afterwards,
the value of `gotVirtualHit`, and the handlers invoked. -/
def resolveVirtualHit (env : UIEnv) (s : Session) (ray : Ray) (now : ℚ) :
    Except Session Session × Bool × List Invoked :=
  match castRayOnHud ray with
  | hit :: _ =>
    if !hit.disabled then
      let s1 : Session :=
        if s.btnSndsActive ∧ hit.uiAction ≠ "move" then
          { s with app := playAudio s.app "btn_pos" false false 0 }
        else s
      match hit.uiCallback with
      | some cb => (env cb hit.uiAction s1, true, [Invoked.uiCallback cb hit.uiAction])
      | none => (Except.ok s1, true, [])
    else
      (Except.ok
        (if s.btnSndsActive then { s with app := playAudio s.app "btn_neg" false false 0 }
         else s),
        true, [])
  | [] =>
    if ray.modelOnRay then
      ((match handleModelHit s.app now with
        | Except.ok a => Except.ok { s with app := a }
        | Except.error a => Except.error { s with app := a }),
        true, [Invoked.modelHit])
    else (Except.ok s, false, [])

/-- The end of `handleSelectDelayed`, reached when no virtual object was hit: on a stable
reticle the model is shown at the position of the reticle, the reticle is disabled and the
state machine, if there is one, is switched to the idle state. -/
def placeOnRecticle (s : Session) (now : ℚ) : Except Session Session :=
  if s.recticleIsStable then
    let s1 : Session :=
      { s with modelVisible := true, recticleIsStable := false, placements := s.placements + 1 }
    match s1.app.actionStateMgr with
    | none => Except.ok s1
    | some _ =>
      match switchState s1.app MDL_STATE_IDLE now with
      | Except.ok sw => Except.ok { s1 with app := sw.2 }
      | Except.error a => Except.error { s1 with app := a }
  else Except.ok s

/-- `handleSelectDelayed()` with `performance.now()` returning `now`.  An exception raised
by a handler leaves `g_storedSelectData` as it is. -/
def handleSelectDelayed (env : UIEnv) (s : Session) (now : ℚ) : SelectResult :=
  match s.storedSelectData with
  | none => { result := Except.ok s, invoked := [] }
  | some inputPose =>
    let virt : Except Session Session × Bool × List Invoked :=
      match inputPose with
      | some ray => resolveVirtualHit env s ray now
      | none => (Except.ok s, false, [])
    match virt.1 with
    | Except.error e => { result := Except.error e, invoked := virt.2.2 }
    | Except.ok s2 =>
      let s3 : Session := { s2 with storedSelectData := none }
      if virt.2.1 then { result := Except.ok s3, invoked := virt.2.2 }
      else { result := placeOnRecticle s3 now, invoked := virt.2.2 }

/-- The state a `handleSelectDelayed` call leaves the driver in, whether it returned or
raised. -/
def sessionAfter (r : SelectResult) : Session :=
  match r.result with
  | Except.ok s => s
  | Except.error s => s

/-- The driver state before the model is placed: the state machine of
`initActionStates()` in its initial state, a new `AnimationManager` for `modelClips`. -/
def unplacedApp : App :=
  { placedApp with
    actionStateMgr := some initActionStatesMgr
    animMgr := some (AnimationManager.create modelClips) }

/-- A session in which a select event without a hit is stored while the reticle is stable
and the model is not placed yet. -/
def missedSelect : Session :=
  { app := unplacedApp
    storedSelectData := some (some { hudOnRay := [], modelOnRay := false })
    recticleIsStable := true
    modelVisible := false
    btnSndsActive := true
    placements := 0 }

/-- A UI environment whose callbacks do nothing. -/
def inertUI : UIEnv := fun _ _ s => Except.ok s

/-- A pending timer fires at time `now`: it is no longer pending and its function runs.
The cool-off timer runs `_coolOffFn` on the stored anger data; the flute timer clears
`g_timerIdWhistle` and starts the looping flute sound; the wave-end timer clears
`g_timerIdWaveEnd` and calls `g_actionStateMgr.switchState(oldState)`; the umbrella
timers clear their variable and show or hide the umbrella, which is rendering.  An
exception raised by a timer function ends that function only. -/
def fireTimer (app : App) (x : Timer) (now : ℚ) : Except App App :=
  match x.action with
  | TimerAction.coolOff => Except.ok (fireCoolOff app x.id now)
  | TimerAction.whistleFlute =>
    Except.ok (playAudio { clearTimeout app x.id with timerIdWhistle := none } "flute" true true 0)
  | TimerAction.waveEnd oldState =>
    match switchState { clearTimeout app x.id with timerIdWaveEnd := none } oldState now with
    | Except.ok sw => Except.ok sw.2
    | Except.error a => Except.error a
  | TimerAction.umbrellaShow =>
    Except.ok { clearTimeout app x.id with timerIdUmbrellaShow := none }
  | TimerAction.umbrellaHide =>
    Except.ok { clearTimeout app x.id with timerIdUmbrellaHide := none }

/-- The part of `onXRFrame` that acts on the driver state before `handleSelectDelayed()`:
`g_animMgr.update(deltaSeconds)` if there is an animation manager. -/
def frameUpdate (app : App) (now delta : ℚ) : Except App App :=
  match app.animMgr with
  | none => Except.ok app
  | some _ => callAnimMgr app now (fun am => AnimationManager.update am delta)

/-- What the driver does by itself, without an input of the user, at times up to `hi`:
`Elapses hi app a` holds when `a` is reached from `app` by firings of pending timers, each
at a time at or after the time it is due, and by frames, in any order and number. -/
inductive Elapses (hi : ℚ) : App → App → Prop where
  | done (app : App) : Elapses hi app app
  | timer (app a : App) (x : Timer) (now : ℚ) :
      x ∈ app.timers → x.due ≤ now → now ≤ hi →
      Elapses hi (stateAfter (fireTimer app x now)) a → Elapses hi app a
  | frame (app a : App) (now delta : ℚ) :
      now ≤ hi → Elapses hi (stateAfter (frameUpdate app now delta)) a → Elapses hi app a

/-- The only cool-off timer that can be pending is the one whose id is stored in the anger
data: `handleModelHit` and `_coolOffFn` store the id of the timer they start, and
`_resetAngerData` cancels the stored timer before it replaces the object. -/
def CoolOffTracked (app : App) : Prop :=
  ∀ x ∈ app.timers, x.action = TimerAction.coolOff → (angerOf app).coolOffId = some x.id

/-- No wave-end timer is pending: the timer is started when the wave state is entered and
cancelled when it is left. -/
def NoWaveEndPending (app : App) : Prop :=
  ∀ x ∈ app.timers, ∀ oldState, x.action ≠ TimerAction.waveEnd oldState

/-- A step of the driver from `app` to `a` that leaves the anger data alone and starts no
cool-off timer. -/
def Calm (app a : App) : Prop :=
  a.angerData = app.angerData ∧
    ∀ x ∈ a.timers, x.action = TimerAction.coolOff → x ∈ app.timers

/-- A step of the driver from `app` to `a` that leaves the behaviour state machine and the
anger data alone and starts neither a cool-off timer nor a wave-end timer. -/
def Still (app a : App) : Prop :=
  a.actionStateMgr = app.actionStateMgr ∧ a.angerData = app.angerData ∧
    ∀ x ∈ a.timers, x ∈ app.timers ∨
      (x.action ≠ TimerAction.coolOff ∧ ∀ oldState, x.action ≠ TimerAction.waveEnd oldState)

/-- The clips of a model whose `Wave` clip lasts one second. -/
def shortWaveClips : String → Option AnimationManager.Clip := fun name =>
  if name = "Idle" then some ⟨"Idle", 2⟩
  else if name = "Wave" then some ⟨"Wave", 1⟩
  else if name = "Poked" then some ⟨"Poked", 1 / 2⟩
  else none

/-- The state `angryApp` for the model with the clips `shortWaveClips`. -/
def angryShortWave : App :=
  { angryApp with
    animMgr := some
      (AnimationManager.queueAnimations (AnimationManager.create shortWaveClips)
        (AnimationManager.Anims.many [idleRequest]) false) }

/-- The clips of a model that has no `Wave` clip. -/
def waveLessClips : String → Option AnimationManager.Clip := fun name =>
  if name = "Idle" then some ⟨"Idle", 2⟩
  else if name = "Poked" then some ⟨"Poked", 1 / 2⟩
  else none

/-- The state `angryApp` for the model with the clips `waveLessClips`. -/
def angryWaveLess : App :=
  { angryApp with
    animMgr := some
      (AnimationManager.queueAnimations (AnimationManager.create waveLessClips)
        (AnimationManager.Anims.many [idleRequest]) false) }

/-- The driver state after the fallback box was placed: no glTF model could be loaded, so
`g_animMgr` is `null`; the state machine is in the idle state, at anger level 1 with the
cooldown over at 5500 ms and the cool-off timer with id 1 pending for 8000 ms. -/
def boxApp : App :=
  { placedApp with
    animMgr := none
    angerData := some { level := 1, cooldown := 5500, coolOffId := some 1 }
    timers := [⟨1, 8000, TimerAction.coolOff⟩]
    nextTimerId := 2 }

/-- A session with the fallback box placed and idle, no anger data yet, in which a select
event is stored whose ray meets no HUD element and meets the box. -/
def boxSession : Session :=
  { app := { placedApp with animMgr := none }
    storedSelectData := some (some { hudOnRay := [], modelOnRay := true })
    recticleIsStable := false
    modelVisible := true
    btnSndsActive := true
    placements := 1 }

/-- The wave-end timer is tracked: a pending wave-end timer is the one whose id is stored in
`g_timerIdWaveEnd`, and the wave state is current while it is pending (the switch-in
callback of the wave state starts it, its switch-out callback and `stopModelAnimations()`
cancel it). -/
def WaveEndTracked (app : App) : Prop :=
  ∀ x ∈ app.timers, ∀ oldState, x.action = TimerAction.waveEnd oldState →
    app.timerIdWaveEnd = some x.id ∧
      ∀ mgr, app.actionStateMgr = some mgr →
        ActionStateManager.getState mgr = MDL_STATE_WAVE

/-- The bookkeeping the driver keeps: the state machine, once created, has the registry of
`initActionStates()`, and its cool-off timer and wave-end timer are tracked. -/
def Tracked (app : App) : Prop :=
  (∀ mgr, app.actionStateMgr = some mgr → SetUp mgr) ∧ CoolOffTracked app ∧
    WaveEndTracked app

/-- A step of the driver from `app` to `a` that is still and leaves `g_timerIdWaveEnd`
alone. -/
def Kept (app a : App) : Prop :=
  a.timerIdWaveEnd = app.timerIdWaveEnd ∧ Still app a

/-- `stopModelAnimations()` at time `now`: `g_animMgr.stopAll()` if there is an animation
manager, then each of the four timers of the behaviour states is cancelled and its variable
cleared. -/
def stopModelAnimations (app : App) (now : ℚ) : Except App App :=
  let stopped : Except App App :=
    match app.animMgr with
    | none => Except.ok app
    | some _ => callAnimMgr app now AnimationManager.stopAll
  match stopped with
  | Except.error a => Except.error a
  | Except.ok app1 =>
    let app2 : App :=
      match app1.timerIdWhistle with
      | some id => { clearTimeout app1 id with timerIdWhistle := none }
      | none => app1
    let app3 : App :=
      match app2.timerIdWaveEnd with
      | some id => { clearTimeout app2 id with timerIdWaveEnd := none }
      | none => app2
    let app4 : App :=
      match app3.timerIdUmbrellaShow with
      | some id => { clearTimeout app3 id with timerIdUmbrellaShow := none }
      | none => app3
    let app5 : App :=
      match app4.timerIdUmbrellaHide with
      | some id => { clearTimeout app4 id with timerIdUmbrellaHide := none }
      | none => app4
    Except.ok app5

/-- The driver states reachable from a state without pending timers (the state machine not
yet created, or created by `initActionStates()`) through body hits, firings of pending
timers, frames, `switchState` calls (placing the model, the umbrella and whistle buttons),
`_resetAngerData` and `stopModelAnimations()` calls (the end of a session), the callback of
the delete button (`_resetAngerData`, `stopModelAnimations()` and, when that returned,
`g_actionStateMgr.reset()`), and any other step that leaves the state machine, the anger
data, the pending timers and `g_timerIdWaveEnd` alone; each whether it returns or raises. -/
inductive DriverReachable : App → Prop where
  | start (app : App) :
      app.timers = [] → (∀ mgr, app.actionStateMgr = some mgr → SetUp mgr) →
      DriverReachable app
  | hit (app : App) (t : ℚ) :
      DriverReachable app → DriverReachable (stateAfter (handleModelHit app t))
  | timer (app : App) (x : Timer) (now : ℚ) :
      DriverReachable app → x ∈ app.timers →
      DriverReachable (stateAfter (fireTimer app x now))
  | frame (app : App) (now delta : ℚ) :
      DriverReachable app → DriverReachable (stateAfter (frameUpdate app now delta))
  | switch (app : App) (stateName : String) (now : ℚ) :
      DriverReachable app →
      DriverReachable (stateAfterSwitch (switchState app stateName now))
  | resetAnger (app : App) :
      DriverReachable app → DriverReachable (resetAngerData app)
  | stop (app : App) (now : ℚ) :
      DriverReachable app → DriverReachable (stateAfter (stopModelAnimations app now))
  | delete (app a : App) (now : ℚ) :
      DriverReachable app → stopModelAnimations (resetAngerData app) now = Except.ok a →
      DriverReachable
        { a with actionStateMgr := a.actionStateMgr.map ActionStateManager.reset }
  | other (app a : App) :
      DriverReachable app → a.actionStateMgr = app.actionStateMgr →
      a.angerData = app.angerData → a.timers = app.timers →
      a.timerIdWaveEnd = app.timerIdWaveEnd → DriverReachable a

end Totoroar

/-! ## Properties of the behaviour state machine -/

namespace ActionStateManager

/-- A name that `this.states[name]` does not resolve is rejected: `switchState` returns
`false`, the manager is unchanged and no callback is invoked. -/
theorem switchState_unresolved (env : Env) (m : Manager) (name : String)
    (h : lookup m name = none) :
    (switchState env m name).ok = false ∧ (switchState env m name).mgr = m ∧
      (switchState env m name).calls = [] ∧ (switchState env m name).raised = false := by
  simp [switchState, h]

/-- On a manager whose `states` object still has its original prototype, a name that is
neither an own property nor a member of `Object.prototype` is not resolved. -/
theorem lookup_eq_none_of_plain (m : Manager) (name : String) (hproto : m.proto = none)
    (hown : m.own.lookup name = none) (hmem : name ∉ objectPrototypeMembers)
    (hne : name ≠ "__proto__") : lookup m name = none := by
  simp [lookup, hne, hown, hproto, inheritedMember, hmem]

/-- C1, the code at the failing input: on a freshly constructed manager, where no state
was ever added, `switchState("toString")` finds the method every object inherits from
`Object.prototype`; it returns `true` and makes `"toString"` the current state, without
invoking a callback. -/
theorem switchState_inherited_name (env : Env) :
    clearAll.own = [] ∧
      (switchState env clearAll "toString").ok = true ∧
      getState (switchState env clearAll "toString").mgr = "toString" ∧
      getState clearAll = UNDEFINED_STATE ∧
      (switchState env clearAll "toString").calls = [] ∧
      (switchState env clearAll "toString").raised = false :=
  ⟨rfl, rfl, rfl, rfl, rfl, rfl⟩

/-- A registered name is resolved by `this.states[name]`, to the registered entry. -/
theorem lookup_of_registered (m : Manager) (name : String) (e : StateEntry)
    (h : registeredEntry m name = some e) : lookup m name = some e := by
  unfold registeredEntry at h
  by_cases hp : name = "__proto__"
  · simp only [hp, if_true] at h
    simp [lookup, hp, h]
  · simp only [hp, if_false] at h
    simp [lookup, hp, h]

/-- The `switchOutFn` that `switchState` finds for a name is the one of the entry
registered under it; a name that is not registered has none. -/
theorem lookup_switchOutFn (m : Manager) (name : String) :
    (lookup m name).bind (fun o => o.switchOutFn)
      = (registeredEntry m name).bind (fun o => o.switchOutFn) := by
  have hin : ∀ x : String, (inheritedMember x).bind (fun o => o.switchOutFn) = none := by
    intro x
    unfold inheritedMember
    split_ifs <;> simp [noHandlers]
  have hmap : ∀ o : Option Handler,
      (o.map (fun _ => noHandlers)).bind (fun o => o.switchOutFn) = none := by
    intro o; cases o <;> simp [noHandlers]
  unfold registeredEntry
  by_cases hp : name = "__proto__"
  · cases hpr : m.proto <;> simp [lookup, hp, hpr, noHandlers]
  · cases hown : m.own.lookup name with
    | some e => simp [lookup, hp, hown]
    | none =>
      cases hpr : m.proto with
      | none => simp [lookup, hp, hown, hpr, hin]
      | some e =>
        simp only [lookup, hp, hown, hpr, if_false]
        split_ifs
        · simpa using hmap e.switchInFn
        · simpa using hmap e.switchOutFn
        · simpa using hin name

/-- What `switchState(n)` does when `this.states[n]` resolves to `newState`, for callbacks
that may raise.  The call never returns `false`: it returns `true` unless a callback
raises.  The callbacks invoked are a beginning of the list made of the `switchOutFn` of
the entry registered under the current state (entered while `getState()` is the old state)
and the `switchInFn` of `newState` (entered while `getState()` is `n`), and the whole list
when no callback raises; the `switchInFn` runs on the manager the `switchOutFn` left, with
the current state set to `n`.  When the `switchOutFn` raises, nothing else is done. -/
theorem switchState_resolved (env : Env) (m : Manager) (n : String) (newState : StateEntry)
    (hl : lookup m n = some newState) :
    (switchState env m n).ok = !(switchState env m n).raised ∧
      (switchState env m n).calls <+:
        (((registeredEntry m (getState m)).bind (fun o => o.switchOutFn)).map
            (fun f => Call.mk f (getState m) n (getState m))).toList
          ++ (newState.switchInFn.map (fun g => Call.mk g (getState m) n n)).toList ∧
      ((switchState env m n).raised = false →
        (switchState env m n).calls =
          (((registeredEntry m (getState m)).bind (fun o => o.switchOutFn)).map
              (fun f => Call.mk f (getState m) n (getState m))).toList
            ++ (newState.switchInFn.map (fun g => Call.mk g (getState m) n n)).toList ∧
        ∃ m1,
          (match (registeredEntry m (getState m)).bind (fun o => o.switchOutFn) with
            | some f => env f (getState m) n m
            | none => Except.ok m) = Except.ok m1 ∧
          (match newState.switchInFn with
            | some g => env g (getState m) n { m1 with currentStateName := n }
            | none => Except.ok { m1 with currentStateName := n })
            = Except.ok (switchState env m n).mgr) ∧
      (∀ f m1, (registeredEntry m (getState m)).bind (fun o => o.switchOutFn) = some f →
        env f (getState m) n m = Except.error m1 →
        (switchState env m n).raised = true ∧ (switchState env m n).mgr = m1 ∧
          (switchState env m n).calls = [Call.mk f (getState m) n (getState m)]) := by
  have ho := lookup_switchOutFn m m.currentStateName
  simp only [getState]
  cases hout : (registeredEntry m m.currentStateName).bind (fun o => o.switchOutFn) with
  | none =>
    rw [hout] at ho
    cases hin : newState.switchInFn with
    | none => simp [switchState, hl, ho, hin, getState]
    | some g =>
      cases hg : env g m.currentStateName n { m with currentStateName := n } <;>
        simp [switchState, hl, ho, hin, hg, getState]
  | some f =>
    rw [hout] at ho
    cases hf : env f m.currentStateName n m with
    | error m1 =>
      simp [switchState, hl, ho, hf, getState]
      intro f2 m2 h2 e2
      subst h2
      rw [hf] at e2
      exact ⟨Except.error.inj e2, rfl⟩
    | ok m1 =>
      have hno : ∀ (f2 : Handler) (m2 : Manager), f = f2 →
          ¬ env f2 m.currentStateName n m = Except.error m2 := by
        intro f2 m2 h2 e2
        subst h2
        rw [hf] at e2
        cases e2
      cases hin : newState.switchInFn with
      | none =>
        simp [switchState, hl, ho, hin, hf, getState]
        exact hno
      | some g =>
        cases hg : env g m.currentStateName n { m1 with currentStateName := n } <;>
          simp [switchState, hl, ho, hin, hf, hg, getState] <;> exact hno

/-- As long as no `switchOutFn` is registered under the name of the sentinel while the
sentinel is the current state, the exit callback named by the specification is the
`switchOutFn` of the entry registered under the current state. -/
theorem specExit_eq (m : Manager)
    (hsent : getState m = UNDEFINED_STATE →
      (registeredEntry m UNDEFINED_STATE).bind (fun o => o.switchOutFn) = none) :
    specExit m = (registeredEntry m (getState m)).bind (fun o => o.switchOutFn) := by
  unfold specExit
  by_cases hc : getState m = UNDEFINED_STATE
  · rw [if_pos hc, hc, hsent hc]
  · rw [if_neg hc]

/-- C2, as amended: `switchState(n)` for a registered name `n` with entry `newState`, in a
state other than the one where the sentinel is current and has a `switchOutFn` registered
under its name.  The call returns `true` unless a callback raises, and never `false`.  The
callbacks it invokes are a beginning of the list `specCalls`, and the whole list when no
callback raises: the `switchOutFn(c, n)` of the current state `c` if `c` is still
registered and has one (none if `c` was removed or is the sentinel), entered while
`getState()` is `c`, then the `switchInFn(c, n)` of `newState`, if there is one, entered
on the manager the `switchOutFn` left, with `getState()` already `n`.  The manager
afterwards is the one the `switchInFn` left, so `getState()` is `n` whenever that
callback does not itself change the current state.  When the `switchOutFn` raises, the
current state is not assigned and the `switchInFn` is not invoked. -/
theorem switchState_registered (env : Env) (m : Manager) (n : String) (newState : StateEntry)
    (h : registeredEntry m n = some newState)
    (hsent : getState m = UNDEFINED_STATE →
      (registeredEntry m UNDEFINED_STATE).bind (fun o => o.switchOutFn) = none) :
    (switchState env m n).ok = !(switchState env m n).raised ∧
      (switchState env m n).calls <+: specCalls m n newState ∧
      ((switchState env m n).raised = false →
        (switchState env m n).ok = true ∧
        (switchState env m n).calls = specCalls m n newState ∧
        ∃ m1,
          (match specExit m with
            | some f => env f (getState m) n m
            | none => Except.ok m) = Except.ok m1 ∧
          (match newState.switchInFn with
            | some g => env g (getState m) n { m1 with currentStateName := n }
            | none => Except.ok { m1 with currentStateName := n })
            = Except.ok (switchState env m n).mgr) ∧
      ((switchState env m n).raised = false →
        (∀ g m2 m3, newState.switchInFn = some g →
          env g (getState m) n m2 = Except.ok m3 → getState m3 = getState m2) →
        getState (switchState env m n).mgr = n) ∧
      (∀ f m1, specExit m = some f → env f (getState m) n m = Except.error m1 →
        (switchState env m n).raised = true ∧ (switchState env m n).ok = false ∧
          (switchState env m n).mgr = m1 ∧
          (switchState env m n).calls = [Call.mk f (getState m) n (getState m)]) := by
  obtain ⟨hok, hpre, hret, hraise⟩ :=
    switchState_resolved env m n newState (lookup_of_registered m n newState h)
  have hx := specExit_eq m hsent
  unfold specCalls
  rw [hx]
  refine ⟨hok, hpre, ?_, ?_, ?_⟩
  · intro hr
    refine ⟨?_, hret hr⟩
    rw [hok, hr]; rfl
  · intro hr hkeep
    obtain ⟨-, m1, -, hin⟩ := hret hr
    cases hg : newState.switchInFn with
    | none =>
      rw [hg] at hin
      rw [← Except.ok.inj hin]; rfl
    | some g =>
      rw [hg] at hin
      rw [hkeep g _ _ hg hin]; rfl
  · intro f m1 hf herr
    obtain ⟨h1, h2, h3⟩ := hraise f m1 hf herr
    refine ⟨h1, ?_, h2, h3⟩
    rw [hok, h1]; rfl

/-- C2, the amended statement at concrete inputs: switching from `"Idling"` to `"Waving"`
with callbacks that return and leave the manager alone, and switching the same manager with
the interpretation in which the `switchInFn` of `"Idling"` raises. -/
theorem switchState_registered_witness :
    registeredEntry twoStates "Waving" = some ⟨some 3, some 4⟩ ∧
      (switchState inertEnv twoStates "Waving").ok = true ∧
      (switchState inertEnv twoStates "Waving").calls =
        [Call.mk 2 "Idling" "Waving" "Idling", Call.mk 3 "Idling" "Waving" "Waving"] ∧
      getState (switchState inertEnv twoStates "Waving").mgr = "Waving" ∧
      (switchState raisingEnv (reset twoStates) "Idling").ok
        = !(switchState raisingEnv (reset twoStates) "Idling").raised := by
  have h := switchState_registered inertEnv twoStates "Waving" ⟨some 3, some 4⟩ (by decide)
    (by decide)
  have hr : (switchState inertEnv twoStates "Waving").raised = false := by decide
  refine ⟨by decide, (h.2.2.1 hr).1, ?_, h.2.2.2.1 hr ?_,
    (switchState_registered raisingEnv (reset twoStates) "Idling" ⟨some 1, some 2⟩
      (by decide) (by decide)).1⟩
  · rw [(h.2.2.1 hr).2.1]; decide
  · intro g m2 m3 _ hg
    rw [← Except.ok.inj hg]

/-- C2, as stated, fails on the code.  (1) A `switchInFn` may switch the state again (the
current state is assigned before it runs so that it can): `switchState("a")` returns `true`
and `getState()` is `"b"` afterwards.  (2) A callback may raise: with a `switchOutFn` that
raises, `switchState("b")` for the registered name `"b"` does not return `true`, and
`getState()` is still `"a"` afterwards. -/
theorem switchState_counterexample :
    (registeredEntry (addState (addState clearAll "a" (some 1) none) "b" none none) "a"
        = some ⟨some 1, none⟩ ∧
      (switchState reentrantEnv
          (addState (addState clearAll "a" (some 1) none) "b" none none) "a").ok = true ∧
      getState (switchState reentrantEnv
          (addState (addState clearAll "a" (some 1) none) "b" none none) "a").mgr = "b") ∧
    (registeredEntry
        { addState (addState clearAll "a" none (some 1)) "b" none none with
          currentStateName := "a" } "b" = some ⟨none, none⟩ ∧
      (switchState raisingEnv
          { addState (addState clearAll "a" none (some 1)) "b" none none with
            currentStateName := "a" } "b").raised = true ∧
      (switchState raisingEnv
          { addState (addState clearAll "a" none (some 1)) "b" none none with
            currentStateName := "a" } "b").ok = false ∧
      getState (switchState raisingEnv
          { addState (addState clearAll "a" none (some 1)) "b" none none with
            currentStateName := "a" } "b").mgr = "a") := by
  decide

/-- `toggleState` is `switchState` on its first argument unless that state is the current
one, and on its second argument otherwise. -/
theorem toggleState_eq (env : Env) (m : Manager) (toStateName defaultState : String) :
    (getState m ≠ toStateName →
        toggleState env m toStateName defaultState = switchState env m toStateName) ∧
      (getState m = toStateName →
        toggleState env m toStateName defaultState = switchState env m defaultState) := by
  constructor
  · intro h; simp only [getState] at h; simp [toggleState, h]
  · intro h; simp only [getState] at h; simp [toggleState, h]

/-- `toggleState` returns `false` and changes nothing when the state it would switch to is
not resolved by `this.states`. -/
theorem toggleState_unresolved (env : Env) (m : Manager) (toStateName defaultState : String)
    (h : lookup m (if getState m ≠ toStateName then toStateName else defaultState) = none) :
    (toggleState env m toStateName defaultState).ok = false ∧
      (toggleState env m toStateName defaultState).mgr = m ∧
      (toggleState env m toStateName defaultState).calls = [] := by
  by_cases hc : m.currentStateName = toStateName
  · simp only [getState, hc, ne_eq, not_true_eq_false, if_false] at h
    simp [toggleState, hc, switchState, h]
  · simp only [getState, hc, ne_eq, not_false_eq_true, if_true] at h
    simp [toggleState, hc, switchState, h]

/-- C15, the code at the failing input: on a freshly constructed manager, where nothing is
registered, `toggleState("toString", "Idling")` goes to `switchState("toString")`, which
finds the method inherited from `Object.prototype`: the call returns `true` and makes
`"toString"` the current state. -/
theorem toggleState_inherited_name (env : Env) :
    registeredEntry clearAll "toString" = none ∧
      getState clearAll ≠ "toString" ∧
      (toggleState env clearAll "toString" "Idling").ok = true ∧
      getState (toggleState env clearAll "toString" "Idling").mgr = "toString" ∧
      (toggleState env clearAll "toString" "Idling").raised = false :=
  ⟨rfl, by decide, rfl, rfl, rfl⟩

/-- C16: `reset()` only assigns the sentinel to the current state.  Afterwards `getState()`
is `UNDEFINED_STATE`; the manager is otherwise the same, so no callback has acted on it
and every registered state still has its entry; and a later `switchState` to a registered
name never returns `false`: it returns `true` unless a callback raises, and it invokes the
callbacks of the sentinel and of the new state only (all of them when none raises), not the
`switchOutFn` of the state that was current before the reset. -/
theorem reset_keeps_registry (env : Env) (m : Manager) :
    getState (reset m) = UNDEFINED_STATE ∧
      reset m = { m with currentStateName := UNDEFINED_STATE } ∧
      (∀ n, registeredEntry (reset m) n = registeredEntry m n) ∧
      (∀ n e, registeredEntry m n = some e →
        (switchState env (reset m) n).ok = !(switchState env (reset m) n).raised ∧
        (switchState env (reset m) n).calls <+:
          (((registeredEntry m UNDEFINED_STATE).bind (fun o => o.switchOutFn)).map
              (fun f => Call.mk f UNDEFINED_STATE n UNDEFINED_STATE)).toList
            ++ (e.switchInFn.map (fun g => Call.mk g UNDEFINED_STATE n n)).toList ∧
        ((switchState env (reset m) n).raised = false →
          (switchState env (reset m) n).ok = true ∧
          (switchState env (reset m) n).calls =
            (((registeredEntry m UNDEFINED_STATE).bind (fun o => o.switchOutFn)).map
                (fun f => Call.mk f UNDEFINED_STATE n UNDEFINED_STATE)).toList
              ++ (e.switchInFn.map (fun g => Call.mk g UNDEFINED_STATE n n)).toList)) := by
  refine ⟨rfl, rfl, fun n => rfl, ?_⟩
  intro n e he
  have hl : lookup (reset m) n = some e := lookup_of_registered (reset m) n e he
  obtain ⟨hok, hpre, hret, -⟩ := switchState_resolved env (reset m) n e hl
  have hcur : getState (reset m) = UNDEFINED_STATE := rfl
  have hr : registeredEntry (reset m) UNDEFINED_STATE = registeredEntry m UNDEFINED_STATE := rfl
  rw [hcur, hr] at hpre hret
  refine ⟨hok, hpre, fun hrz => ⟨?_, (hret hrz).1⟩⟩
  rw [hok, hrz]; rfl

/-- C16, at a concrete input: after `reset()` in the state `"Idling"` the current state is
the sentinel, and `switchState("Waving")` succeeds and invokes only the `switchInFn` of
`"Waving"`, not the `switchOutFn` of `"Idling"`. -/
theorem reset_keeps_registry_witness :
    getState twoStates = "Idling" ∧
      registeredEntry twoStates "Waving" = some ⟨some 3, some 4⟩ ∧
      getState (reset twoStates) = UNDEFINED_STATE ∧
      (switchState inertEnv (reset twoStates) "Waving").ok = true ∧
      (switchState inertEnv (reset twoStates) "Waving").calls
        = [Call.mk 3 UNDEFINED_STATE "Waving" "Waving"] := by
  have h := ((reset_keeps_registry inertEnv twoStates).2.2.2 "Waving" ⟨some 3, some 4⟩
    (by decide)).2.2 (by decide)
  refine ⟨by decide, by decide, by decide, h.1, ?_⟩
  rw [h.2]; decide

/-- C17, the code at the failing input: `addState("undefined_state", null, f)` registers a
state under the name of the sentinel.  The manager is still in its initial state, the
sentinel, and the successful `switchState("a")` invokes the exit action `f`, with the
arguments `("undefined_state", "a")`, although the comment in `switchState` notes that the
`UNDEFINED_STATE` has no `switchOutFn`. -/
theorem sentinel_exit_invoked :
    getState (addState (addState clearAll "a" none none) UNDEFINED_STATE none (some 9))
        = UNDEFINED_STATE ∧
      (switchState inertEnv
          (addState (addState clearAll "a" none none) UNDEFINED_STATE none (some 9)) "a").ok
        = true ∧
      (switchState inertEnv
          (addState (addState clearAll "a" none none) UNDEFINED_STATE none (some 9)) "a").calls
        = [Call.mk 9 UNDEFINED_STATE "a" UNDEFINED_STATE] := by
  decide

end ActionStateManager

/-! ## Properties of the animation sequencer -/

namespace AnimationManager

/-- Starting a known request that is neither flagged as mixin nor given an `altRoot`:
it is taken off the queue and becomes the current base animation. -/
theorem playNextAnimFrom_base (info : AnimOpts) (rest : List AnimOpts) (m : Manager) (d : ℚ)
    (clip : Clip) (hc : m.animClips info.name = some clip) (hm : info.isMixin = false)
    (ha : info.altRoot = none) :
    (playNextAnimFrom (info :: rest) m d).animQueue = rest ∧
      (playNextAnimFrom (info :: rest) m d).time = m.time ∧
      (playNextAnimFrom (info :: rest) m d).animClips = m.animClips ∧
      (playNextAnimFrom (info :: rest) m d).currentBaseAnimInfo = some
        { action := ⟨clip, none⟩
          endTime :=
            if info.loop && rest.isEmpty then none
            else some (m.time + clip.duration + info.delay.getD 0 - d)
          startNextTime :=
            if info.loop && rest.isEmpty then none
            else (findNextBaseAnimIn rest).map
              (fun n => m.time + clip.duration + info.delay.getD 0 - d - effectiveFadeTime n)
          forcePlaythrough := info.forcePlaythrough && !(info.loop && rest.isEmpty) } := by
  refine ⟨?_, ?_, ?_, ?_⟩ <;> simp [playNextAnimFrom, hc, hm, ha]
  split_ifs <;> cases findNextBaseAnimIn rest <;> simp

/-- The calls made while a known request that is neither flagged as mixin nor given an
`altRoot` is started. -/
theorem playNextAnimFrom_base_effects (info : AnimOpts) (rest : List AnimOpts) (m : Manager)
    (d : ℚ) (clip : Clip) (hc : m.animClips info.name = some clip)
    (hm : info.isMixin = false) (ha : info.altRoot = none) :
    (playNextAnimFrom (info :: rest) m d).effects =
      m.effects ++ startEffects m info rest clip d := by
  simp [playNextAnimFrom, hc, hm, ha]

/-- The call that fixes the loop mode is among the calls made for a started request. -/
theorem setLoop_mem_startEffects (m : Manager) (info : AnimOpts) (rest : List AnimOpts)
    (clip : Clip) (d : ℚ) :
    Effect.setLoop ⟨clip, info.altRoot⟩ (info.loop && rest.isEmpty)
      ∈ startEffects m info rest clip d := by
  simp [startEffects]

/-- A request naming an unknown clip is dropped with a warning, and the remaining queue is
processed with start offset `0`. -/
theorem playNextAnimFrom_unknown (info : AnimOpts) (rest : List AnimOpts) (m : Manager)
    (d : ℚ) (hc : m.animClips info.name = none) (hi : inheritedName info.name = false) :
    playNextAnimFrom (info :: rest) m d =
      playNextAnimFrom rest
        { m with animQueue := rest, effects := m.effects ++ [Effect.warnUnknown info.name] }
        0 := by
  simp [playNextAnimFrom, hc, hi]

/-- A request whose name was not stored but names an inherited member of the dictionary
object is not skipped: the inherited value is handed to `clipAction`, and the call ends
there with the rest of the queue left in place. -/
theorem playNextAnimFrom_inherited (info : AnimOpts) (rest : List AnimOpts) (m : Manager)
    (d : ℚ) (hc : m.animClips info.name = none) (hi : inheritedName info.name = true) :
    playNextAnimFrom (info :: rest) m d =
      { m with
        animQueue := rest
        effects := m.effects ++ [Effect.clipActionNonClip info.name info.altRoot] } := by
  simp [playNextAnimFrom, hc, hi]

/-- A known request that is flagged as mixin or carries an `altRoot` is played and the
remaining queue is processed with the same start offset; the current base is untouched. -/
theorem playNextAnimFrom_mixin (info : AnimOpts) (rest : List AnimOpts) (m : Manager)
    (d : ℚ) (clip : Clip) (hc : m.animClips info.name = some clip)
    (hmix : (info.isMixin || info.altRoot.isSome) = true) :
    playNextAnimFrom (info :: rest) m d =
      playNextAnimFrom rest
        { m with animQueue := rest, effects := m.effects ++ startEffects m info rest clip d }
        d := by
  simp only [playNextAnimFrom, hc, hmix, if_true]

/-- A request is started as a base exactly when it is neither flagged nor re-rooted. -/
theorem not_mixin_iff (info : AnimOpts) :
    (info.isMixin || info.altRoot.isSome) = false ↔
      info.isMixin = false ∧ info.altRoot = none := by
  cases info.isMixin <;> cases info.altRoot <;> simp

/-- `_playNextAnim` only adds to the effect log. -/
theorem playNextAnimFrom_effects_grow (q : List AnimOpts) :
    ∀ (m : Manager) (d : ℚ), m.effects <+: (playNextAnimFrom q m d).effects := by
  induction q with
  | nil => intro m d; simp [playNextAnimFrom]
  | cons info rest ih =>
    intro m d
    cases hc : m.animClips info.name with
    | none =>
      cases hi : inheritedName info.name with
      | true =>
        rw [playNextAnimFrom_inherited info rest m d hc hi]
        exact List.prefix_append _ _
      | false =>
        rw [playNextAnimFrom_unknown info rest m d hc hi]
        have h := ih
          { m with animQueue := rest, effects := m.effects ++ [Effect.warnUnknown info.name] }
          0
        exact (List.prefix_append _ _).trans h
    | some clip =>
      cases hmix : (info.isMixin || info.altRoot.isSome) with
      | true =>
        rw [playNextAnimFrom_mixin info rest m d clip hc hmix]
        have h := ih
          { m with animQueue := rest, effects := m.effects ++ startEffects m info rest clip d }
          d
        exact (List.prefix_append _ _).trans h
      | false =>
        obtain ⟨hm, ha⟩ := (not_mixin_iff info).1 hmix
        rw [playNextAnimFrom_base_effects info rest m d clip hc hm ha]
        exact List.prefix_append _ _

/-- `_playNextAnim` keeps the property that a forced playthrough has an end time. -/
theorem playNextAnimFrom_forced (q : List AnimOpts) :
    ∀ (m : Manager) (d : ℚ), ForcedImpliesFinite m →
      ForcedImpliesFinite (playNextAnimFrom q m d) := by
  induction q with
  | nil => intro m d h; simpa [playNextAnimFrom, ForcedImpliesFinite] using h
  | cons info rest ih =>
    intro m d h
    cases hc : m.animClips info.name with
    | none =>
      cases hi : inheritedName info.name with
      | true =>
        rw [playNextAnimFrom_inherited info rest m d hc hi]
        simpa [ForcedImpliesFinite] using h
      | false =>
        rw [playNextAnimFrom_unknown info rest m d hc hi]
        exact ih _ _ (by simpa [ForcedImpliesFinite] using h)
    | some clip =>
      cases hmix : (info.isMixin || info.altRoot.isSome) with
      | true =>
        rw [playNextAnimFrom_mixin info rest m d clip hc hmix]
        exact ih _ _ (by simpa [ForcedImpliesFinite] using h)
      | false =>
        obtain ⟨hm, ha⟩ := (not_mixin_iff info).1 hmix
        intro b hb hf
        rw [(playNextAnimFrom_base info rest m d clip hc hm ha).2.2.2] at hb
        simp only [Option.some.injEq] at hb
        subst hb
        simp only [Bool.and_eq_true, Bool.not_eq_true'] at hf
        simp [hf.2]

/-- Whatever kind of request is started, the call that fixes its loop mode is made: the
request loops only if it asks for it and nothing is queued behind it. -/
theorem setLoop_mem_playNextAnimFrom (info : AnimOpts) (rest : List AnimOpts) (m : Manager)
    (d : ℚ) (clip : Clip) (hc : m.animClips info.name = some clip) :
    Effect.setLoop ⟨clip, info.altRoot⟩ (info.loop && rest.isEmpty)
      ∈ (playNextAnimFrom (info :: rest) m d).effects := by
  have hmem : Effect.setLoop ⟨clip, info.altRoot⟩ (info.loop && rest.isEmpty)
      ∈ m.effects ++ startEffects m info rest clip d :=
    List.mem_append_right _ (setLoop_mem_startEffects m info rest clip d)
  cases hmix : (info.isMixin || info.altRoot.isSome) with
  | true =>
    rw [playNextAnimFrom_mixin info rest m d clip hc hmix]
    exact (playNextAnimFrom_effects_grow rest
      { m with animQueue := rest, effects := m.effects ++ startEffects m info rest clip d }
      d).subset hmem
  | false =>
    obtain ⟨hm, ha⟩ := (not_mixin_iff info).1 hmix
    rw [playNextAnimFrom_base_effects info rest m d clip hc hm ha]
    exact hmem

/-- C8: loop coercion in `_playNextAnim`.  When a known request with `loop = true` is
started while at least one further base (non-mixin) request is queued behind it, its
action is set to play once (`LoopOnce`), and if the request is a base (neither flagged as
mixin nor given an `altRoot`) the current base it becomes has the non-null end time
`mixerTime + duration + delay - startOffset`.  A `loop = true` base request started when
nothing else is queued is set to repeat and gets `endTime = null` and
`startNextTime = null`. -/
theorem loop_coercion (info : AnimOpts) (rest : List AnimOpts) (m : Manager) (d : ℚ)
    (clip : Clip) (hc : m.animClips info.name = some clip) (hl : info.loop = true) :
    ((∃ x ∈ rest, x.isMixin = false) →
        Effect.setLoop ⟨clip, info.altRoot⟩ false
          ∈ (playNextAnimFrom (info :: rest) m d).effects ∧
        (info.isMixin = false → info.altRoot = none →
          ∃ b, (playNextAnimFrom (info :: rest) m d).currentBaseAnimInfo = some b ∧
            b.action = ⟨clip, none⟩ ∧
            b.endTime = some (m.time + clip.duration + info.delay.getD 0 - d))) ∧
      (rest = [] → info.isMixin = false → info.altRoot = none →
        Effect.setLoop ⟨clip, none⟩ true ∈ (playNextAnimFrom (info :: rest) m d).effects ∧
        ∃ b, (playNextAnimFrom (info :: rest) m d).currentBaseAnimInfo = some b ∧
          b.action = ⟨clip, none⟩ ∧ b.endTime = none ∧ b.startNextTime = none) := by
  have hset := setLoop_mem_playNextAnimFrom info rest m d clip hc
  constructor
  · rintro ⟨x, hx, -⟩
    have hne : rest ≠ [] := List.ne_nil_of_mem hx
    have hoff : (info.loop && rest.isEmpty) = false := by
      cases rest with
      | nil => exact absurd rfl hne
      | cons _ _ => simp
    rw [hoff] at hset
    refine ⟨hset, ?_⟩
    intro hm ha
    refine ⟨_, (playNextAnimFrom_base info rest m d clip hc hm ha).2.2.2, rfl, ?_⟩
    simp [hne]
  · intro hr hm ha
    refine ⟨by simpa [hr, hl, ha] using hset,
      _, (playNextAnimFrom_base info rest m d clip hc hm ha).2.2.2, rfl, ?_, ?_⟩
    · simp [hr, hl]
    · simp [hr, hl]

/-- `queueAnimations` keeps the property that a forced playthrough has an end time. -/
theorem queueAnimations_forced (m : Manager) (anims : Anims) (purge : Bool)
    (h : ForcedImpliesFinite m) : ForcedImpliesFinite (queueAnimations m anims purge) := by
  have key : ∀ l : List AnimOpts,
      ForcedImpliesFinite
        (if startsAtOnce m.currentBaseAnimInfo purge then
          playNextAnim { m with animQueue := queueAfterPush m.animQueue l purge } 0
        else
          match m.currentBaseAnimInfo with
          | none => { m with animQueue := queueAfterPush m.animQueue l purge }
          | some b =>
            if !truthy b.startNextTime then
              { m with
                animQueue := queueAfterPush m.animQueue l purge
                currentBaseAnimInfo := some
                  { b with
                    startNextTime :=
                      match findNextBaseAnim
                          { m with animQueue := queueAfterPush m.animQueue l purge } with
                      | some nextBaseAnim =>
                        b.endTime.map (fun e => e - effectiveFadeTime nextBaseAnim)
                      | none => b.endTime } }
            else { m with animQueue := queueAfterPush m.animQueue l purge }) := by
    intro l
    split_ifs with hs
    · exact playNextAnimFrom_forced _ _ _ (by simpa [ForcedImpliesFinite] using h)
    · cases hcur : m.currentBaseAnimInfo with
      | none => simp [ForcedImpliesFinite, hcur]
      | some b =>
        simp only []
        split_ifs
        · intro b2 hb2 hf
          simp only [Option.some.injEq] at hb2
          subst hb2
          exact h b hcur hf
        · simpa [ForcedImpliesFinite, hcur] using h b hcur
  cases anims with
  | missing => simpa [queueAnimations, ForcedImpliesFinite] using h
  | single a => exact key [a]
  | many l => exact key l

/-- `update` keeps the property that a forced playthrough has an end time. -/
theorem update_forced (m : Manager) (delta : ℚ) (h : ForcedImpliesFinite m) :
    ForcedImpliesFinite (update m delta) := by
  have lift : ∀ m1 : Manager, ForcedImpliesFinite m1 →
      ForcedImpliesFinite { m1 with time := m1.time + delta } := by
    intro m1 h1; simpa [ForcedImpliesFinite] using h1
  have hnone : ForcedImpliesFinite { m with currentBaseAnimInfo := none } := by
    simp [ForcedImpliesFinite]
  unfold update
  apply lift
  cases m.currentBaseAnimInfo with
  | none => exact h
  | some b =>
    simp only []
    cases b.endTime with
    | none => exact h
    | some e =>
      simp only []
      split_ifs with he hle
      · cases b.startNextTime with
        | none => exact hnone
        | some s =>
          simp only []
          split_ifs
          · exact playNextAnimFrom_forced _ _ _ hnone
          · exact hnone
      · cases b.startNextTime with
        | none => exact h
        | some s =>
          simp only []
          split_ifs
          · exact playNextAnimFrom_forced _ _ _ h
          · exact h
      · exact h

/-- `clearQueue` keeps the property that a forced playthrough has an end time. -/
theorem clearQueue_forced (m : Manager) (flag : Bool) (h : ForcedImpliesFinite m) :
    ForcedImpliesFinite (clearQueue m flag) := by
  intro b hb hf
  cases flag with
  | false => exact h b (by simpa [clearQueue] using hb) hf
  | true =>
    simp only [clearQueue, if_true, Option.map_eq_some'] at hb
    obtain ⟨b0, -, rfl⟩ := hb
    simp at hf

/-- Every reachable state has the property that a forced playthrough has an end time. -/
theorem reachable_forced (animClips : String → Option Clip) (m : Manager)
    (h : Reachable animClips m) : ForcedImpliesFinite m := by
  induction h with
  | create => simp [ForcedImpliesFinite, create]
  | queueAnimations anims purge _ ih => exact queueAnimations_forced _ _ _ ih
  | playAnimations anims _ ih => exact queueAnimations_forced _ _ _ ih
  | clearQueue flag _ ih => exact clearQueue_forced _ _ ih
  | update delta _ ih => exact update_forced _ _ ih
  | stopAll _ ih => simp [ForcedImpliesFinite, stopAll]

/-- C10: `forcePlaythrough` is only in force for a non-looping base.  In every state
reachable from the constructor through `queueAnimations`, `playAnimations`, `clearQueue`,
`update` and `stopAll`, a current base animation with `forcePlaythrough = true` has a
non-null `endTime`; and whenever `_playNextAnim` starts a known request as a base, the
flag it stores is `false` if the base loops (`endTime` is `null`) and is the request's own
`forcePlaythrough` if it does not. -/
theorem forcePlaythrough_only_finite (animClips : String → Option Clip) :
    (∀ m : Manager, Reachable animClips m → ∀ b : BaseAnimInfo,
        m.currentBaseAnimInfo = some b → b.forcePlaythrough = true → b.endTime ≠ none) ∧
      (∀ (info : AnimOpts) (rest : List AnimOpts) (m : Manager) (d : ℚ) (clip : Clip),
        m.animClips info.name = some clip → info.isMixin = false → info.altRoot = none →
        ∃ b : BaseAnimInfo,
          (playNextAnimFrom (info :: rest) m d).currentBaseAnimInfo = some b ∧
          (b.endTime = none → b.forcePlaythrough = false) ∧
          (b.endTime ≠ none → b.forcePlaythrough = info.forcePlaythrough)) := by
  refine ⟨fun m hm => reachable_forced animClips m hm, ?_⟩
  intro info rest m d clip hc hm ha
  refine ⟨_, (playNextAnimFrom_base info rest m d clip hc hm ha).2.2.2, ?_, ?_⟩
  · by_cases hl : (info.loop && rest.isEmpty) = true <;> simp [hl]
  · by_cases hl : (info.loop && rest.isEmpty) = true <;> simp [hl]

/-- What `queueAnimations` does when it does not call `_playNextAnim()`: the requests are
appended to the (possibly purged) queue, nothing is played, and the current base is
kept, with `startNextTime` computed from the first queued entry not flagged as mixin if
the old value was falsy. -/
theorem queueAnimations_not_at_once (m : Manager) (anims : Anims) (purge : Bool)
    (b : BaseAnimInfo) (hne : anims ≠ Anims.missing) (hcur : m.currentBaseAnimInfo = some b)
    (hs : startsAtOnce (some b) purge = false) :
    (queueAnimations m anims purge).animQueue = queueAfterPush m.animQueue anims.toList purge ∧
      (queueAnimations m anims purge).effects = m.effects ∧
      (queueAnimations m anims purge).time = m.time ∧
      (queueAnimations m anims purge).currentBaseAnimInfo = some
        (if truthy b.startNextTime then b
         else
          { b with
            startNextTime :=
              match findNextBaseAnimIn (queueAfterPush m.animQueue anims.toList purge) with
              | some nextBaseAnim => b.endTime.map (fun e => e - effectiveFadeTime nextBaseAnim)
              | none => b.endTime }) := by
  cases anims with
  | missing => exact absurd rfl hne
  | single a =>
    cases ht : truthy b.startNextTime <;>
      simp [queueAnimations, hcur, hs, ht, findNextBaseAnim]
  | many l =>
    cases ht : truthy b.startNextTime <;>
      simp [queueAnimations, hcur, hs, ht, findNextBaseAnim]

/-- What `queueAnimations` does when its start condition holds: it calls
`_playNextAnim()` on the queue extended by the new requests. -/
theorem queueAnimations_at_once (m : Manager) (anims : Anims) (purge : Bool)
    (hne : anims ≠ Anims.missing) (hs : startsAtOnce m.currentBaseAnimInfo purge = true) :
    queueAnimations m anims purge =
      playNextAnim { m with animQueue := queueAfterPush m.animQueue anims.toList purge } 0 := by
  cases anims with
  | missing => exact absurd rfl hne
  | single a => simp [queueAnimations, hs]
  | many l => simp [queueAnimations, hs]

/-- The test the code applies agrees with the start condition of the specification on
every current base whose `endTime` is not the number `0`. -/
theorem startsAtOnce_iff_spec (cur : Option BaseAnimInfo) (purge : Bool)
    (hz : ∀ b, cur = some b → b.endTime ≠ some 0) :
    startsAtOnce cur purge = true ↔ specStartCondition cur purge := by
  cases cur with
  | none => simp [startsAtOnce, specStartCondition]
  | some b =>
    have hz := hz b rfl
    cases he : b.endTime with
    | none => simp [startsAtOnce, specStartCondition, truthy, he]
    | some e =>
      have : e ≠ 0 := fun h => hz (by rw [he, h])
      cases purge <;> cases b.forcePlaythrough <;>
        simp [startsAtOnce, specStartCondition, truthy, he, this]

/-- A current base whose `endTime` is the number `0` is treated like a looping one: the
next request is started at once whatever the purge flag and `forcePlaythrough` say. -/
theorem startsAtOnce_of_endTime_zero (b : BaseAnimInfo) (purge : Bool)
    (he : b.endTime = some 0) : startsAtOnce (some b) purge = true := by
  simp [startsAtOnce, truthy, he]

/-- A current base whose `endTime` is the number `0` is skipped by `update`: it is neither
cleared nor followed by its successor. -/
theorem update_of_endTime_zero (m : Manager) (delta : ℚ) (b : BaseAnimInfo)
    (hcur : m.currentBaseAnimInfo = some b) (he : b.endTime = some 0) :
    update m delta = { m with time := m.time + delta } := by
  simp [update, hcur, he]

/-- What `update` does to a base with a non-zero end time `e` and no successor time:
the base is cleared exactly when `e ≤ mixerTime + delta`; the queue is untouched and the
mixer time advances by `delta`. -/
theorem update_without_successor (m : Manager) (delta e : ℚ) (b : BaseAnimInfo)
    (hcur : m.currentBaseAnimInfo = some b) (he : b.endTime = some e) (he0 : e ≠ 0)
    (hs : b.startNextTime = none) :
    ((update m delta).currentBaseAnimInfo = none ↔ e ≤ m.time + delta) ∧
      (¬ e ≤ m.time + delta → (update m delta).currentBaseAnimInfo = some b) ∧
      (update m delta).animQueue = m.animQueue ∧
      (update m delta).time = m.time + delta := by
  by_cases hle : e ≤ m.time + delta <;> simp [update, hcur, he, he0, hs, hle]

/-- The state `handedOver`: `B` is the current base, with `endTime = 0`. -/
theorem handedOver_eval :
    handedOver.currentBaseAnimInfo = some ⟨⟨⟨"B", 1 / 4⟩, none⟩, some 0, none, false⟩ ∧
      handedOver.animQueue = [] ∧ handedOver.time = 1 ∧
      handedOver.animClips = exampleClips := by
  simp [handedOver, update, queueAnimations, create, exampleClips, playNextAnim,
    playNextAnimFrom, startsAtOnce, queueAfterPush, Anims.toList, AnimOpts.named, truthy,
    findNextBaseAnimIn, effectiveFadeTime, defaultFadeTime]
  norm_num

/-- The state `handedOver` is reachable. -/
theorem handedOver_reachable : Reachable exampleClips handedOver :=
  Reachable.update 1 (Reachable.queueAnimations _ false Reachable.create)

/-- C3, the code at the failing input.  In the reachable state `handedOver` a non-looping
base is active (`B`, whose `endTime` is the number `0`, not `null`) and the queue is
empty.  `queueAnimations({"name": "C"})` without purge does not leave `C` pending: the
queue is empty afterwards and `C` has become the current base.  With a request naming an
unknown clip nothing is played at all, and the request is still not left in the queue. -/
theorem queueAnimations_after_endTime_zero :
    Reachable exampleClips handedOver ∧
      (∃ b, handedOver.currentBaseAnimInfo = some b ∧ b.endTime = some 0) ∧
      handedOver.animQueue = [] ∧
      (queueAnimations handedOver (Anims.single (AnimOpts.named "C")) false).animQueue = [] ∧
      (∃ b, (queueAnimations handedOver (Anims.single (AnimOpts.named "C")) false).currentBaseAnimInfo
          = some b ∧ b.action = ⟨⟨"C", 3⟩, none⟩) ∧
      (queueAnimations handedOver (Anims.single (AnimOpts.named "Nope")) false).animQueue = [] ∧
      (queueAnimations handedOver (Anims.single (AnimOpts.named "Nope")) false).effects
        = handedOver.effects ++ [Effect.warnUnknown "Nope"] := by
  obtain ⟨hcur, hq, ht, hclips⟩ := handedOver_eval
  have hat : ∀ a : AnimOpts, queueAnimations handedOver (Anims.single a) false =
      playNextAnimFrom [a] { handedOver with animQueue := [a] } 0 := by
    intro a
    rw [queueAnimations_at_once handedOver (Anims.single a) false (by simp)
      (by rw [hcur]; exact startsAtOnce_of_endTime_zero _ _ rfl)]
    simp [playNextAnim, queueAfterPush, Anims.toList, hq]
  have hC : ({ handedOver with animQueue := [AnimOpts.named "C"] } : Manager).animClips
      (AnimOpts.named "C").name = some ⟨"C", 3⟩ := by
    simp [hclips, exampleClips, AnimOpts.named]
  have hN : ({ handedOver with animQueue := [AnimOpts.named "Nope"] } : Manager).animClips
      (AnimOpts.named "Nope").name = none := by
    simp [hclips, exampleClips, AnimOpts.named]
  refine ⟨handedOver_reachable, ⟨_, hcur, rfl⟩, hq, ?_, ?_, ?_, ?_⟩
  · rw [hat]; exact (playNextAnimFrom_base _ _ _ _ _ hC rfl rfl).1
  · rw [hat]; exact ⟨_, (playNextAnimFrom_base _ _ _ _ _ hC rfl rfl).2.2.2, rfl⟩
  · rw [hat, playNextAnimFrom_unknown _ _ _ _ hN (by decide)]; simp [playNextAnimFrom]
  · rw [hat, playNextAnimFrom_unknown _ _ _ _ hN (by decide)]
    simp [playNextAnimFrom, AnimOpts.named]

/-- C7, the code at the failing input.  In the reachable state `handedOver` the current
base `B` has the non-null `endTime` `0` and no successor is scheduled; the mixer time is
`1`.  `update(1)` reaches the end time (`1 + 1 ≥ 0`) and yet leaves the base in place. -/
theorem update_after_endTime_zero :
    Reachable exampleClips handedOver ∧
      handedOver.currentBaseAnimInfo = some ⟨⟨⟨"B", 1 / 4⟩, none⟩, some 0, none, false⟩ ∧
      handedOver.time = 1 ∧
      (update handedOver 1).currentBaseAnimInfo =
        some ⟨⟨⟨"B", 1 / 4⟩, none⟩, some 0, none, false⟩ := by
  obtain ⟨hcur, -, ht, -⟩ := handedOver_eval
  refine ⟨handedOver_reachable, hcur, ht, ?_⟩
  rw [update_of_endTime_zero handedOver 1 _ hcur rfl]
  exact hcur

/-- C4, the code at the failing input: on a new manager (no base active) the request
`{"name": "B", "altRoot": obj}` is known and not flagged as mixin, and
`queueAnimations` starts it at once and takes it off the queue.  The claim has it become
the current base, and so does the documentation of the `altRoot` option
(`currentBaseAnimInfo` "will be updated even if this is used"); the code forces a request
with an `altRoot` to be a mixin, so `B` is played on the other root and
`currentBaseAnimInfo` stays `null`. -/
theorem queueAnimations_rerooted_head :
    specStartCondition (create exampleClips).currentBaseAnimInfo false ∧
      rerootedB.isMixin = false ∧
      exampleClips rerootedB.name = some ⟨"B", 1 / 4⟩ ∧
      (queueAnimations (create exampleClips) (Anims.single rerootedB) false).currentBaseAnimInfo
        = none ∧
      (queueAnimations (create exampleClips) (Anims.single rerootedB) false).animQueue = [] ∧
      Effect.play ⟨⟨"B", 1 / 4⟩, some 5⟩ ∈
        (queueAnimations (create exampleClips) (Anims.single rerootedB) false).effects := by
  refine ⟨Or.inl rfl, rfl, by simp [exampleClips, rerootedB, AnimOpts.named], ?_, ?_, ?_⟩ <;>
    simp [queueAnimations, create, exampleClips, playNextAnim, playNextAnimFrom, startsAtOnce,
      queueAfterPush, Anims.toList, AnimOpts.named, rerootedB, startEffects, fadeEffects,
      disableEffects, effectiveFadeTime, defaultFadeTime]

/-- The start rule of `queueAnimations` for a request without `altRoot`, when the current
base, if any, does not have the number `0` as its `endTime`: `queueAnimations(R, purge)`
calls `_playNextAnim()` on the resulting queue if no
base is active, or the active base is looping (`endTime` is `null`), or `purge` is set and
the active base lacks `forcePlaythrough`; a head of that queue that is known, not flagged
as mixin and without `altRoot` then becomes the current base and is removed from the
queue.  In every other case no request is dequeued, nothing is played, and the action,
`endTime` and `forcePlaythrough` of the active base are unchanged. -/
theorem queueAnimations_start_rule (m : Manager) (anims : Anims) (purge : Bool)
    (hne : anims ≠ Anims.missing)
    (hz : ∀ b, m.currentBaseAnimInfo = some b → b.endTime ≠ some 0) :
    (specStartCondition m.currentBaseAnimInfo purge →
        queueAnimations m anims purge =
          playNextAnim { m with animQueue := queueAfterPush m.animQueue anims.toList purge } 0 ∧
        ∀ (info : AnimOpts) (rest : List AnimOpts) (clip : Clip),
          queueAfterPush m.animQueue anims.toList purge = info :: rest →
          m.animClips info.name = some clip → info.isMixin = false → info.altRoot = none →
          (queueAnimations m anims purge).animQueue = rest ∧
          ∃ b, (queueAnimations m anims purge).currentBaseAnimInfo = some b ∧
            b.action = ⟨clip, none⟩) ∧
      (¬ specStartCondition m.currentBaseAnimInfo purge →
        (queueAnimations m anims purge).animQueue
          = queueAfterPush m.animQueue anims.toList purge ∧
        (queueAnimations m anims purge).effects = m.effects ∧
        ∃ b b2, m.currentBaseAnimInfo = some b ∧
          (queueAnimations m anims purge).currentBaseAnimInfo = some b2 ∧
          b2.action = b.action ∧ b2.endTime = b.endTime ∧
          b2.forcePlaythrough = b.forcePlaythrough) := by
  have hiff := startsAtOnce_iff_spec m.currentBaseAnimInfo purge hz
  constructor
  · intro hc
    have hat := queueAnimations_at_once m anims purge hne (hiff.2 hc)
    refine ⟨hat, ?_⟩
    intro info rest clip hq hclip hm ha
    rw [hat]
    simp only [playNextAnim, hq]
    have hb := playNextAnimFrom_base info rest
      { m with animQueue := info :: rest } 0 clip hclip hm ha
    exact ⟨hb.1, _, hb.2.2.2, rfl⟩
  · intro hc
    have hs : startsAtOnce m.currentBaseAnimInfo purge = false := by
      cases h : startsAtOnce m.currentBaseAnimInfo purge
      · rfl
      · exact absurd (hiff.1 h) hc
    cases hcur : m.currentBaseAnimInfo with
    | none => exact absurd (Or.inl hcur) hc
    | some b =>
      rw [hcur] at hs
      have hn := queueAnimations_not_at_once m anims purge b hne hcur hs
      refine ⟨hn.1, hn.2.1, b, _, rfl, hn.2.2.2, ?_⟩
      split_ifs <;> simp

/-- The start rule at concrete inputs: on a new manager `queueAnimations([A, B])`
starts `A` at once; in the resulting state `playingA`, where `A` does not loop and no purge
is asked for, `queueAnimations(C)` only appends. -/
theorem queueAnimations_start_rule_witness :
    (queueAnimations (create exampleClips)
        (Anims.many [AnimOpts.named "A", AnimOpts.named "B"]) false).animQueue
        = [AnimOpts.named "B"] ∧
      (∃ b, (queueAnimations (create exampleClips)
          (Anims.many [AnimOpts.named "A", AnimOpts.named "B"]) false).currentBaseAnimInfo
          = some b ∧ b.action = ⟨⟨"A", 1⟩, none⟩) ∧
      (queueAnimations playingA (Anims.single (AnimOpts.named "C")) false).animQueue
        = [AnimOpts.named "B", AnimOpts.named "C"] := by
  have h1 := (queueAnimations_start_rule (create exampleClips)
    (Anims.many [AnimOpts.named "A", AnimOpts.named "B"]) false (by simp)
    (by simp [create])).1 (Or.inl rfl)
  have h1b := h1.2 (AnimOpts.named "A") [AnimOpts.named "B"] ⟨"A", 1⟩
    (by simp [queueAfterPush, create, Anims.toList])
    (by simp [create, exampleClips, AnimOpts.named]) rfl rfl
  have hA : playingA.currentBaseAnimInfo
      = some ⟨⟨⟨"A", 1⟩, none⟩, some 1, some (3 / 4), false⟩ ∧
      playingA.animQueue = [AnimOpts.named "B"] := by
    simp [playingA, queueAnimations, create, exampleClips, playNextAnim, playNextAnimFrom,
      startsAtOnce, queueAfterPush, Anims.toList, AnimOpts.named, findNextBaseAnimIn,
      effectiveFadeTime, defaultFadeTime]
    norm_num
  have h2 := (queueAnimations_start_rule playingA (Anims.single (AnimOpts.named "C")) false
    (by simp) (by rw [hA.1]; simp)).2
    (by rw [hA.1]; simp [specStartCondition])
  refine ⟨h1b.1, h1b.2, ?_⟩
  rw [h2.1, hA.2]
  simp [queueAfterPush, Anims.toList]

/-- The state `scheduledAtZero`: `B` is the current base until `0.25`, its successor time
is set to the number `0`, and the queue is empty. -/
theorem scheduledAtZero_eval :
    scheduledAtZero.currentBaseAnimInfo
        = some ⟨⟨⟨"B", 1 / 4⟩, none⟩, some (1 / 4), some 0, false⟩ ∧
      scheduledAtZero.animQueue = [] := by
  simp [scheduledAtZero, clearQueue, queueAnimations, create, exampleClips, playNextAnim,
    playNextAnimFrom, startsAtOnce, queueAfterPush, Anims.toList, AnimOpts.named,
    findNextBaseAnimIn, effectiveFadeTime, defaultFadeTime]

/-- C5, the code at the failing input.  In the reachable state `scheduledAtZero` a
non-looping base stays active and its `startNextTime` is already set, to the number `0`.
`queueAnimations({"name": "C", "fadeTime": 0})` starts nothing at once, and yet overwrites
the `startNextTime` with `endTime - 0 = 0.25`. -/
theorem queueAnimations_after_startNextTime_zero :
    Reachable exampleClips scheduledAtZero ∧
      scheduledAtZero.currentBaseAnimInfo
        = some ⟨⟨⟨"B", 1 / 4⟩, none⟩, some (1 / 4), some 0, false⟩ ∧
      (queueAnimations scheduledAtZero (Anims.single instantC) false).animQueue = [instantC] ∧
      (queueAnimations scheduledAtZero (Anims.single instantC) false).effects
        = scheduledAtZero.effects ∧
      (queueAnimations scheduledAtZero (Anims.single instantC) false).currentBaseAnimInfo
        = some ⟨⟨⟨"B", 1 / 4⟩, none⟩, some (1 / 4), some (1 / 4), false⟩ := by
  obtain ⟨hcur, hq⟩ := scheduledAtZero_eval
  have hn := queueAnimations_not_at_once scheduledAtZero (Anims.single instantC) false _
    (by simp) hcur (by simp [startsAtOnce, truthy])
  refine ⟨Reachable.clearQueue false (Reachable.queueAnimations _ false Reachable.create),
    hcur, ?_, hn.2.1, ?_⟩
  · rw [hn.1, hq]; simp [queueAfterPush, Anims.toList]
  · rw [hn.2.2.2, hq]
    simp [truthy, queueAfterPush, Anims.toList, findNextBaseAnimIn, instantC, AnimOpts.named,
      effectiveFadeTime]

/-- C6, the code at the failing input: in the reachable state `playingAThenRerooted` the
base `A` is active with `startNextTime = 0.75`, and the head of the queue is the known
request `{"name": "B", "altRoot": obj}`, which is not flagged as mixin and which
`_findNextBaseAnim` had taken for the next base when it set that `startNextTime`.
`update(1)` reaches the successor time and takes the request off the queue.  The claim has
it become the current base, as does the documentation of the `altRoot` option; the code
plays it as a mixin, and no base is active afterwards. -/
theorem update_rerooted_head :
    Reachable exampleClips playingAThenRerooted ∧
      playingAThenRerooted.currentBaseAnimInfo
        = some ⟨⟨⟨"A", 1⟩, none⟩, some 1, some (3 / 4), false⟩ ∧
      playingAThenRerooted.animQueue = [rerootedB] ∧
      playingAThenRerooted.time = 0 ∧
      rerootedB.isMixin = false ∧
      exampleClips rerootedB.name = some ⟨"B", 1 / 4⟩ ∧
      (update playingAThenRerooted 1).animQueue = [] ∧
      (update playingAThenRerooted 1).currentBaseAnimInfo = none := by
  refine ⟨Reachable.queueAnimations _ false Reachable.create, ?_, ?_, ?_, rfl,
    by simp [exampleClips, rerootedB, AnimOpts.named], ?_, ?_⟩
  · simp [playingAThenRerooted, queueAnimations, create, exampleClips, playNextAnim,
      playNextAnimFrom, startsAtOnce, queueAfterPush, Anims.toList, AnimOpts.named, rerootedB,
      findNextBaseAnimIn, effectiveFadeTime, defaultFadeTime]
    norm_num
  · simp [playingAThenRerooted, queueAnimations, create, exampleClips, playNextAnim,
      playNextAnimFrom, startsAtOnce, queueAfterPush, Anims.toList, AnimOpts.named, rerootedB]
  · simp [playingAThenRerooted, queueAnimations, create, exampleClips, playNextAnim,
      playNextAnimFrom, startsAtOnce, queueAfterPush, Anims.toList, AnimOpts.named, rerootedB]
  · simp [update, playingAThenRerooted, queueAnimations, create, exampleClips, playNextAnim,
      playNextAnimFrom, startsAtOnce, queueAfterPush, Anims.toList, AnimOpts.named, rerootedB,
      findNextBaseAnimIn, effectiveFadeTime, defaultFadeTime]
    norm_num
  · simp [update, playingAThenRerooted, queueAnimations, create, exampleClips, playNextAnim,
      playNextAnimFrom, startsAtOnce, queueAfterPush, Anims.toList, AnimOpts.named, rerootedB,
      findNextBaseAnimIn, effectiveFadeTime, defaultFadeTime]
    norm_num

/-- Hand-over in `update` to a request without `altRoot` (the cases of an `endTime` or
`startNextTime` that is the number `0` are left out): if a base is active with a non-zero
`endTime`, its `startNextTime` is a non-zero `s ≤ mixerTime + delta`, and the head `B` of
the queue is known, not flagged as mixin and without `altRoot`, then `update(delta)` calls
`_playNextAnim` with the start offset `mixerTime + delta - s`; `B` is removed from the queue
and becomes the current base, its action is started at `mixerTime + delay - offset` when the
offset is positive, and unless `B` is started looping its `endTime` is `mixerTime + duration
+ delay - (mixerTime + delta - s)`. -/
theorem update_starts_successor (m : Manager) (delta e s : ℚ) (b : BaseAnimInfo)
    (B : AnimOpts) (rest : List AnimOpts) (clip : Clip)
    (hcur : m.currentBaseAnimInfo = some b) (he : b.endTime = some e) (he0 : e ≠ 0)
    (hs : b.startNextTime = some s) (hs0 : s ≠ 0) (hreach : s ≤ m.time + delta)
    (hq : m.animQueue = B :: rest) (hc : m.animClips B.name = some clip)
    (hm : B.isMixin = false) (ha : B.altRoot = none) :
    update m delta =
        { playNextAnim
            (if e ≤ m.time + delta then { m with currentBaseAnimInfo := none } else m)
            (m.time + delta - s) with time := m.time + delta } ∧
      (update m delta).animQueue = rest ∧
      (update m delta).time = m.time + delta ∧
      (0 < m.time + delta - s →
        Effect.startAt ⟨clip, none⟩ (m.time + B.delay.getD 0 - (m.time + delta - s))
          ∈ (update m delta).effects) ∧
      ∃ b2, (update m delta).currentBaseAnimInfo = some b2 ∧
        b2.action = ⟨clip, none⟩ ∧
        ((B.loop && rest.isEmpty) = false →
          b2.endTime = some (m.time + clip.duration + B.delay.getD 0 - (m.time + delta - s))) ∧
        ((B.loop && rest.isEmpty) = true → b2.endTime = none) := by
  have hu : update m delta =
      { playNextAnim
          (if e ≤ m.time + delta then { m with currentBaseAnimInfo := none } else m)
          (m.time + delta - s) with time := m.time + delta } := by
    by_cases hle : e ≤ m.time + delta
    · simp [update, hcur, he, he0, hs, hs0, hreach, hle]
      simp only [playNextAnim, hq]
      exact (playNextAnimFrom_base B rest
        { animClips := m.animClips, time := m.time, currentBaseAnimInfo := none,
          animQueue := B :: rest, effects := m.effects } _ clip hc hm ha).2.1
    · simp [update, hcur, he, he0, hs, hs0, hreach, hle]
      simp [playNextAnim, hq, playNextAnimFrom_base B rest _ _ clip hc hm ha]
  have key : ∀ m2 : Manager, m2.animQueue = B :: rest → m2.animClips = m.animClips →
      m2.time = m.time →
      (playNextAnim m2 (m.time + delta - s)).animQueue = rest ∧
      (0 < m.time + delta - s →
        Effect.startAt ⟨clip, none⟩ (m.time + B.delay.getD 0 - (m.time + delta - s))
          ∈ (playNextAnim m2 (m.time + delta - s)).effects) ∧
      ∃ b2, (playNextAnim m2 (m.time + delta - s)).currentBaseAnimInfo = some b2 ∧
        b2.action = ⟨clip, none⟩ ∧
        ((B.loop && rest.isEmpty) = false →
          b2.endTime = some (m.time + clip.duration + B.delay.getD 0 - (m.time + delta - s))) ∧
        ((B.loop && rest.isEmpty) = true → b2.endTime = none) := by
    intro m2 hq2 hc2 ht2
    have hc2b : m2.animClips B.name = some clip := by rw [hc2]; exact hc
    have hb := playNextAnimFrom_base B rest m2 (m.time + delta - s) clip hc2b hm ha
    have hef := playNextAnimFrom_base_effects B rest m2 (m.time + delta - s) clip hc2b hm ha
    simp only [playNextAnim, hq2]
    refine ⟨hb.1, ?_, _, hb.2.2.2, rfl, ?_, ?_⟩
    · intro hpos
      rw [hef]
      simp [startEffects, hpos, ht2, ha]
    · intro hl; simp [hl, ht2]
    · intro hl; simp [hl]
  refine ⟨hu, ?_⟩
  rw [hu]
  by_cases hle : e ≤ m.time + delta
  · have k := key { m with currentBaseAnimInfo := none } hq rfl rfl
    simp only [hle, if_true]
    exact ⟨k.1, trivial, k.2.1, k.2.2⟩
  · have k := key m hq rfl rfl
    simp only [hle, if_false]
    exact ⟨k.1, trivial, k.2.1, k.2.2⟩

/-- The hand-over at a concrete input: in the state `playingA` (`A` active
until `1`, `B` scheduled at `0.75`) `update(1)` hands over to `B` with start offset
`0.25`. -/
theorem update_starts_successor_witness :
    (update playingA 1).animQueue = [] ∧
      (update playingA 1).time = 0 + 1 ∧
      ∃ b2, (update playingA 1).currentBaseAnimInfo = some b2 ∧
        b2.action = ⟨⟨"B", 1 / 4⟩, none⟩ ∧
        b2.endTime = some (0 + 1 / 4 + 0 - (0 + 1 - 3 / 4)) := by
  have hA : playingA.currentBaseAnimInfo
      = some ⟨⟨⟨"A", 1⟩, none⟩, some 1, some (3 / 4), false⟩ ∧
      playingA.animQueue = [AnimOpts.named "B"] ∧ playingA.time = 0 ∧
      playingA.animClips = exampleClips := by
    simp [playingA, queueAnimations, create, exampleClips, playNextAnim, playNextAnimFrom,
      startsAtOnce, queueAfterPush, Anims.toList, AnimOpts.named, findNextBaseAnimIn,
      effectiveFadeTime, defaultFadeTime]
    norm_num
  have h := update_starts_successor playingA 1 1 (3 / 4) _ (AnimOpts.named "B") []
    ⟨"B", 1 / 4⟩ hA.1 rfl (by norm_num) rfl (by norm_num) (by rw [hA.2.2.1]; norm_num)
    hA.2.1 (by rw [hA.2.2.2]; simp [exampleClips, AnimOpts.named]) rfl rfl
  obtain ⟨-, hq, ht, -, b2, hb2, hact, hend, -⟩ := h
  refine ⟨hq, by rw [ht, hA.2.2.1], b2, hb2, hact, ?_⟩
  rw [hend (by simp [AnimOpts.named]), hA.2.2.1]
  simp [AnimOpts.named]

/-- `playAnimations(anims)` is `queueAnimations(anims, true)`. -/
theorem playAnimations_eq (m : Manager) (anims : Anims) :
    playAnimations m anims = queueAnimations m anims true := rfl

/-- C8, at concrete inputs: `{"name": "Idle", "loop": true}` started on a new manager in
front of the base request `A` is not looped and ends at `0 + 2 + 0 - 0`; started alone it
loops. -/
theorem loop_coercion_witness :
    (Effect.setLoop ⟨⟨"Idle", 2⟩, none⟩ false ∈
        (playNextAnimFrom [loopIdle, AnimOpts.named "A"] (create exampleClips) 0).effects ∧
      ∃ b, (playNextAnimFrom [loopIdle, AnimOpts.named "A"] (create exampleClips)
          0).currentBaseAnimInfo = some b ∧
        b.action = ⟨⟨"Idle", 2⟩, none⟩ ∧
        b.endTime = some ((create exampleClips).time + (2 : ℚ) + loopIdle.delay.getD 0 - 0)) ∧
      (Effect.setLoop ⟨⟨"Idle", 2⟩, none⟩ true ∈
        (playNextAnimFrom [loopIdle] (create exampleClips) 0).effects ∧
      ∃ b, (playNextAnimFrom [loopIdle] (create exampleClips) 0).currentBaseAnimInfo = some b ∧
        b.action = ⟨⟨"Idle", 2⟩, none⟩ ∧ b.endTime = none ∧ b.startNextTime = none) :=
  have h1 := (loop_coercion loopIdle [AnimOpts.named "A"] (create exampleClips) 0 ⟨"Idle", 2⟩
      (by simp [create, exampleClips, loopIdle, AnimOpts.named]) rfl).1
      ⟨AnimOpts.named "A", by simp, rfl⟩
  ⟨⟨h1.1, h1.2 rfl rfl⟩,
    (loop_coercion loopIdle [] (create exampleClips) 0 ⟨"Idle", 2⟩
      (by simp [create, exampleClips, loopIdle, AnimOpts.named]) rfl).2 rfl rfl rfl⟩

/-- C9, the code at the failing input: on a new manager `queueAnimations([{"name": "Idle",
"loop": true}, {"name": "Blink", "isMixin": true}])` starts `Idle`, which is the only base
request, the entry behind it being a mixin.  The code still forces it to play once: the
action is set to `LoopOnce` and the current base gets the end time `2`, not `null`. -/
theorem loop_forced_before_mixin :
    findNextBaseAnimIn [mixinBlink] = none ∧
      loopIdle.loop = true ∧
      (queueAnimations (create exampleClips) (Anims.many [loopIdle, mixinBlink])
          false).currentBaseAnimInfo
        = some ⟨⟨⟨"Idle", 2⟩, none⟩, some 2, none, false⟩ ∧
      Effect.setLoop ⟨⟨"Idle", 2⟩, none⟩ false ∈
        (queueAnimations (create exampleClips) (Anims.many [loopIdle, mixinBlink])
          false).effects := by
  refine ⟨by simp [findNextBaseAnimIn, mixinBlink, AnimOpts.named], rfl, ?_, ?_⟩ <;>
    simp [queueAnimations, create, exampleClips, playNextAnim, playNextAnimFrom, startsAtOnce,
      queueAfterPush, Anims.toList, AnimOpts.named, loopIdle, mixinBlink, findNextBaseAnimIn,
      effectiveFadeTime, defaultFadeTime, startEffects, fadeEffects, disableEffects]

/-- C10, at concrete inputs: after `playAnimations({"name": "A", "forcePlaythrough": true})`
on a new manager the current base is forced and has the end time `1`; the same request
started by `_playNextAnim` yields a non-looping base that keeps the flag. -/
theorem forcePlaythrough_only_finite_witness :
    Reachable exampleClips (playAnimations (create exampleClips) (Anims.single forcedA)) ∧
      (playAnimations (create exampleClips) (Anims.single forcedA)).currentBaseAnimInfo
        = some ⟨⟨⟨"A", 1⟩, none⟩, some 1, none, true⟩ ∧
      (BaseAnimInfo.mk ⟨⟨"A", 1⟩, none⟩ (some 1) none true).endTime ≠ none ∧
      ∃ b, (playNextAnimFrom [forcedA] (create exampleClips) 0).currentBaseAnimInfo = some b ∧
        (b.endTime = none → b.forcePlaythrough = false) ∧
        (b.endTime ≠ none → b.forcePlaythrough = forcedA.forcePlaythrough) := by
  have hr : Reachable exampleClips (playAnimations (create exampleClips) (Anims.single forcedA)) :=
    Reachable.playAnimations _ Reachable.create
  have hcur : (playAnimations (create exampleClips) (Anims.single forcedA)).currentBaseAnimInfo
      = some ⟨⟨⟨"A", 1⟩, none⟩, some 1, none, true⟩ := by
    simp [playAnimations, queueAnimations, create, exampleClips, playNextAnim, playNextAnimFrom,
      startsAtOnce, queueAfterPush, Anims.toList, AnimOpts.named, forcedA, findNextBaseAnimIn]
  exact ⟨hr, hcur, (forcePlaythrough_only_finite exampleClips).1 _ hr _ hcur rfl,
    (forcePlaythrough_only_finite exampleClips).2 forcedA [] (create exampleClips) 0 ⟨"A", 1⟩
      (by simp [create, exampleClips, forcedA, AnimOpts.named]) rfl rfl⟩

/-- The effective fade time is never negative. -/
theorem effectiveFadeTime_nonneg (info : AnimOpts) : 0 ≤ effectiveFadeTime info := by
  unfold effectiveFadeTime
  cases info.fadeTime with
  | none => simp [defaultFadeTime]
  | some f => exact le_max_left 0 f

/-- `_playNextAnim` keeps the current base well formed. -/
theorem playNextAnimFrom_wellFormed (q : List AnimOpts) :
    ∀ (m : Manager) (d : ℚ), WellFormed m → WellFormed (playNextAnimFrom q m d) := by
  induction q with
  | nil => intro m d h; simpa [playNextAnimFrom, WellFormed] using h
  | cons info rest ih =>
    intro m d h
    cases hc : m.animClips info.name with
    | none =>
      cases hi : inheritedName info.name with
      | true =>
        rw [playNextAnimFrom_inherited info rest m d hc hi]
        simpa [WellFormed] using h
      | false =>
        rw [playNextAnimFrom_unknown info rest m d hc hi]
        exact ih _ _ (by simpa [WellFormed] using h)
    | some clip =>
      cases hmix : (info.isMixin || info.altRoot.isSome) with
      | true =>
        rw [playNextAnimFrom_mixin info rest m d clip hc hmix]
        exact ih _ _ (by simpa [WellFormed] using h)
      | false =>
        obtain ⟨hm, ha⟩ := (not_mixin_iff info).1 hmix
        intro b hb
        rw [(playNextAnimFrom_base info rest m d clip hc hm ha).2.2.2] at hb
        simp only [Option.some.injEq] at hb
        subst hb
        by_cases hl : (info.loop && rest.isEmpty) = true
        · simp [hl]
        · simp only [hl, if_false]
          refine ⟨by simp, ?_⟩
          intro s hs
          cases hn : findNextBaseAnimIn rest with
          | none => simp [hn] at hs
          | some n =>
            simp [hn] at hs
            refine ⟨_, rfl, ?_⟩
            rw [← hs]
            linarith [effectiveFadeTime_nonneg n]

/-- `queueAnimations` keeps the current base well formed. -/
theorem queueAnimations_wellFormed (m : Manager) (anims : Anims) (purge : Bool)
    (h : WellFormed m) : WellFormed (queueAnimations m anims purge) := by
  by_cases hne : anims = Anims.missing
  · subst hne
    simpa [queueAnimations, WellFormed] using h
  · cases hs : startsAtOnce m.currentBaseAnimInfo purge with
    | true =>
      rw [queueAnimations_at_once m anims purge hne hs]
      exact playNextAnimFrom_wellFormed _ _ _ (by simpa [WellFormed] using h)
    | false =>
      cases hcur : m.currentBaseAnimInfo with
      | none => simp [hcur, startsAtOnce] at hs
      | some b =>
        rw [hcur] at hs
        have hn := (queueAnimations_not_at_once m anims purge b hne hcur hs).2.2.2
        have hb := h b hcur
        have hend : ∃ e, b.endTime = some e := by
          cases he : b.endTime with
          | none => simp [startsAtOnce, truthy, he] at hs
          | some e => exact ⟨e, rfl⟩
        obtain ⟨e, he⟩ := hend
        intro b2 hb2
        rw [hn] at hb2
        simp only [Option.some.injEq] at hb2
        subst hb2
        split_ifs
        · exact hb
        · refine ⟨by simp [he], ?_⟩
          intro s hs2
          refine ⟨e, he, ?_⟩
          cases hf : findNextBaseAnimIn (queueAfterPush m.animQueue anims.toList purge) with
          | none =>
            simp only [hf, he, Option.some.injEq] at hs2
            exact le_of_eq hs2.symm
          | some n =>
            simp only [hf, he, Option.map_some', Option.some.injEq] at hs2
            rw [← hs2]
            linarith [effectiveFadeTime_nonneg n]

/-- `update` keeps the current base well formed. -/
theorem update_wellFormed (m : Manager) (delta : ℚ) (h : WellFormed m) :
    WellFormed (update m delta) := by
  have lift : ∀ m1 : Manager, WellFormed m1 →
      WellFormed { m1 with time := m1.time + delta } := by
    intro m1 h1; simpa [WellFormed] using h1
  have hnone : WellFormed { m with currentBaseAnimInfo := none } := by
    simp [WellFormed]
  unfold update
  apply lift
  cases m.currentBaseAnimInfo with
  | none => exact h
  | some b =>
    simp only []
    cases b.endTime with
    | none => exact h
    | some e =>
      simp only []
      split_ifs with he hle
      · cases b.startNextTime with
        | none => exact hnone
        | some s =>
          simp only []
          split_ifs
          · exact playNextAnimFrom_wellFormed _ _ _ hnone
          · exact hnone
      · cases b.startNextTime with
        | none => exact h
        | some s =>
          simp only []
          split_ifs
          · exact playNextAnimFrom_wellFormed _ _ _ h
          · exact h
      · exact h

/-- `clearQueue` keeps the current base well formed. -/
theorem clearQueue_wellFormed (m : Manager) (flag : Bool) (h : WellFormed m) :
    WellFormed (clearQueue m flag) := by
  intro b hb
  cases flag with
  | false => exact h b (by simpa [clearQueue] using hb)
  | true =>
    simp only [clearQueue, if_true, Option.map_eq_some'] at hb
    obtain ⟨b0, hb0, rfl⟩ := hb
    exact h b0 hb0

/-- Every reachable state has a well-formed current base. -/
theorem reachable_wellFormed (animClips : String → Option Clip) (m : Manager)
    (h : Reachable animClips m) : WellFormed m := by
  induction h with
  | create => simp [WellFormed, create]
  | queueAnimations anims purge _ ih => exact queueAnimations_wellFormed _ _ _ ih
  | playAnimations anims _ ih => exact queueAnimations_wellFormed _ _ _ ih
  | clearQueue flag _ ih => exact clearQueue_wellFormed _ _ ih
  | update delta _ ih => exact update_wellFormed _ _ ih
  | stopAll _ ih => simp [WellFormed, stopAll]

/-- C14: well-formedness of the current base is an invariant.  In every state reachable
from the constructor through `queueAnimations`, `playAnimations`, `clearQueue`, `update`
and `stopAll`, with arbitrary requests (whatever their `fadeTime`), an active base with
`endTime = null` has `startNextTime = null`, and a set `startNextTime` comes with an
`endTime` that is not earlier. -/
theorem base_wellFormed (animClips : String → Option Clip) (m : Manager)
    (h : Reachable animClips m) (b : BaseAnimInfo) (hb : m.currentBaseAnimInfo = some b) :
    (b.endTime = none → b.startNextTime = none) ∧
      (∀ s, b.startNextTime = some s → ∃ e, b.endTime = some e ∧ s ≤ e) :=
  reachable_wellFormed animClips m h b hb

/-- C14, at a concrete input: after `queueAnimations([A, {"name": "B", "fadeTime": -1}])`
on a new manager the base `A` ends at `1` and the start of `B` is scheduled at `1`, the
negative fade time being clamped to `0`. -/
theorem base_wellFormed_witness :
    Reachable exampleClips
        (queueAnimations (create exampleClips)
          (Anims.many [AnimOpts.named "A", negativeFadeB]) false) ∧
      (queueAnimations (create exampleClips)
          (Anims.many [AnimOpts.named "A", negativeFadeB]) false).currentBaseAnimInfo
        = some ⟨⟨⟨"A", 1⟩, none⟩, some 1, some 1, false⟩ ∧
      ∀ s, (BaseAnimInfo.mk ⟨⟨"A", 1⟩, none⟩ (some 1) (some 1) false).startNextTime = some s →
        ∃ e, (BaseAnimInfo.mk ⟨⟨"A", 1⟩, none⟩ (some 1) (some 1) false).endTime = some e ∧
          s ≤ e := by
  have hr : Reachable exampleClips
      (queueAnimations (create exampleClips)
        (Anims.many [AnimOpts.named "A", negativeFadeB]) false) :=
    Reachable.queueAnimations _ false Reachable.create
  have hcur : (queueAnimations (create exampleClips)
      (Anims.many [AnimOpts.named "A", negativeFadeB]) false).currentBaseAnimInfo
      = some ⟨⟨⟨"A", 1⟩, none⟩, some 1, some 1, false⟩ := by
    simp [queueAnimations, create, exampleClips, playNextAnim, playNextAnimFrom, startsAtOnce,
      queueAfterPush, Anims.toList, AnimOpts.named, negativeFadeB, findNextBaseAnimIn,
      effectiveFadeTime]
  exact ⟨hr, hcur, (base_wellFormed exampleClips _ hr _ hcur).2⟩

/-- Requests naming clips that were not stored and that are not inherited member names
are dropped one after the other; the request behind them is then processed on a manager
that differs only in its effect log, with the start offset `0` if anything was dropped. -/
theorem playNextAnimFrom_drops_unknown (unknowns : List AnimOpts) (next : List AnimOpts) :
    ∀ (m : Manager) (d : ℚ),
      (∀ u ∈ unknowns, m.animClips u.name = none ∧ inheritedName u.name = false) →
      ∃ m2 : Manager, m2.animClips = m.animClips ∧ m2.time = m.time ∧
        m2.currentBaseAnimInfo = m.currentBaseAnimInfo ∧
        playNextAnimFrom (unknowns ++ next) m d
          = playNextAnimFrom next m2 (if unknowns.isEmpty then d else 0) := by
  induction unknowns with
  | nil => intro m d _; exact ⟨m, rfl, rfl, rfl, by simp⟩
  | cons u us ih =>
    intro m d h
    have hu := h u (List.mem_cons_self _ _)
    have hus : ∀ v ∈ us,
        ({ m with animQueue := us ++ next,
                  effects := m.effects ++ [Effect.warnUnknown u.name] } : Manager).animClips
            v.name = none ∧ inheritedName v.name = false :=
      fun v hv => h v (List.mem_cons_of_mem _ hv)
    obtain ⟨m2, h1, h2, h3, h4⟩ := ih _ 0 hus
    refine ⟨m2, h1, h2, h3, ?_⟩
    rw [List.cons_append, playNextAnimFrom_unknown u (us ++ next) m d hu.1 hu.2, h4]
    simp

/-- With `whenPurged = false` and an active base whose `endTime` is a non-zero number,
`getTotalQueueBaseTime` returns the time left until that end time, whatever is queued. -/
theorem getTotalQueueBaseTime_of_finite (m : Manager) (b : BaseAnimInfo) (e : ℚ)
    (hcur : m.currentBaseAnimInfo = some b) (he : b.endTime = some e) (he0 : e ≠ 0) :
    getTotalQueueBaseTime m false = e - m.time := by
  simp [getTotalQueueBaseTime, hcur, he, he0, truthy]

/-- C11, the code at the failing input.  `A` is started with `forcePlaythrough` and a
`Blink` mixin is queued behind it; then `playAnimations({"name": "C"})` is called.  The two
runs differ only in the `forcePlaythrough` flag of the mixin, and yet the purge removes the
mixin without the flag and keeps the one with it. -/
theorem purge_keeps_forced_mixin :
    { forcedMixinBlink with forcePlaythrough := false } = mixinBlink ∧
      forcedMixinBlink.isMixin = true ∧
      (playAnimations (forcedAThen mixinBlink) (Anims.single (AnimOpts.named "C"))).animQueue
        = [AnimOpts.named "C"] ∧
      (playAnimations (forcedAThen forcedMixinBlink)
          (Anims.single (AnimOpts.named "C"))).animQueue
        = [forcedMixinBlink, AnimOpts.named "C"] := by
  refine ⟨rfl, rfl, ?_, ?_⟩ <;>
    simp [playAnimations, forcedAThen, queueAnimations, create, exampleClips, playNextAnim,
      playNextAnimFrom, startsAtOnce, queueAfterPush, Anims.toList, AnimOpts.named, forcedA,
      mixinBlink, forcedMixinBlink, findNextBaseAnimIn, truthy]

/-- C12, the code at the failing input: the example of the specification.  After
`queueAnimations([A, B, {"name": "C", "loop": true}])` on a new manager (`A` lasts 2 s,
`B` 3 s) the base `A` is active until `2` with its successor scheduled at `1.75`, and `B`
and `C` are queued.  The total of the specification is `(1.75 - 0) + (0 - 0.25 + 3) = 4.5`;
`getTotalQueueBaseTime(false)` returns `2 - 0 = 2`. -/
theorem getTotalQueueBaseTime_example :
    queuedABC.currentBaseAnimInfo = some ⟨⟨⟨"A", 2⟩, none⟩, some 2, some (7 / 4), false⟩ ∧
      queuedABC.animQueue = [AnimOpts.named "B", loopC] ∧
      queuedABC.time = 0 ∧
      specTotalQueueBaseTime queuedABC (7 / 4) = 9 / 2 ∧
      getTotalQueueBaseTime queuedABC false = 2 := by
  have h : queuedABC.currentBaseAnimInfo
        = some ⟨⟨⟨"A", 2⟩, none⟩, some 2, some (7 / 4), false⟩ ∧
      queuedABC.animQueue = [AnimOpts.named "B", loopC] ∧
      queuedABC.time = 0 ∧ queuedABC.animClips = timedClips := by
    simp [queuedABC, queueAnimations, create, timedClips, playNextAnim, playNextAnimFrom,
      startsAtOnce, queueAfterPush, Anims.toList, AnimOpts.named, loopC, findNextBaseAnimIn,
      effectiveFadeTime, defaultFadeTime]
    norm_num
  refine ⟨h.1, h.2.1, h.2.2.1, ?_, ?_⟩
  · simp [specTotalQueueBaseTime, h.2.1, h.2.2.1, h.2.2.2, queuedBaseTime, timedClips,
      AnimOpts.named, loopC, effectiveFadeTime, defaultFadeTime]
    norm_num
  · rw [getTotalQueueBaseTime_of_finite queuedABC _ 2 h.1 rfl (by norm_num), h.2.2.1]
    norm_num

/-- C13, the code at the failing input: on a new manager
`queueAnimations([{"name": "toString"}, {"name": "A"}])`.  No clip named `toString` was
stored, but the lookup in the dictionary object finds the inherited method, so the request
is not skipped as unknown: the value is handed to `clipAction` (where THREE.js raises a
`TypeError`), and the known request `A` behind it is not started. -/
theorem inherited_name_not_skipped :
    exampleClips "toString" = none ∧
      exampleClips "A" = some ⟨"A", 1⟩ ∧
      (queueAnimations (create exampleClips)
          (Anims.many [AnimOpts.named "toString", AnimOpts.named "A"]) false).effects
        = [Effect.clipActionNonClip "toString" none] ∧
      (queueAnimations (create exampleClips)
          (Anims.many [AnimOpts.named "toString", AnimOpts.named "A"]) false).animQueue
        = [AnimOpts.named "A"] ∧
      (queueAnimations (create exampleClips)
          (Anims.many [AnimOpts.named "toString", AnimOpts.named "A"])
            false).currentBaseAnimInfo
        = none := by
  have hi : inheritedName "toString" = true := by decide
  refine ⟨by simp [exampleClips], by simp [exampleClips], ?_, ?_, ?_⟩ <;>
    simp [queueAnimations, create, exampleClips, playNextAnim, playNextAnimFrom, startsAtOnce,
      queueAfterPush, Anims.toList, AnimOpts.named, hi]

/-- When the successor of the current base is due, `update` goes through `_playNextAnim`
with the start offset `mixerTime + delta - s`: the current base afterwards is the one that
call leaves. -/
theorem update_reaches_successor (m : Manager) (delta e s : ℚ) (b : BaseAnimInfo)
    (hcur : m.currentBaseAnimInfo = some b) (he : b.endTime = some e) (he0 : e ≠ 0)
    (hs : b.startNextTime = some s) (hs0 : s ≠ 0) (hreach : s ≤ m.time + delta) :
    (update m delta).currentBaseAnimInfo =
      (playNextAnimFrom m.animQueue
        (if e ≤ m.time + delta then { m with currentBaseAnimInfo := none } else m)
        (m.time + delta - s)).currentBaseAnimInfo := by
  by_cases hle : e ≤ m.time + delta
  · simp [update, hcur, he, he0, hs, hs0, hreach, hle, playNextAnim]
  · simp [update, hcur, he, he0, hs, hs0, hreach, hle, playNextAnim]

/-- The state `nearHandOver`: `A` is the current base until `1`, `B` is queued and
scheduled to start at `0.75`, and the mixer time is `0.74`. -/
theorem nearHandOver_eval :
    nearHandOver.currentBaseAnimInfo = some ⟨⟨⟨"A", 1⟩, none⟩, some 1, some (3 / 4), false⟩ ∧
      nearHandOver.animQueue = [AnimOpts.named "B"] ∧ nearHandOver.time = 37 / 50 ∧
      nearHandOver.animClips = exampleClips := by
  simp [nearHandOver, playingA, update, queueAnimations, create, exampleClips, playNextAnim,
    playNextAnimFrom, startsAtOnce, queueAfterPush, Anims.toList, AnimOpts.named, truthy,
    findNextBaseAnimIn, effectiveFadeTime, defaultFadeTime]
  norm_num

/-- The state `nearHandOverUnknown`: as `nearHandOver`, with the unknown request `Nope`
queued in front of `B`. -/
theorem nearHandOverUnknown_eval :
    nearHandOverUnknown.currentBaseAnimInfo
        = some ⟨⟨⟨"A", 1⟩, none⟩, some 1, some (3 / 4), false⟩ ∧
      nearHandOverUnknown.animQueue = [AnimOpts.named "Nope", AnimOpts.named "B"] ∧
      nearHandOverUnknown.time = 37 / 50 ∧
      nearHandOverUnknown.animClips = exampleClips := by
  simp [nearHandOverUnknown, update, queueAnimations, create, exampleClips, playNextAnim,
    playNextAnimFrom, startsAtOnce, queueAfterPush, Anims.toList, AnimOpts.named, truthy,
    findNextBaseAnimIn, effectiveFadeTime, defaultFadeTime]
  norm_num

/-- The end time `B` gets when `update(delta)` hands over to it in the state
`nearHandOver`, for a tick that reaches the scheduled start `0.75` but not the end of `A`:
`0.74 + 0.25 + 0 - (0.74 + delta - 0.75)`. -/
theorem nearHandOver_update (delta : ℚ) (h1 : 1 / 100 ≤ delta) (h2 : delta < 13 / 50) :
    (update nearHandOver delta).currentBaseAnimInfo =
      some ⟨⟨⟨"B", 1 / 4⟩, none⟩, some (1 - delta), none, false⟩ := by
  obtain ⟨hcur, hq, ht, hc⟩ := nearHandOver_eval
  rw [update_reaches_successor nearHandOver delta 1 (3 / 4) _ hcur rfl (by norm_num) rfl
    (by norm_num) (by rw [ht]; linarith)]
  have hle : ¬ (1 : ℚ) ≤ nearHandOver.time + delta := by rw [ht]; linarith
  rw [if_neg hle, hq]
  have hB : nearHandOver.animClips (AnimOpts.named "B").name = some ⟨"B", 1 / 4⟩ := by
    rw [hc]; simp [exampleClips, AnimOpts.named]
  rw [(playNextAnimFrom_base (AnimOpts.named "B") [] nearHandOver _ ⟨"B", 1 / 4⟩ hB rfl
    rfl).2.2.2, ht]
  simp [AnimOpts.named, findNextBaseAnimIn]
  linarith

/-- C26, the code at the failing input.  In the state `nearHandOver` the base `A` has its
successor `B` (0.25 s, no delay) scheduled at `s = 0.75`, and the mixer time is `0.74`.
A tick of `0.01` reaches `s` exactly and a tick of `0.02` passes it; started as if at `s`,
`B` would end at `0.75 + 0.25 + 0 = 1` in both runs.  The code gives `B` the end time
`0.99` after the tick of `0.01` and `0.98` after the tick of `0.02`: the start offset is
measured against the mixer time after the tick, but subtracted from the mixer time before
it, so the end time is `s + duration + delay - delta`. -/
theorem handOver_depends_on_tick :
    nearHandOver.currentBaseAnimInfo = some ⟨⟨⟨"A", 1⟩, none⟩, some 1, some (3 / 4), false⟩ ∧
      nearHandOver.animQueue = [AnimOpts.named "B"] ∧ nearHandOver.time = 37 / 50 ∧
      (update nearHandOver (1 / 100)).currentBaseAnimInfo
        = some ⟨⟨⟨"B", 1 / 4⟩, none⟩, some (99 / 100), none, false⟩ ∧
      (update nearHandOver (1 / 50)).currentBaseAnimInfo
        = some ⟨⟨⟨"B", 1 / 4⟩, none⟩, some (49 / 50), none, false⟩ := by
  refine ⟨nearHandOver_eval.1, nearHandOver_eval.2.1, nearHandOver_eval.2.2.1, ?_, ?_⟩
  · rw [nearHandOver_update (1 / 100) (by norm_num) (by norm_num)]
    norm_num
  · rw [nearHandOver_update (1 / 50) (by norm_num) (by norm_num)]
    norm_num

/-- C29, the code at the failing input.  `A` is active with its successor scheduled at
`0.75`, the mixer time is `0.74`, and `update(0.02)` calls `_playNextAnim(0.01)`.  With
`B` at the head of the queue, `B` gets the end time `0.74 + 0.25 + 0 - 0.01 = 0.98`.  With
the unknown request `Nope` in front of `B`, the retry after the warning is
`_playNextAnim()` without the offset, and `B` gets the end time `0.74 + 0.25 + 0 = 0.99`. -/
theorem unknown_head_drops_offset :
    exampleClips "Nope" = none ∧ inheritedName "Nope" = false ∧
      nearHandOverUnknown.animQueue = [AnimOpts.named "Nope", AnimOpts.named "B"] ∧
      nearHandOver.animQueue = [AnimOpts.named "B"] ∧
      nearHandOverUnknown.currentBaseAnimInfo = nearHandOver.currentBaseAnimInfo ∧
      nearHandOverUnknown.time = nearHandOver.time ∧
      (update nearHandOver (1 / 50)).currentBaseAnimInfo
        = some ⟨⟨⟨"B", 1 / 4⟩, none⟩, some (49 / 50), none, false⟩ ∧
      (update nearHandOverUnknown (1 / 50)).currentBaseAnimInfo
        = some ⟨⟨⟨"B", 1 / 4⟩, none⟩, some (99 / 100), none, false⟩ := by
  obtain ⟨hcur, hq, ht, hc⟩ := nearHandOverUnknown_eval
  refine ⟨by decide, by decide, hq, nearHandOver_eval.2.1,
    hcur.trans nearHandOver_eval.1.symm, ht.trans nearHandOver_eval.2.2.1.symm, ?_, ?_⟩
  · rw [nearHandOver_update (1 / 50) (by norm_num) (by norm_num)]
    norm_num
  · rw [update_reaches_successor nearHandOverUnknown (1 / 50) 1 (3 / 4) _ hcur rfl
      (by norm_num) rfl (by norm_num) (by rw [ht]; norm_num)]
    have hle : ¬ (1 : ℚ) ≤ nearHandOverUnknown.time + 1 / 50 := by rw [ht]; norm_num
    rw [if_neg hle, hq]
    have hN : nearHandOverUnknown.animClips (AnimOpts.named "Nope").name = none := by
      rw [hc]; decide
    rw [playNextAnimFrom_unknown (AnimOpts.named "Nope") [AnimOpts.named "B"]
      nearHandOverUnknown _ hN (by decide)]
    have hB : ({ nearHandOverUnknown with
        animQueue := [AnimOpts.named "B"]
        effects := nearHandOverUnknown.effects
          ++ [Effect.warnUnknown (AnimOpts.named "Nope").name] } : Manager).animClips
        (AnimOpts.named "B").name = some ⟨"B", 1 / 4⟩ := by
      show nearHandOverUnknown.animClips (AnimOpts.named "B").name = _
      rw [hc]; simp [exampleClips, AnimOpts.named]
    rw [(playNextAnimFrom_base (AnimOpts.named "B") [] _ 0 ⟨"B", 1 / 4⟩ hB rfl rfl).2.2.2]
    simp [AnimOpts.named, findNextBaseAnimIn, ht]
    norm_num

end AnimationManager

/-! ## Properties of the application driver -/

namespace Totoroar

/-- C18: a body hit outside the idle state.  For every driver state whose behaviour state
is not `"Idling"`, whatever the anger data, `handleModelHit` returns without raising; it
leaves the anger data, the pending timers, the animation manager and the behaviour state
machine unchanged and triggers no roar; and the only thing it may do is play the neutral
`"nopoke"` cue, which it does exactly when the state is not `"Waving"`. -/
theorem handleModelHit_not_idle (app : App) (mgr : ActionStateManager.Manager) (curTime : ℚ)
    (hm : app.actionStateMgr = some mgr)
    (hs : ActionStateManager.getState mgr ≠ MDL_STATE_IDLE) :
    ∃ app2, handleModelHit app curTime = Except.ok app2 ∧
      app2.angerData = app.angerData ∧ app2.timers = app.timers ∧
      app2.animMgr = app.animMgr ∧ app2.actionStateMgr = app.actionStateMgr ∧
      app2.roarTriggers = app.roarTriggers ∧
      (ActionStateManager.getState mgr ≠ MDL_STATE_WAVE →
        app2.audio = app.audio ++ [AudioCall.playAudio "nopoke" true false 0]) ∧
      (ActionStateManager.getState mgr = MDL_STATE_WAVE → app2.audio = app.audio) := by
  by_cases hw : ActionStateManager.getState mgr = MDL_STATE_WAVE
  · refine ⟨app, ?_, rfl, rfl, rfl, rfl, rfl, fun h => absurd hw h, fun _ => rfl⟩
    simp only [handleModelHit, hm]
    rw [if_pos hs, if_neg (not_not.mpr hw)]
  · refine ⟨playAudio app "nopoke" true false 0, ?_, rfl, rfl, rfl, rfl, rfl, fun _ => rfl,
      fun h => absurd h hw⟩
    simp only [handleModelHit, hm]
    rw [if_pos hs, if_pos hw]

/-- C18, at concrete inputs: a hit while whistling plays `"nopoke"` and nothing else; a
hit while waving does nothing. -/
theorem handleModelHit_not_idle_witness :
    (∃ app2,
        handleModelHit
            { placedApp with
              actionStateMgr := some
                { initActionStatesMgr with currentStateName := MDL_STATE_WHISTLE } } 0
          = Except.ok app2 ∧
        app2.angerData = none ∧ app2.timers = [] ∧
        app2.audio = [AudioCall.playAudio "nopoke" true false 0]) ∧
      (∃ app2,
        handleModelHit
            { placedApp with
              actionStateMgr := some
                { initActionStatesMgr with currentStateName := MDL_STATE_WAVE } } 0
          = Except.ok app2 ∧
        app2.angerData = none ∧ app2.timers = [] ∧ app2.audio = []) := by
  constructor
  · obtain ⟨app2, h, ha, ht, -, -, -, hp, -⟩ :=
      handleModelHit_not_idle
        { placedApp with
          actionStateMgr := some
            { initActionStatesMgr with currentStateName := MDL_STATE_WHISTLE } }
        { initActionStatesMgr with currentStateName := MDL_STATE_WHISTLE } 0 rfl (by decide)
    exact ⟨app2, h, ha, ht, hp (by decide)⟩
  · obtain ⟨app2, h, ha, ht, -, -, -, -, hp⟩ :=
      handleModelHit_not_idle
        { placedApp with
          actionStateMgr := some { initActionStatesMgr with currentStateName := MDL_STATE_WAVE } }
        { initActionStatesMgr with currentStateName := MDL_STATE_WAVE } 0 rfl (by decide)
    exact ⟨app2, h, ha, ht, hp rfl⟩

/-- A step that changes nothing is quiet. -/
theorem Quiet.refl (app : App) : Quiet app app :=
  ⟨rfl, rfl, rfl, rfl, fun _ h _ => h⟩

/-- Quiet steps compose. -/
theorem Quiet.trans {a b c : App} (h1 : Quiet a b) (h2 : Quiet b c) : Quiet a c :=
  ⟨h2.1.trans h1.1, h2.2.1.trans h1.2.1, h2.2.2.1.trans h1.2.2.1,
    h2.2.2.2.1.trans h1.2.2.2.1, fun t ht hc => h1.2.2.2.2 t (h2.2.2.2.2 t ht hc) hc⟩

/-- Scheduling a timer that is not a cool-off timer is quiet. -/
theorem quiet_setTimeout (app : App) (now delayMs : ℚ) (action : TimerAction)
    (h : action ≠ TimerAction.coolOff) : Quiet app (setTimeout app now delayMs action).2 := by
  refine ⟨rfl, rfl, rfl, rfl, ?_⟩
  intro t ht hc
  simp only [setTimeout, List.mem_append, List.mem_singleton] at ht
  rcases ht with ht | ht
  · exact ht
  · subst ht; exact absurd hc h

/-- Cancelling a timer is quiet. -/
theorem quiet_clearTimeout (app : App) (id : Nat) : Quiet app (clearTimeout app id) := by
  refine ⟨rfl, rfl, rfl, rfl, ?_⟩
  intro t ht _
  simp only [clearTimeout, List.mem_filter] at ht
  exact ht.1

/-- Playing a sound that is not a poke cue is quiet. -/
theorem quiet_playAudio (app : App) (name : String) (onModel loop : Bool) (fadeInTime : ℚ)
    (h : isPokeCue (AudioCall.playAudio name onModel loop fadeInTime) = false) :
    Quiet app (playAudio app name onModel loop fadeInTime) := by
  refine ⟨rfl, rfl, rfl, ?_, fun _ ht _ => ht⟩
  simp [playAudio, List.filter_append, h]

/-- Stopping a sound is quiet. -/
theorem quiet_stopAudio (app : App) (name : String) (fadeOutTime : ℚ) :
    Quiet app (stopAudio app name fadeOutTime) := by
  refine ⟨rfl, rfl, rfl, ?_, fun _ ht _ => ht⟩
  simp [stopAudio, List.filter_append, isPokeCue]

/-- A request callback is quiet. -/
theorem quiet_animCallback (cb : AnimationManager.Callback) (now : ℚ) (app : App) :
    Quiet app (animCallback cb now app) := by
  unfold animCallback
  split_ifs with h1 h2
  · refine ⟨rfl, rfl, rfl, rfl, ?_⟩
    intro t ht hc
    simp only [setTimeout, List.mem_append, List.mem_singleton] at ht
    rcases ht with ht | ht
    · exact ht
    · subst ht; cases hc
  · cases hh : app.timerIdUmbrellaHide with
    | none =>
      refine ⟨rfl, rfl, rfl, ?_, ?_⟩
      · simp [playAudio, setTimeout, List.filter_append, isPokeCue]
      · intro t ht hc
        simp only [playAudio, setTimeout, List.mem_append, List.mem_singleton] at ht
        rcases ht with ht | ht
        · exact ht
        · subst ht; cases hc
    | some id =>
      refine ⟨rfl, rfl, rfl, ?_, ?_⟩
      · simp [playAudio, setTimeout, clearTimeout, List.filter_append, isPokeCue]
      · intro t ht hc
        simp only [playAudio, setTimeout, clearTimeout, List.mem_append, List.mem_singleton,
          List.mem_filter] at ht
        rcases ht with ht | ht
        · exact ht.1
        · subst ht; cases hc
  · exact Quiet.refl app

/-- Running the request callbacks of a list of calls is quiet. -/
theorem quiet_runAnimCallbacks (effects : List AnimationManager.Effect) (now : ℚ) :
    ∀ app : App, Quiet app (runAnimCallbacks effects now app) := by
  induction effects with
  | nil => intro app; exact Quiet.refl app
  | cons e es ih =>
    intro app
    simp only [runAnimCallbacks, List.foldl_cons]
    cases e with
    | callback cb name => exact (quiet_animCallback cb now app).trans (ih _)
    | _ => exact ih app

/-- A call on the animation manager is quiet, whether it returns or raises. -/
theorem quiet_callAnimMgr (app : App) (now : ℚ)
    (f : AnimationManager.Manager → AnimationManager.Manager) :
    Quiet app (stateAfter (callAnimMgr app now f)) := by
  unfold callAnimMgr
  cases app.animMgr with
  | none => exact Quiet.refl app
  | some am =>
    have h : Quiet app
        (runAnimCallbacks
          ((((f am).effects.drop am.effects.length)).takeWhile
            (fun e => !AnimationManager.raisesTypeError e)) now
          { app with animMgr := some (f am) }) :=
      Quiet.trans (b := { app with animMgr := some (f am) })
        ⟨rfl, rfl, rfl, rfl, fun _ h _ => h⟩ (quiet_runAnimCallbacks _ now _)
    simp only []
    split_ifs <;> exact h

/-- A step that keeps the five components `Quiet` looks at is quiet. -/
theorem quiet_of_fields (app a : App) (h1 : a.actionStateMgr = app.actionStateMgr)
    (h2 : a.angerData = app.angerData) (h3 : a.roarTriggers = app.roarTriggers)
    (h4 : a.audio = app.audio) (h5 : a.timers = app.timers) : Quiet app a :=
  ⟨h1, h2, h3, by rw [h4], fun t ht _ => by rw [h5] at ht; exact ht⟩

/-- Sequencing two quiet calls gives a quiet call, whether the first one raises or not. -/
theorem quiet_andThen (app : App) (x : Except App App) (k : App → Except App App) :
    Quiet app (stateAfter x) → (∀ a, Quiet a (stateAfter (k a))) →
    Quiet app
      (stateAfter
        (match x with
          | Except.error a => Except.error a
          | Except.ok a => k a)) := by
  intro hx hk
  cases x with
  | error a => exact hx
  | ok a => exact Quiet.trans hx (hk a)

/-- The greeting of the wave state is not a poke cue. -/
theorem waveSound_not_poke (hour : ℚ) (onModel loop : Bool) (fadeInTime : ℚ) :
    isPokeCue (AudioCall.playAudio (waveSoundAt hour) onModel loop fadeInTime) = false := by
  unfold waveSoundAt
  split_ifs <;> simp [isPokeCue]

/-- Every callback of `initActionStates()` is quiet, whether it returns or raises. -/
theorem quiet_runStateCallback (h : ActionStateManager.Handler) (oldState : String) (now : ℚ)
    (app : App) : Quiet app (stateAfter (runStateCallback h oldState now app)) := by
  unfold runStateCallback
  split_ifs
  · cases hm : app.animMgr with
    | none => exact Quiet.refl app
    | some am => simpa [hm] using quiet_callAnimMgr app now _
  · cases hm : app.animMgr with
    | none => exact Quiet.refl app
    | some am => simpa [hm] using quiet_callAnimMgr app now _
  · refine quiet_andThen app _
      (fun app1 =>
        match app1.timerIdWhistle with
        | some id => Except.ok { clearTimeout app1 id with timerIdWhistle := none }
        | none => Except.ok (stopAudio app1 "flute" 1)) ?_ ?_
    · cases hm : app.animMgr with
      | none => exact Quiet.refl app
      | some am => simpa [hm] using quiet_callAnimMgr app now _
    · intro a
      beta_reduce
      cases a.timerIdWhistle with
      | none => exact quiet_stopAudio a "flute" 1
      | some id =>
        exact (quiet_clearTimeout a id).trans (quiet_of_fields _ _ rfl rfl rfl rfl rfl)
  · cases hm : app.animMgr with
    | none => exact Quiet.refl app
    | some am =>
      cases hu : app.umbrellaObj with
      | none => exact Quiet.refl app
      | some obj => simpa [hm, hu] using quiet_callAnimMgr app now _
  · cases hm : app.animMgr with
    | none => exact Quiet.refl app
    | some am =>
      cases hu : app.umbrellaObj with
      | none => exact Quiet.refl app
      | some obj =>
        simp only []
        have hq1 : Quiet app
            (match app.timerIdUmbrellaShow with
              | some id => { clearTimeout app id with timerIdUmbrellaShow := none }
              | none => app) := by
          cases app.timerIdUmbrellaShow with
          | none => exact Quiet.refl app
          | some id =>
            exact (quiet_clearTimeout app id).trans (quiet_of_fields _ _ rfl rfl rfl rfl rfl)
        refine hq1.trans ?_
        refine (quiet_setTimeout _ now (2360 - 600) TimerAction.umbrellaHide
          (by decide)).trans ?_
        refine Quiet.trans (quiet_of_fields _
          { (setTimeout
              (match app.timerIdUmbrellaShow with
                | some id => { clearTimeout app id with timerIdUmbrellaShow := none }
                | none => app) now (2360 - 600) TimerAction.umbrellaHide).2 with
            timerIdUmbrellaHide := some
              (setTimeout
                (match app.timerIdUmbrellaShow with
                  | some id => { clearTimeout app id with timerIdUmbrellaShow := none }
                  | none => app) now (2360 - 600) TimerAction.umbrellaHide).1 }
          rfl rfl rfl rfl rfl) ?_
        exact quiet_andThen _ _ (fun app2 => Except.ok (stopAudio app2 "rain" 2))
          (quiet_callAnimMgr _ now _) (fun a => quiet_stopAudio a "rain" 2)
  · cases hm : app.animMgr with
    | none => exact Quiet.refl app
    | some am =>
      simp only []
      refine quiet_andThen app _
        (fun app1 =>
          match app1.animMgr.bind (fun am => AnimationManager.getAnimClip am "Wave") with
          | none => Except.error app1
          | some clip =>
            Except.ok
              (playAudio
                { (setTimeout app1 now
                    (max ((clip.duration - AnimationManager.defaultFadeTime) * 1000) 0)
                    (TimerAction.waveEnd oldState)).2 with
                  timerIdWaveEnd := some
                    (setTimeout app1 now
                      (max ((clip.duration - AnimationManager.defaultFadeTime) * 1000) 0)
                      (TimerAction.waveEnd oldState)).1
                  curWaveSound := waveSoundAt app.hourOfDay }
                (waveSoundAt app.hourOfDay) true false 0))
        (quiet_callAnimMgr app now _) ?_
      intro a
      beta_reduce
      cases a.animMgr.bind (fun am => AnimationManager.getAnimClip am "Wave") with
      | none => exact Quiet.refl a
      | some clip =>
        refine (quiet_setTimeout a now
          (max ((clip.duration - AnimationManager.defaultFadeTime) * 1000) 0)
          (TimerAction.waveEnd oldState) (by simp)).trans ?_
        refine Quiet.trans (quiet_of_fields _
          { (setTimeout a now
              (max ((clip.duration - AnimationManager.defaultFadeTime) * 1000) 0)
              (TimerAction.waveEnd oldState)).2 with
            timerIdWaveEnd := some
              (setTimeout a now
                (max ((clip.duration - AnimationManager.defaultFadeTime) * 1000) 0)
                (TimerAction.waveEnd oldState)).1
            curWaveSound := waveSoundAt app.hourOfDay }
          rfl rfl rfl rfl rfl) ?_
        exact quiet_playAudio _ _ true false 0 (waveSound_not_poke _ _ _ _)
  · have hq1 : Quiet app
        (match app.timerIdWaveEnd with
          | some id => { clearTimeout app id with timerIdWaveEnd := none }
          | none => app) := by
      cases app.timerIdWaveEnd with
      | none => exact Quiet.refl app
      | some id =>
        exact (quiet_clearTimeout app id).trans (quiet_of_fields _ _ rfl rfl rfl rfl rfl)
    exact hq1.trans (quiet_stopAudio _ _ 0)
  · exact Quiet.refl app

/-- A step that changes nothing is still. -/
theorem still_refl (app : App) : Still app app :=
  ⟨rfl, rfl, fun _ h => Or.inl h⟩

/-- Still steps compose. -/
theorem still_trans {a b c : App} (h1 : Still a b) (h2 : Still b c) : Still a c :=
  ⟨h2.1.trans h1.1, h2.2.1.trans h1.2.1, fun x hx =>
    (h2.2.2 x hx).elim (fun h => h1.2.2 x h) Or.inr⟩

/-- A still step is calm. -/
theorem still_calm {a b : App} (h : Still a b) : Calm a b :=
  ⟨h.2.1, fun x hx hc => (h.2.2 x hx).elim id (fun hn => absurd hc hn.1)⟩

/-- A quiet step is calm. -/
theorem quiet_calm {a b : App} (h : Quiet a b) : Calm a b :=
  ⟨h.2.1, h.2.2.2.2⟩

/-- A step that changes nothing is calm. -/
theorem calm_refl (app : App) : Calm app app :=
  ⟨rfl, fun _ h _ => h⟩

/-- Calm steps compose. -/
theorem calm_trans {a b c : App} (h1 : Calm a b) (h2 : Calm b c) : Calm a c :=
  ⟨h2.1.trans h1.1, fun x hx hc => h1.2 x (h2.2 x hx hc) hc⟩

/-- The timers pending after a request callback were pending before, or are the flute
timer or the umbrella-show timer the callback starts. -/
theorem animCallback_timers (cb : AnimationManager.Callback) (now : ℚ) (app : App) :
    ∀ x ∈ (animCallback cb now app).timers, x ∈ app.timers ∨
      (x.action ≠ TimerAction.coolOff ∧ ∀ oldState, x.action ≠ TimerAction.waveEnd oldState) := by
  intro x hx
  unfold animCallback at hx
  split_ifs at hx
  · simp only [setTimeout, List.mem_append, List.mem_singleton] at hx
    rcases hx with hx | hx
    · exact Or.inl hx
    · subst hx; exact Or.inr ⟨by simp, by simp⟩
  · cases hh : app.timerIdUmbrellaHide with
    | none =>
      simp only [hh, playAudio, setTimeout, List.mem_append, List.mem_singleton] at hx
      rcases hx with hx | hx
      · exact Or.inl hx
      · subst hx; exact Or.inr ⟨by simp, by simp⟩
    | some id =>
      simp only [hh, playAudio, setTimeout, clearTimeout, List.mem_append, List.mem_singleton,
        List.mem_filter] at hx
      rcases hx with hx | hx
      · exact Or.inl hx.1
      · subst hx; exact Or.inr ⟨by simp, by simp⟩
  · exact Or.inl hx

/-- A request callback is a still step. -/
theorem still_animCallback (cb : AnimationManager.Callback) (now : ℚ) (app : App) :
    Still app (animCallback cb now app) :=
  ⟨(quiet_animCallback cb now app).1, (quiet_animCallback cb now app).2.1,
    animCallback_timers cb now app⟩

/-- Running the request callbacks of a list of calls is a still step. -/
theorem still_runAnimCallbacks (effects : List AnimationManager.Effect) (now : ℚ) :
    ∀ app : App, Still app (runAnimCallbacks effects now app) := by
  induction effects with
  | nil => intro app; exact still_refl app
  | cons e es ih =>
    intro app
    simp only [runAnimCallbacks, List.foldl_cons]
    cases e with
    | callback cb name => exact still_trans (still_animCallback cb now app) (ih _)
    | _ => exact ih app

/-- A call on the animation manager is a still step, whether it returns or raises. -/
theorem still_callAnimMgr (app : App) (now : ℚ)
    (f : AnimationManager.Manager → AnimationManager.Manager) :
    Still app (stateAfter (callAnimMgr app now f)) := by
  unfold callAnimMgr
  cases app.animMgr with
  | none => exact still_refl app
  | some am =>
    have h : Still app
        (runAnimCallbacks
          ((((f am).effects.drop am.effects.length)).takeWhile
            (fun e => !AnimationManager.raisesTypeError e)) now
          { app with animMgr := some (f am) }) :=
      still_trans (b := { app with animMgr := some (f am) })
        ⟨rfl, rfl, fun _ h => Or.inl h⟩ (still_runAnimCallbacks _ now _)
    simp only []
    split_ifs <;> exact h

/-- A frame is a still step, whether the update of the animation manager returns or
raises. -/
theorem still_frameUpdate (app : App) (now delta : ℚ) :
    Still app (stateAfter (frameUpdate app now delta)) := by
  unfold frameUpdate
  cases hm : app.animMgr with
  | none => exact still_refl app
  | some am => exact still_callAnimMgr app now _

/-- A `switchState` call of the driver is a calm step, whether it returns or raises and
whatever states are registered. -/
theorem switchState_calm (app : App) (stateName : String) (now : ℚ) :
    Calm app (stateAfterSwitch (switchState app stateName now)) := by
  unfold switchState
  cases hm : app.actionStateMgr with
  | none => exact calm_refl app
  | some mgr =>
    simp only []
    cases hl : ActionStateManager.lookup mgr stateName with
    | none => exact calm_refl app
    | some newState =>
      simp only []
      have hout : Calm app
          (stateAfter
            (match (ActionStateManager.lookup mgr mgr.currentStateName).bind
                (fun o => o.switchOutFn) with
              | some f => runStateCallback f mgr.currentStateName now app
              | none => Except.ok app)) := by
        cases (ActionStateManager.lookup mgr mgr.currentStateName).bind
            (fun o => o.switchOutFn) with
        | none => exact calm_refl app
        | some f => exact quiet_calm (quiet_runStateCallback f _ now app)
      generalize (match (ActionStateManager.lookup mgr mgr.currentStateName).bind
          (fun o => o.switchOutFn) with
        | some f => runStateCallback f mgr.currentStateName now app
        | none => Except.ok app) = afterOut at hout ⊢
      cases afterOut with
      | error a => exact hout
      | ok app1 =>
        simp only [stateAfter] at hout
        simp only []
        have hset : Calm app1
            { app1 with
              actionStateMgr :=
                app1.actionStateMgr.map (fun g => { g with currentStateName := stateName }) } :=
          ⟨rfl, fun _ h _ => h⟩
        cases newState.switchInFn with
        | none => exact calm_trans hout hset
        | some g =>
          simp only []
          have hin := quiet_calm (quiet_runStateCallback g mgr.currentStateName now
            { app1 with
              actionStateMgr :=
                app1.actionStateMgr.map
                  (fun g => { g with currentStateName := stateName }) })
          generalize runStateCallback g mgr.currentStateName now
            { app1 with
              actionStateMgr :=
                app1.actionStateMgr.map (fun g => { g with currentStateName := stateName }) }
            = r at hin ⊢
          cases r with
          | error a => exact calm_trans (calm_trans hout hset) hin
          | ok a => exact calm_trans (calm_trans hout hset) hin

/-- The firing of a timer other than a cool-off timer is a calm step. -/
theorem fireTimer_calm (app : App) (x : Timer) (now : ℚ)
    (h : x.action ≠ TimerAction.coolOff) : Calm app (stateAfter (fireTimer app x now)) := by
  have hclear : ∀ y ∈ (clearTimeout app x.id).timers, y ∈ app.timers := by
    intro y hy
    simp only [clearTimeout, List.mem_filter] at hy
    exact hy.1
  unfold fireTimer
  cases hx : x.action with
  | coolOff => exact absurd hx h
  | whistleFlute => exact ⟨rfl, fun y hy _ => hclear y hy⟩
  | umbrellaShow => exact ⟨rfl, fun y hy _ => hclear y hy⟩
  | umbrellaHide => exact ⟨rfl, fun y hy _ => hclear y hy⟩
  | waveEnd oldState =>
    simp only []
    have hc := switchState_calm { clearTimeout app x.id with timerIdWaveEnd := none }
      oldState now
    have h0 : Calm app { clearTimeout app x.id with timerIdWaveEnd := none } :=
      ⟨rfl, fun y hy _ => hclear y hy⟩
    generalize switchState { clearTimeout app x.id with timerIdWaveEnd := none }
      oldState now = r at hc ⊢
    cases r with
    | error a => exact calm_trans h0 hc
    | ok sw => exact calm_trans h0 hc

/-- The firing of a flute timer or of an umbrella timer is a still step. -/
theorem fireTimer_still (app : App) (x : Timer) (now : ℚ)
    (h : x.action ≠ TimerAction.coolOff)
    (hw : ∀ oldState, x.action ≠ TimerAction.waveEnd oldState) :
    Still app (stateAfter (fireTimer app x now)) := by
  have hclear : ∀ y ∈ (clearTimeout app x.id).timers, y ∈ app.timers := by
    intro y hy
    simp only [clearTimeout, List.mem_filter] at hy
    exact hy.1
  unfold fireTimer
  cases hx : x.action with
  | coolOff => exact absurd hx h
  | waveEnd oldState => exact absurd hx (hw oldState)
  | whistleFlute => exact ⟨rfl, rfl, fun y hy => Or.inl (hclear y hy)⟩
  | umbrellaShow => exact ⟨rfl, rfl, fun y hy => Or.inl (hclear y hy)⟩
  | umbrellaHide => exact ⟨rfl, rfl, fun y hy => Or.inl (hclear y hy)⟩

/-- While no pending cool-off timer is due, what the driver does by itself is calm: the
anger data stays as it is and no cool-off timer is started. -/
theorem elapses_calm (hi : ℚ) (app a : App) (h : Elapses hi app a) :
    (∀ x ∈ app.timers, x.action = TimerAction.coolOff → hi < x.due) → Calm app a := by
  induction h with
  | done app => intro _; exact calm_refl app
  | timer app a x now hx hdue hnow _ ih =>
    intro hco
    have hne : x.action ≠ TimerAction.coolOff := fun hc =>
      absurd (hco x hx hc) (not_lt.mpr (hdue.trans hnow))
    have hc := fireTimer_calm app x now hne
    exact calm_trans hc (ih (fun y hy hyc => hco y (hc.2 y hy hyc) hyc))
  | frame app a now delta _ _ ih =>
    intro hco
    have hc := still_calm (still_frameUpdate app now delta)
    exact calm_trans hc (ih (fun y hy hyc => hco y (hc.2 y hy hyc) hyc))

/-- While neither a pending cool-off timer nor a pending wave-end timer is due, what the
driver does by itself is still: the behaviour state and the anger data stay as they are. -/
theorem elapses_still (hi : ℚ) (app a : App) (h : Elapses hi app a) :
    (∀ x ∈ app.timers, x.action = TimerAction.coolOff → hi < x.due) →
    (∀ x ∈ app.timers, ∀ oldState, x.action = TimerAction.waveEnd oldState → hi < x.due) →
    Still app a := by
  induction h with
  | done app => intro _ _; exact still_refl app
  | timer app a x now hx hdue hnow _ ih =>
    intro hco hwe
    have hne : x.action ≠ TimerAction.coolOff := fun hc =>
      absurd (hco x hx hc) (not_lt.mpr (hdue.trans hnow))
    have hnw : ∀ oldState, x.action ≠ TimerAction.waveEnd oldState := fun old hc =>
      absurd (hwe x hx old hc) (not_lt.mpr (hdue.trans hnow))
    have hs := fireTimer_still app x now hne hnw
    refine still_trans hs (ih ?_ ?_)
    · intro y hy hyc
      exact (hs.2.2 y hy).elim (fun h => hco y h hyc) (fun hn => absurd hyc hn.1)
    · intro y hy old hyw
      exact (hs.2.2 y hy).elim (fun h => hwe y h old hyw) (fun hn => absurd hyw (hn.2 old))
  | frame app a now delta _ _ ih =>
    intro hco hwe
    have hs := still_frameUpdate app now delta
    refine still_trans hs (ih ?_ ?_)
    · intro y hy hyc
      exact (hs.2.2 y hy).elim (fun h => hco y h hyc) (fun hn => absurd hyc hn.1)
    · intro y hy old hyw
      exact (hs.2.2 y hy).elim (fun h => hwe y h old hyw) (fun hn => absurd hyw (hn.2 old))

/-- The id of the cool-off timer `handleModelHit` starts is the next id handed out. -/
theorem restartCoolOff_id (app : App) (ad : AngerData) (t : ℚ) :
    (restartCoolOff app ad t).1 = app.nextTimerId := by
  unfold restartCoolOff setTimeout
  cases ad.coolOffId <;> rfl

/-- The state after the cool-off timer was restarted: only the pending timers and the next
timer id change. -/
theorem restartCoolOff_state (app : App) (ad : AngerData) (t : ℚ) :
    (restartCoolOff app ad t).2 =
      { app with
        timers :=
          (match ad.coolOffId with
            | some id => app.timers.filter (fun x => x.id ≠ id)
            | none => app.timers)
            ++ [⟨app.nextTimerId, t + 5000, TimerAction.coolOff⟩]
        nextTimerId := app.nextTimerId + 1 } := by
  unfold restartCoolOff setTimeout
  cases ad.coolOffId <;> rfl

/-- `handleModelHit` outside the idle state: the neutral cue unless the state is the wave
state, and nothing else. -/
theorem handleModelHit_of_not_idle (app : App) (mgr : ActionStateManager.Manager) (t : ℚ)
    (hm : app.actionStateMgr = some mgr)
    (hs : ActionStateManager.getState mgr ≠ MDL_STATE_IDLE) :
    handleModelHit app t =
      Except.ok
        (if ActionStateManager.getState mgr ≠ MDL_STATE_WAVE then
          playAudio app "nopoke" true false 0
        else app) := by
  simp only [handleModelHit, hm]
  rw [if_pos hs]
  split_ifs <;> rfl

/-- `handleModelHit` in the idle state, in terms of the anger data it works on. -/
theorem handleModelHit_of_idle (app : App) (mgr : ActionStateManager.Manager) (t : ℚ)
    (hm : app.actionStateMgr = some mgr)
    (hs : ActionStateManager.getState mgr = MDL_STATE_IDLE) :
    handleModelHit app t =
      if t ≤ (angerOf app).cooldown then
        Except.ok
          (playAudio
            { (restartCoolOff { app with angerData := some (angerOf app) } (angerOf app) t).2 with
              angerData := some
                { angerOf app with
                  coolOffId := some app.nextTimerId, cooldown := t + 2500 } }
            "nopoke" true false 0)
      else
        handleClearedHit
          { (restartCoolOff { app with angerData := some (angerOf app) } (angerOf app) t).2 with
            angerData := some
              { level := (angerOf app).level + 1, cooldown := t + 2500,
                coolOffId := some app.nextTimerId } }
          { level := (angerOf app).level + 1, cooldown := t + 2500,
            coolOffId := some app.nextTimerId } t := by
  cases had : app.angerData with
  | none =>
    simp only [handleModelHit, hm]
    rw [if_neg (not_not.mpr hs)]
    simp only [angerOf, had, Option.getD_none, resetAngerData, Option.none_bind,
      restartCoolOff_id, hm]
  | some ad =>
    have hbase : { app with angerData := some (angerOf app) } = app := by
      cases app
      simp_all [angerOf]
    rw [hbase]
    simp only [handleModelHit, hm]
    rw [if_neg (not_not.mpr hs)]
    simp only [angerOf, had, Option.getD_some, restartCoolOff_id]

/-- A request callback leaves the animation manager and the time of day alone. -/
theorem animCallback_fields (cb : AnimationManager.Callback) (now : ℚ) (app : App) :
    (animCallback cb now app).animMgr = app.animMgr ∧
      (animCallback cb now app).hourOfDay = app.hourOfDay := by
  unfold animCallback
  split_ifs
  · exact ⟨rfl, rfl⟩
  · cases app.timerIdUmbrellaHide <;> exact ⟨rfl, rfl⟩
  · exact ⟨rfl, rfl⟩

/-- The request callbacks leave the animation manager and the time of day alone. -/
theorem runAnimCallbacks_fields (effects : List AnimationManager.Effect) (now : ℚ) :
    ∀ app : App,
      (runAnimCallbacks effects now app).animMgr = app.animMgr ∧
      (runAnimCallbacks effects now app).hourOfDay = app.hourOfDay := by
  induction effects with
  | nil => intro app; exact ⟨rfl, rfl⟩
  | cons e es ih =>
    intro app
    simp only [runAnimCallbacks, List.foldl_cons]
    cases e with
    | callback cb name =>
      exact ⟨(ih (animCallback cb now app)).1.trans (animCallback_fields cb now app).1,
        (ih (animCallback cb now app)).2.trans (animCallback_fields cb now app).2⟩
    | _ => exact ih app

/-- A request callback cancels no pending timer other than the one stored in
`g_timerIdUmbrellaHide`, and stores no timer id there. -/
theorem animCallback_keeps_timer (x : Timer) (cb : AnimationManager.Callback) (now : ℚ)
    (app : App) (hx : x ∈ app.timers) (hh : app.timerIdUmbrellaHide ≠ some x.id) :
    x ∈ (animCallback cb now app).timers ∧
      (animCallback cb now app).timerIdUmbrellaHide ≠ some x.id := by
  unfold animCallback
  split_ifs
  · exact ⟨by simp [setTimeout, hx], hh⟩
  · cases hu : app.timerIdUmbrellaHide with
    | none => exact ⟨by simp [setTimeout, playAudio, hx], by simp [setTimeout, playAudio, hu]⟩
    | some id =>
      have hne : x.id ≠ id := fun h => hh (by rw [hu, h])
      exact ⟨by simp [setTimeout, playAudio, clearTimeout, hx, hne],
        by simp [setTimeout, playAudio, clearTimeout]⟩
  · exact ⟨hx, hh⟩

/-- The request callbacks cancel no pending timer other than the one stored in
`g_timerIdUmbrellaHide`. -/
theorem runAnimCallbacks_keeps_timer (x : Timer) (effects : List AnimationManager.Effect)
    (now : ℚ) :
    ∀ app : App, x ∈ app.timers → app.timerIdUmbrellaHide ≠ some x.id →
      x ∈ (runAnimCallbacks effects now app).timers := by
  induction effects with
  | nil => intro app hx _; exact hx
  | cons e es ih =>
    intro app hx hh
    simp only [runAnimCallbacks, List.foldl_cons]
    cases e with
    | callback cb name =>
      exact ih (animCallback cb now app) (animCallback_keeps_timer x cb now app hx hh).1
        (animCallback_keeps_timer x cb now app hx hh).2
    | _ => exact ih app hx hh

/-- A call on the animation manager that exists and returns: the manager is updated and
the request callbacks invoked during the call have run. -/
theorem callAnimMgr_returns (app : App) (now : ℚ)
    (f : AnimationManager.Manager → AnimationManager.Manager) (am : AnimationManager.Manager)
    (ha : app.animMgr = some am) (hr : AnimCallReturns am f) :
    callAnimMgr app now f =
      Except.ok
        (runAnimCallbacks ((f am).effects.drop am.effects.length) now
          { app with animMgr := some (f am) }) := by
  unfold AnimCallReturns at hr
  have htw : ((f am).effects.drop am.effects.length).takeWhile
      (fun e => !AnimationManager.raisesTypeError e)
        = (f am).effects.drop am.effects.length := by
    rw [List.takeWhile_eq_self_iff]
    intro e he
    exact List.all_eq_true.mp hr e he
  simp only [callAnimMgr, ha, htw, hr, if_true]

/-- The fade calls do not raise. -/
theorem fadeEffects_return (cur : Option AnimationManager.BaseAnimInfo)
    (action : AnimationManager.Action) (clip : AnimationManager.Clip) (isMixin : Bool)
    (delay fadeTime : ℚ) :
    ∀ e ∈ AnimationManager.fadeEffects cur action clip isMixin delay fadeTime,
      AnimationManager.raisesTypeError e = false := by
  intro e he
  unfold AnimationManager.fadeEffects at he
  by_cases hf : 0 < fadeTime
  · rw [if_pos hf] at he
    cases cur with
    | none =>
      simp only [List.mem_singleton] at he
      subst he; rfl
    | some b =>
      cases isMixin with
      | true =>
        simp only [if_true, List.mem_cons, List.mem_singleton, List.mem_nil_iff,
          or_false] at he
        rcases he with he | he <;> subst he <;> rfl
      | false =>
        simp only [Bool.false_eq_true, if_false, List.mem_singleton] at he
        subst he; rfl
  · rw [if_neg hf] at he
    exact absurd he (List.not_mem_nil _)

/-- The calls made while a request is started do not raise when the clips it disables are
not named after members of `Object.prototype`. -/
theorem startEffects_return (m : AnimationManager.Manager) (info : AnimationManager.AnimOpts)
    (rest : List AnimationManager.AnimOpts) (clip : AnimationManager.Clip) (d : ℚ)
    (h : ∀ n ∈ info.disableAnims.getD [], AnimationManager.inheritedName n = false) :
    ∀ e ∈ AnimationManager.startEffects m info rest clip d,
      AnimationManager.raisesTypeError e = false := by
  intro e he
  simp only [AnimationManager.startEffects, List.mem_append, List.mem_singleton,
    List.mem_cons, List.mem_nil_iff, or_false] at he
  rcases he with (((((he | he) | he) | he) | he) | he) | he
  · subst he; rfl
  · split_ifs at he
    · simp only [List.mem_singleton] at he; subst he; rfl
    · simp at he
  · exact fadeEffects_return _ _ _ _ _ _ e he
  · rcases he with he | he | he
    · subst he; rfl
    · subst he; rfl
    · subst he; split_ifs <;> rfl
  · cases hd : info.disableAnims with
    | none => simp [AnimationManager.disableEffects, hd] at he
    | some names =>
      simp only [AnimationManager.disableEffects, hd, List.mem_filterMap] at he
      obtain ⟨el, hel, hv⟩ := he
      cases hc : m.animClips el with
      | some c =>
        simp only [hc, Option.some.injEq] at hv
        subst hv; rfl
      | none =>
        have hin := h el (by simpa [hd] using hel)
        simp [hc, hin] at hv
  · subst he; rfl
  · cases hcb : info.callback with
    | none => simp [hcb] at he
    | some cb =>
      simp only [hcb, List.mem_singleton] at he
      subst he; rfl

/-- `_playNextAnim` on a queue of plainly named requests only adds calls that do not
raise. -/
theorem playNextAnimFrom_returns (q : List AnimationManager.AnimOpts) :
    PlainNames q → ∀ (m : AnimationManager.Manager) (d : ℚ),
      ∃ l, (AnimationManager.playNextAnimFrom q m d).effects = m.effects ++ l ∧
        ∀ e ∈ l, AnimationManager.raisesTypeError e = false := by
  induction q with
  | nil =>
    intro _ m d
    exact ⟨[], by simp [AnimationManager.playNextAnimFrom], by simp⟩
  | cons info rest ih =>
    intro hq m d
    have hinfo := hq info (List.mem_cons_self _ _)
    have hrest : PlainNames rest := fun r hr => hq r (List.mem_cons_of_mem _ hr)
    cases hc : m.animClips info.name with
    | none =>
      rw [AnimationManager.playNextAnimFrom_unknown info rest m d hc hinfo.1]
      obtain ⟨l, hl, hl2⟩ := ih hrest
        { m with
          animQueue := rest
          effects := m.effects ++ [AnimationManager.Effect.warnUnknown info.name] } 0
      refine ⟨AnimationManager.Effect.warnUnknown info.name :: l, ?_, ?_⟩
      · rw [hl]; simp
      · intro e he
        rcases List.mem_cons.mp he with he | he
        · subst he; rfl
        · exact hl2 e he
    | some clip =>
      have hstart := startEffects_return m info rest clip d hinfo.2
      cases hmix : (info.isMixin || info.altRoot.isSome) with
      | true =>
        rw [AnimationManager.playNextAnimFrom_mixin info rest m d clip hc hmix]
        obtain ⟨l, hl, hl2⟩ := ih hrest
          { m with
            animQueue := rest
            effects := m.effects ++ AnimationManager.startEffects m info rest clip d } d
        refine ⟨AnimationManager.startEffects m info rest clip d ++ l, ?_, ?_⟩
        · rw [hl]; simp
        · intro e he
          rcases List.mem_append.mp he with he | he
          · exact hstart e he
          · exact hl2 e he
      | false =>
        obtain ⟨hm, ha⟩ := (AnimationManager.not_mixin_iff info).1 hmix
        rw [AnimationManager.playNextAnimFrom_base_effects info rest m d clip hc hm ha]
        exact ⟨_, rfl, hstart⟩

/-- A `queueAnimations` or `playAnimations` call returns when neither the queued requests
nor the new ones name a member of `Object.prototype`. -/
theorem animCallReturns_of_plain (am : AnimationManager.Manager)
    (anims : AnimationManager.Anims) (purge : Bool) (h1 : PlainNames am.animQueue)
    (h2 : PlainNames anims.toList) :
    AnimCallReturns am (fun am => AnimationManager.queueAnimations am anims purge) := by
  have hall : ∀ l : List AnimationManager.Effect,
      (∀ e ∈ l, AnimationManager.raisesTypeError e = false) →
      ((am.effects ++ l).drop am.effects.length).all
        (fun e => !AnimationManager.raisesTypeError e) = true := by
    intro l hl
    rw [List.drop_left]
    exact List.all_eq_true.mpr (fun e he => by simp [hl e he])
  have hpush : PlainNames
      (AnimationManager.queueAfterPush am.animQueue anims.toList purge) := by
    intro r hr
    simp only [AnimationManager.queueAfterPush, List.mem_append] at hr
    rcases hr with hr | hr
    · split_ifs at hr
      · exact h1 r (List.mem_filter.mp hr).1
      · exact h1 r hr
    · exact h2 r hr
  have hgen : ∀ anims2 : AnimationManager.Anims, anims2.toList = anims.toList →
      anims2 ≠ AnimationManager.Anims.missing →
      ((AnimationManager.queueAnimations am anims2 purge).effects.drop
        am.effects.length).all (fun e => !AnimationManager.raisesTypeError e) = true := by
    intro anims2 hto hne
    have hun : AnimationManager.queueAnimations am anims2 purge =
        (let m1 : AnimationManager.Manager :=
          { am with
            animQueue := AnimationManager.queueAfterPush am.animQueue anims2.toList purge }
        if AnimationManager.startsAtOnce m1.currentBaseAnimInfo purge then
          AnimationManager.playNextAnim m1 0
        else
          match m1.currentBaseAnimInfo with
          | none => m1
          | some b =>
            if !AnimationManager.truthy b.startNextTime then
              let startTime : Option ℚ :=
                match AnimationManager.findNextBaseAnim m1 with
                | some nextBaseAnim =>
                  b.endTime.map (fun e => e - AnimationManager.effectiveFadeTime nextBaseAnim)
                | none => b.endTime
              { m1 with currentBaseAnimInfo := some { b with startNextTime := startTime } }
            else m1) := by
      cases anims2 with
      | missing => exact absurd rfl hne
      | single a => rfl
      | many l => rfl
    rw [hun, hto]
    simp only []
    split_ifs
    · obtain ⟨l, hl, hl2⟩ := playNextAnimFrom_returns _ hpush
        { am with
          animQueue := AnimationManager.queueAfterPush am.animQueue anims.toList purge } 0
      simp only [AnimationManager.playNextAnim]
      rw [hl]
      exact hall l hl2
    · cases hb : am.currentBaseAnimInfo with
      | none => simp
      | some b =>
        simp only []
        split_ifs <;> simp
  unfold AnimCallReturns
  cases anims with
  | missing =>
    simp only [AnimationManager.queueAnimations]
    exact hall [AnimationManager.Effect.warnNoAnimations]
      (by intro e he; rw [List.mem_singleton.mp he]; rfl)
  | single a => exact hgen _ rfl (by simp)
  | many l => exact hgen _ rfl (by simp)

/-- With the registry of `initActionStates()` and the idle state current, switching to the
wave state runs no switch-out callback (the idle state has none), makes the wave state
current and runs its switch-in callback. -/
theorem switchState_wave (app : App) (mgr : ActionStateManager.Manager) (now : ℚ)
    (hm : app.actionStateMgr = some mgr) (hset : SetUp mgr)
    (hs : ActionStateManager.getState mgr = MDL_STATE_IDLE) :
    switchState app MDL_STATE_WAVE now =
      match runStateCallback H_WAVE_IN MDL_STATE_IDLE now
          { app with
            actionStateMgr := some { mgr with currentStateName := MDL_STATE_WAVE } } with
      | Except.error a => Except.error a
      | Except.ok a => Except.ok (true, a) := by
  obtain ⟨own, proto, cur⟩ := mgr
  obtain ⟨ho, hp⟩ := hset
  simp only at ho hp
  simp only [ActionStateManager.getState] at hs
  subst ho hp hs
  have h1 : ActionStateManager.lookup
      { own := initActionStatesMgr.own, proto := none, currentStateName := MDL_STATE_IDLE }
      MDL_STATE_WAVE = some ⟨some H_WAVE_IN, some H_WAVE_OUT⟩ := by decide
  have h2 : (ActionStateManager.lookup
      { own := initActionStatesMgr.own, proto := none, currentStateName := MDL_STATE_IDLE }
      MDL_STATE_IDLE).bind (fun o => o.switchOutFn) = none := by decide
  simp only [switchState, hm, h1, h2, Option.map_some']

/-- `_playNextAnim` leaves the clip dictionary alone. -/
theorem playNextAnimFrom_animClips (q : List AnimationManager.AnimOpts) :
    ∀ (m : AnimationManager.Manager) (d : ℚ),
      (AnimationManager.playNextAnimFrom q m d).animClips = m.animClips := by
  induction q with
  | nil => intro m d; rfl
  | cons info rest ih =>
    intro m d
    cases hc : m.animClips info.name with
    | none =>
      cases hi : AnimationManager.inheritedName info.name with
      | true => rw [AnimationManager.playNextAnimFrom_inherited info rest m d hc hi]
      | false =>
        rw [AnimationManager.playNextAnimFrom_unknown info rest m d hc hi]
        exact ih _ _
    | some clip =>
      cases hmix : (info.isMixin || info.altRoot.isSome) with
      | true =>
        rw [AnimationManager.playNextAnimFrom_mixin info rest m d clip hc hmix]
        exact ih _ _
      | false =>
        have h := (AnimationManager.not_mixin_iff info).mp hmix
        exact (AnimationManager.playNextAnimFrom_base info rest m d clip hc h.1 h.2).2.2.1

/-- `queueAnimations` leaves the clip dictionary alone. -/
theorem queueAnimations_animClips (m : AnimationManager.Manager)
    (anims : AnimationManager.Anims) (purge : Bool) :
    (AnimationManager.queueAnimations m anims purge).animClips = m.animClips := by
  cases anims with
  | missing => rfl
  | single a =>
    simp only [AnimationManager.queueAnimations]
    split_ifs
    · exact playNextAnimFrom_animClips _ _ _
    · cases hb : m.currentBaseAnimInfo with
      | none => simp [hb]
      | some b => simp only [hb]; split_ifs <;> rfl
  | many l =>
    simp only [AnimationManager.queueAnimations]
    split_ifs
    · exact playNextAnimFrom_animClips _ _ _
    · cases hb : m.currentBaseAnimInfo with
      | none => simp [hb]
      | some b => simp only [hb]; split_ifs <;> rfl

/-- The switch-in callback of the wave state returns when there is no animation manager,
or when the manager knows the `"Wave"` clip and its `playAnimations` call returns; the
animation manager has then been asked for the wave request and nothing else. -/
theorem waveIn_returns (oldState : String) (now : ℚ) (app : App)
    (h : ∀ am, app.animMgr = some am →
      am.animClips "Wave" ≠ none ∧
      AnimCallReturns am (fun am =>
        AnimationManager.playAnimations am (AnimationManager.Anims.many [waveRequest]))) :
    ∃ a, runStateCallback H_WAVE_IN oldState now app = Except.ok a ∧
      a.animMgr = app.animMgr.map (fun am =>
        AnimationManager.playAnimations am (AnimationManager.Anims.many [waveRequest])) := by
  cases ha : app.animMgr with
  | none =>
    refine ⟨app, ?_, by simp [ha]⟩
    simp [runStateCallback, ha, H_WAVE_IN, H_IDLE_IN, H_WHISTLE_IN, H_WHISTLE_OUT,
      H_UMBRELLA_IN, H_UMBRELLA_OUT]
  | some am =>
    obtain ⟨hclip, hret⟩ := h am ha
    obtain ⟨clip, hclip⟩ := Option.ne_none_iff_exists'.mp hclip
    have hcall := callAnimMgr_returns app now _ am ha hret
    have hfld := runAnimCallbacks_fields
      (((AnimationManager.playAnimations am
        (AnimationManager.Anims.many [waveRequest])).effects.drop am.effects.length)) now
      { app with animMgr := some (AnimationManager.playAnimations am
        (AnimationManager.Anims.many [waveRequest])) }
    have hget : AnimationManager.getAnimClip (AnimationManager.playAnimations am
        (AnimationManager.Anims.many [waveRequest])) "Wave" = some clip := by
      simp only [AnimationManager.getAnimClip, AnimationManager.playAnimations]
      rw [queueAnimations_animClips]
      exact hclip
    simp only [runStateCallback, ha, H_WAVE_IN, H_IDLE_IN, H_WHISTLE_IN, H_WHISTLE_OUT,
      H_UMBRELLA_IN, H_UMBRELLA_OUT]
    simp only [Nat.reduceEqDiff, if_false, if_true]
    rw [hcall]
    simp only [hfld.1, Option.some_bind, hget]
    exact ⟨_, rfl, by simp [playAudio, setTimeout, hfld.1]⟩

/-- The part of `handleModelHit` after the increment, for a new level below 3 and an
animation manager whose `playAnimations` call returns: the `"Poked"` request is played, the
request callbacks invoked by the manager run, and the cue of the level is played. -/
theorem handleClearedHit_below (app : App) (raised : AngerData) (t : ℚ)
    (am : AnimationManager.Manager) (hl : raised.level < 3) (ha : app.animMgr = some am)
    (hr : AnimCallReturns am (fun am =>
      AnimationManager.playAnimations am (AnimationManager.Anims.many [pokedRequest]))) :
    handleClearedHit app raised t =
      Except.ok
        (playAudio
          (runAnimCallbacks
            ((AnimationManager.playAnimations am
              (AnimationManager.Anims.many [pokedRequest])).effects.drop am.effects.length) t
            { app with
              animMgr := some (AnimationManager.playAnimations am
                (AnimationManager.Anims.many [pokedRequest])) })
          (if raised.level = 2 then "poke2" else "poke1") true false 0) := by
  have h3 : ¬ raised.level = 3 := by omega
  have h3le : ¬ 3 ≤ raised.level := by omega
  unfold handleClearedHit
  simp only [h3, h3le, if_false]
  rw [callAnimMgr_returns app t _ am ha hr]
  split_ifs <;> rfl

/-- The part of `handleModelHit` after the increment, for the new level 3, with the state
machine of `initActionStates()` in the idle state and an animation manager that is absent
or can play the `"Wave"` clip: the call returns after the anger data was reset, the wave
state was made current, its switch-in callback ran (a quiet step that asks the animation
manager for the wave request only) and the roar effect was triggered. -/
theorem handleClearedHit_climax (app : App) (raised : AngerData) (t : ℚ)
    (mgr : ActionStateManager.Manager) (hl : raised.level = 3)
    (hm : app.actionStateMgr = some mgr) (hset : SetUp mgr)
    (hs : ActionStateManager.getState mgr = MDL_STATE_IDLE)
    (hw : ∀ am, app.animMgr = some am →
      am.animClips "Wave" ≠ none ∧
      AnimCallReturns am (fun am =>
        AnimationManager.playAnimations am (AnimationManager.Anims.many [waveRequest]))) :
    ∃ a, handleClearedHit app raised t = Except.ok (triggerRoarEffect a) ∧
      Quiet
        { resetAngerData app with
          actionStateMgr := some { mgr with currentStateName := MDL_STATE_WAVE } } a ∧
      a.animMgr = app.animMgr.map (fun am =>
        AnimationManager.playAnimations am (AnimationManager.Anims.many [waveRequest])) := by
  have h3le : 3 ≤ raised.level := by omega
  have hreset : (resetAngerData app).actionStateMgr = some mgr ∧
      (resetAngerData app).animMgr = app.animMgr := by
    unfold resetAngerData
    cases app.angerData.bind (fun ad => ad.coolOffId) <;> exact ⟨hm, rfl⟩
  obtain ⟨a, hrun, hanim⟩ := waveIn_returns MDL_STATE_IDLE t
    { resetAngerData app with
      actionStateMgr := some { mgr with currentStateName := MDL_STATE_WAVE } }
    (by
      intro am h
      exact hw am (hreset.2 ▸ h))
  have hq := quiet_runStateCallback H_WAVE_IN MDL_STATE_IDLE t
    { resetAngerData app with
      actionStateMgr := some { mgr with currentStateName := MDL_STATE_WAVE } }
  rw [hrun] at hq
  refine ⟨a, ?_, hq, ?_⟩
  · unfold handleClearedHit
    simp only [hl, h3le, if_true]
    rw [switchState_wave _ mgr t hreset.1 hset hs, hrun]
    rfl
  · rw [hanim]
    exact congrArg _ hreset.2

/-- The effect of an accepted hit (idle state, stored cooldown before `t`) at level `L`, for
the driver in working order. If `L + 1 < 3`, the animation manager exists and its
`playAnimations` call returns: the hit returns, the level is `L + 1`, the cooldown `t +
2500`, a cool-off timer due at `t + 5000` is pending and stored in the anger data, the
animation manager was asked to play the `"Poked"` mixin request, the last sound played is
the cue `"poke2"` for the new level 2 and `"poke1"` otherwise, no other poke cue was played,
and the behaviour state and the roar count are as before. If `L + 1 = 3`, the state machine
is the one of `initActionStates()` and the animation manager is absent or can play the
`"Wave"` clip: the hit returns, the anger data is the fresh one (level 0, cooldown 0, no
timer id), neither the cool-off timer started by the hit nor the one stored before is
pending and no other cool-off timer was started, no poke cue was played, the animation
manager was asked for the wave request only, the wave state is current and the roar effect
was triggered once. -/
theorem handleModelHit_accepted (app : App) (mgr : ActionStateManager.Manager) (t : ℚ)
    (hm : app.actionStateMgr = some mgr)
    (hs : ActionStateManager.getState mgr = MDL_STATE_IDLE)
    (hc : (angerOf app).cooldown < t) :
    ((angerOf app).level + 1 < 3 → FreshTimerIds app →
      ∀ am, app.animMgr = some am →
        AnimCallReturns am (fun am =>
          AnimationManager.playAnimations am (AnimationManager.Anims.many [pokedRequest])) →
        ∃ app2 played, handleModelHit app t = Except.ok app2 ∧
          app2.angerData = some
            { level := (angerOf app).level + 1, cooldown := t + 2500,
              coolOffId := some app.nextTimerId } ∧
          (⟨app.nextTimerId, t + 5000, TimerAction.coolOff⟩ : Timer) ∈ app2.timers ∧
          app2.animMgr = some
            (AnimationManager.playAnimations am
              (AnimationManager.Anims.many [pokedRequest])) ∧
          app2.audio = played ++
            [AudioCall.playAudio (if (angerOf app).level + 1 = 2 then "poke2" else "poke1")
              true false 0] ∧
          played.filter isPokeCue = app.audio.filter isPokeCue ∧
          app2.actionStateMgr = app.actionStateMgr ∧
          app2.roarTriggers = app.roarTriggers) ∧
    ((angerOf app).level + 1 = 3 → SetUp mgr →
      (∀ am, app.animMgr = some am →
        am.animClips "Wave" ≠ none ∧
        AnimCallReturns am (fun am =>
          AnimationManager.playAnimations am (AnimationManager.Anims.many [waveRequest]))) →
      ∃ app2, handleModelHit app t = Except.ok app2 ∧
        app2.angerData = some { level := 0, cooldown := 0, coolOffId := none } ∧
        (∀ x ∈ app2.timers, x.action = TimerAction.coolOff →
          x ∈ app.timers ∧ x.id ≠ app.nextTimerId ∧
            (angerOf app).coolOffId ≠ some x.id) ∧
        app2.audio.filter isPokeCue = app.audio.filter isPokeCue ∧
        app2.animMgr = app.animMgr.map (fun am =>
          AnimationManager.playAnimations am (AnimationManager.Anims.many [waveRequest])) ∧
        app2.actionStateMgr = some { mgr with currentStateName := MDL_STATE_WAVE } ∧
        app2.roarTriggers = app.roarTriggers + 1) := by
  rw [handleModelHit_of_idle app mgr t hm hs, if_neg (not_le.mpr hc)]
  constructor
  · intro hl hfresh am ha hr
    have hhide : app.timerIdUmbrellaHide ≠ some app.nextTimerId := by
      intro h
      exact absurd (hfresh app.nextTimerId (Or.inr (Or.inr (Or.inr (Or.inl h))))) (lt_irrefl _)
    rw [handleClearedHit_below _ _ t am hl (by simpa [restartCoolOff_state] using ha) hr]
    have hq := quiet_runAnimCallbacks
      ((AnimationManager.playAnimations am
        (AnimationManager.Anims.many [pokedRequest])).effects.drop am.effects.length) t
    have hf := runAnimCallbacks_fields
      ((AnimationManager.playAnimations am
        (AnimationManager.Anims.many [pokedRequest])).effects.drop am.effects.length) t
    have hk := runAnimCallbacks_keeps_timer ⟨app.nextTimerId, t + 5000, TimerAction.coolOff⟩
      ((AnimationManager.playAnimations am
        (AnimationManager.Anims.many [pokedRequest])).effects.drop am.effects.length) t
    refine ⟨_, _, rfl, ?_, ?_, ?_, rfl, ?_, ?_, ?_⟩
    · exact (hq _).2.1
    · refine hk _ ?_ ?_
      · simp [restartCoolOff_state]
      · simpa [restartCoolOff_state] using hhide
    · exact (hf _).1
    · rw [(hq _).2.2.2.1]
      simp [restartCoolOff_state]
    · exact ((hq _).1).trans (by simp [restartCoolOff_state])
    · exact ((hq _).2.2.1).trans (by simp [restartCoolOff_state])
  · intro hl hset hw
    obtain ⟨a, hrun, hq, hanim⟩ := handleClearedHit_climax
      { (restartCoolOff { app with angerData := some (angerOf app) } (angerOf app) t).2 with
        angerData := some
          { level := (angerOf app).level + 1, cooldown := t + 2500,
            coolOffId := some app.nextTimerId } }
      { level := (angerOf app).level + 1, cooldown := t + 2500,
        coolOffId := some app.nextTimerId } t mgr hl
      (by simpa [restartCoolOff_state] using hm) hset hs
      (by simpa [restartCoolOff_state] using hw)
    rw [hrun]
    refine ⟨_, rfl, ?_, ?_, ?_, ?_, ?_, ?_⟩
    · exact hq.2.1.trans (by simp [resetAngerData, clearTimeout])
    · intro x hx hco
      have h := hq.2.2.2.2 x hx hco
      simp [resetAngerData, clearTimeout, restartCoolOff_state] at h
      obtain ⟨h1, h2⟩ := h
      cases hid : (angerOf app).coolOffId with
      | none => exact ⟨by simpa [hid] using h1, h2, by simp⟩
      | some id =>
        rw [hid] at h1
        have hne : x.id ≠ id := by simpa using (List.mem_filter.mp h1).2
        exact ⟨(List.mem_filter.mp h1).1, h2, fun h => hne (Option.some.inj h).symm⟩
    · exact hq.2.2.2.1.trans (by simp [resetAngerData, clearTimeout, restartCoolOff_state])
    · exact hanim.trans (by simp [restartCoolOff_state])
    · exact hq.1
    · exact (congrArg (· + 1) hq.2.2.1).trans
        (by simp [resetAngerData, clearTimeout, restartCoolOff_state])

/-- The animation manager of `placedApp` has nothing queued behind the `Idle` loop. -/
theorem placedApp_queue :
    ∀ am, placedApp.animMgr = some am → am.animQueue = [] ∧ am.animClips = modelClips := by
  intro am h
  obtain rfl := Option.some.inj h
  exact ⟨rfl, rfl⟩

/-- The requests of `handleModelHit` and of the wave state are plainly named. -/
theorem driver_requests_plain :
    PlainNames (AnimationManager.Anims.toList (AnimationManager.Anims.many [pokedRequest])) ∧
    PlainNames (AnimationManager.Anims.toList (AnimationManager.Anims.many [waveRequest])) := by
  constructor <;>
  · intro r hr
    simp only [AnimationManager.Anims.toList, List.mem_singleton] at hr
    subst hr
    exact ⟨by decide, by intro n hn; simp [pokedRequest, waveRequest,
      AnimationManager.AnimOpts.named] at hn⟩

/-- An accepted hit at concrete inputs: a hit at 3000 ms on the placed model with fresh
anger data raises the level to 1 and plays `"poke1"`; a hit at 6000 ms at level 2 resets the anger
data, makes the wave state current and triggers the roar. -/
theorem handleModelHit_accepted_witness :
    (∃ app2 played,
      handleModelHit (placedAppWith { level := 0, cooldown := 0, coolOffId := none }) 3000
        = Except.ok app2 ∧
      app2.angerData = some { level := 1, cooldown := 5500, coolOffId := some 1 } ∧
      (⟨1, 8000, TimerAction.coolOff⟩ : Timer) ∈ app2.timers ∧
      app2.audio = played ++ [AudioCall.playAudio "poke1" true false 0] ∧
      played.filter isPokeCue = []) ∧
    (∃ app2, handleModelHit angryApp 6000 = Except.ok app2 ∧
      app2.angerData = some { level := 0, cooldown := 0, coolOffId := none } ∧
      (∀ x ∈ app2.timers, x.action ≠ TimerAction.coolOff) ∧
      app2.audio.filter isPokeCue = [] ∧
      app2.actionStateMgr =
        some { initActionStatesMgr with currentStateName := MDL_STATE_WAVE } ∧
      app2.roarTriggers = 1) := by
  constructor
  · obtain ⟨app2, played, h, ha, ht, -, hau, hp, -, -⟩ :=
      (handleModelHit_accepted (placedAppWith { level := 0, cooldown := 0, coolOffId := none })
        { initActionStatesMgr with currentStateName := MDL_STATE_IDLE } 3000 rfl rfl
        (by simp [angerOf, placedAppWith])).1
        (by decide)
        (by
          intro id hid
          simp [placedAppWith, placedApp] at hid)
        (AnimationManager.queueAnimations (AnimationManager.create modelClips)
          (AnimationManager.Anims.many [idleRequest]) false)
        rfl
        (animCallReturns_of_plain _ _ true
          (by intro r hr; exact absurd hr (List.not_mem_nil _))
          driver_requests_plain.1)
    refine ⟨app2, played, h, ?_, ?_, ?_, ?_⟩
    · rw [ha]; simp [angerOf, placedAppWith, placedApp]; norm_num
    · have e : (⟨1, 8000, TimerAction.coolOff⟩ : Timer) =
          ⟨(placedAppWith { level := 0, cooldown := 0, coolOffId := none }).nextTimerId,
            3000 + 5000, TimerAction.coolOff⟩ := by
        simp [placedAppWith, placedApp]; norm_num
      rw [e]; exact ht
    · rw [hau]; simp [angerOf, placedAppWith]
    · rw [hp]; simp [placedAppWith, placedApp]
  · obtain ⟨app2, h, ha, ht, hp, -, hst, hro⟩ :=
      (handleModelHit_accepted angryApp
        { initActionStatesMgr with currentStateName := MDL_STATE_IDLE } 6000 rfl rfl
        (by simp [angerOf, angryApp]; norm_num)).2
        (by decide)
        ⟨rfl, rfl⟩
        (by
          intro am ham
          obtain ⟨hq, hclips⟩ := placedApp_queue am ham
          refine ⟨?_, animCallReturns_of_plain am _ true ?_ driver_requests_plain.2⟩
          · rw [hclips]; simp [modelClips]
          · rw [hq]; intro r hr; exact absurd hr (List.not_mem_nil _))
    refine ⟨app2, h, ha, ?_, ?_, hst, ?_⟩
    · intro x hx hco
      obtain ⟨h1, -, h3⟩ := ht x hx hco
      have hx2 : x = ⟨2, 8000, TimerAction.coolOff⟩ := by simpa [angryApp] using h1
      exact h3 (by rw [hx2]; rfl)
    · rw [hp]; simp [angryApp, placedApp]
    · rw [hro]; simp [angryApp, placedApp]

/-- C22: `_resetAngerData` is idempotent.  For every driver state, after one call the
anger data is the fresh object (level 0, cooldown 0, no timer id); the timer whose id was
stored has been cancelled, and every other pending timer is still pending, so that no
cool-off timer is pending when the only ones pending before were stored in the anger data;
and a second call in a row returns exactly the same state. -/
theorem resetAngerData_idempotent (app : App) :
    (resetAngerData app).angerData = some { level := 0, cooldown := 0, coolOffId := none } ∧
      (∀ x : Timer, x ∈ (resetAngerData app).timers ↔
        x ∈ app.timers ∧ (angerOf app).coolOffId ≠ some x.id) ∧
      ((∀ x ∈ app.timers, x.action = TimerAction.coolOff →
          (angerOf app).coolOffId = some x.id) →
        ∀ x ∈ (resetAngerData app).timers, x.action ≠ TimerAction.coolOff) ∧
      resetAngerData (resetAngerData app) = resetAngerData app := by
  have hmem : ∀ x : Timer, x ∈ (resetAngerData app).timers ↔
      x ∈ app.timers ∧ (angerOf app).coolOffId ≠ some x.id := by
    intro x
    cases had : app.angerData with
    | none => simp [resetAngerData, angerOf, had]
    | some ad =>
      cases hid : ad.coolOffId with
      | none => simp [resetAngerData, angerOf, had, hid]
      | some id =>
        simp only [resetAngerData, angerOf, had, hid, Option.some_bind, clearTimeout,
          Option.getD_some, List.mem_filter, ne_eq, Option.some.injEq, decide_not,
          Bool.not_eq_eq_eq_not, Bool.not_true, decide_eq_false_iff_not]
        constructor
        · rintro ⟨h1, h2⟩
          exact ⟨h1, fun h => h2 h.symm⟩
        · rintro ⟨h1, h2⟩
          exact ⟨h1, fun h => h2 h.symm⟩
  refine ⟨?_, hmem, ?_, ?_⟩
  · unfold resetAngerData
    cases app.angerData.bind (fun ad => ad.coolOffId) <;> rfl
  · intro hall x hx hco
    have h := (hmem x).mp hx
    exact h.2 (hall x h.1 hco)
  · cases had : app.angerData.bind (fun ad => ad.coolOffId) with
    | none => simp [resetAngerData, had]
    | some id => simp [resetAngerData, had]

/-- C22, at a concrete input: in the state `angryApp` (level 2, cool-off timer 2 pending)
one call leaves the fresh anger data and no pending timer, and so does a second call. -/
theorem resetAngerData_idempotent_witness :
    (resetAngerData angryApp).angerData
        = some { level := 0, cooldown := 0, coolOffId := none } ∧
      (∀ x ∈ (resetAngerData angryApp).timers, x.action ≠ TimerAction.coolOff) ∧
      resetAngerData (resetAngerData angryApp) = resetAngerData angryApp :=
  ⟨(resetAngerData_idempotent angryApp).1,
    (resetAngerData_idempotent angryApp).2.2.1
      (by
        intro x hx _
        have hx2 : x = ⟨2, 8000, TimerAction.coolOff⟩ := by simpa [angryApp] using hx
        rw [hx2]
        rfl),
    (resetAngerData_idempotent angryApp).2.2.2⟩

/-- C23: the cool-off timer function.  Run on anger data with level `L`, `_coolOffFn`
lowers a positive level by one and plays the `"sigh"` cue, and leaves a level that is not
positive alone without playing anything; the cooldown is not touched.  Afterwards the new
level is positive exactly when a timer id is stored, and then that id is the one of a new
cool-off timer due 5000 ms later, the only timer added; otherwise no timer is added and
the stored id is `null`.  When the timer that fired is the only pending cool-off timer, a
cool-off timer is pending afterwards exactly when the new level is positive. -/
theorem coolOffFn_effect (app : App) (angerData : AngerData) (now : ℚ) :
    (coolOffFn app angerData now).angerData = some
        { level := if 0 < angerData.level then angerData.level - 1 else angerData.level
          cooldown := angerData.cooldown
          coolOffId := if 1 < angerData.level then some app.nextTimerId else none } ∧
      (coolOffFn app angerData now).audio =
        (if 0 < angerData.level then
          app.audio ++ [AudioCall.playAudio "sigh" true false 0]
        else app.audio) ∧
      (coolOffFn app angerData now).timers =
        (if 1 < angerData.level then
          app.timers ++ [⟨app.nextTimerId, now + 5000, TimerAction.coolOff⟩]
        else app.timers) ∧
      (0 < (angerOf (coolOffFn app angerData now)).level ↔
        (angerOf (coolOffFn app angerData now)).coolOffId ≠ none) ∧
      ((∀ x ∈ app.timers, x.action ≠ TimerAction.coolOff) →
        (0 < (angerOf (coolOffFn app angerData now)).level ↔
          ∃ x ∈ (coolOffFn app angerData now).timers, x.action = TimerAction.coolOff)) ∧
      (coolOffFn app angerData now).actionStateMgr = app.actionStateMgr ∧
      (coolOffFn app angerData now).animMgr = app.animMgr := by
  by_cases h0 : 0 < angerData.level
  · by_cases h1 : 1 < angerData.level
    · have h1' : 0 < angerData.level - 1 := by omega
      refine ⟨?_, ?_, ?_, ?_, ?_, ?_, ?_⟩ <;>
        simp [coolOffFn, h0, h1, h1', setTimeout, playAudio, angerOf]
      intro _
      exact ⟨_, Or.inr rfl, rfl⟩
    · have h1' : ¬ 0 < angerData.level - 1 := by omega
      refine ⟨?_, ?_, ?_, ?_, ?_, ?_, ?_⟩ <;>
        simp [coolOffFn, h0, h1, h1', setTimeout, playAudio, angerOf]
  · have h1 : ¬ 1 < angerData.level := by omega
    refine ⟨?_, ?_, ?_, ?_, ?_, ?_, ?_⟩ <;>
      simp [coolOffFn, h0, h1, setTimeout, playAudio, angerOf]

/-- C23, at concrete inputs: the cool-off timer of `angryApp` fires at 8000 ms.  The level
drops from 2 to 1, `"sigh"` is played and a new cool-off timer is pending for 13000 ms;
when that one fires the level drops to 0 and no timer is left. -/
theorem coolOffFn_effect_witness :
    (fireCoolOff angryApp 2 8000).angerData
        = some { level := 1, cooldown := 5500, coolOffId := some 3 } ∧
      (fireCoolOff angryApp 2 8000).audio = [AudioCall.playAudio "sigh" true false 0] ∧
      (fireCoolOff angryApp 2 8000).timers = [⟨3, 13000, TimerAction.coolOff⟩] ∧
      (0 < (angerOf (coolOffFn (clearTimeout angryApp 2) ⟨1, 5500, some 2⟩ 8000)).level ↔
        ∃ x ∈ (coolOffFn (clearTimeout angryApp 2) ⟨1, 5500, some 2⟩ 8000).timers,
          x.action = TimerAction.coolOff) := by
  have h := coolOffFn_effect (clearTimeout angryApp 2) ⟨2, 5500, some 2⟩ 8000
  refine ⟨?_, ?_, ?_, ?_⟩
  · have e : fireCoolOff angryApp 2 8000 =
        coolOffFn (clearTimeout angryApp 2) ⟨2, 5500, some 2⟩ 8000 := rfl
    rw [e, h.1]
    simp [clearTimeout, angryApp]
  · have e : fireCoolOff angryApp 2 8000 =
        coolOffFn (clearTimeout angryApp 2) ⟨2, 5500, some 2⟩ 8000 := rfl
    rw [e, h.2.1]
    simp [clearTimeout, angryApp, placedApp]
  · have e : fireCoolOff angryApp 2 8000 =
        coolOffFn (clearTimeout angryApp 2) ⟨2, 5500, some 2⟩ 8000 := rfl
    rw [e, h.2.2.1]
    simp [clearTimeout, angryApp]
    norm_num
  · exact (coolOffFn_effect (clearTimeout angryApp 2) ⟨1, 5500, some 2⟩ 8000).2.2.2.2.1
      (by intro x hx; simp [clearTimeout, angryApp] at hx)

/-- The anger data of a state, given the stored object. -/
theorem angerOf_of_some (app : App) (ad : AngerData) (h : app.angerData = some ad) :
    angerOf app = ad := by
  simp [angerOf, h]

/-- Without a behaviour state machine `handleModelHit` raises: the guard
`!g_actionStateMgr || ...` is entered and `g_actionStateMgr.getState()` is called on
`null`. -/
theorem handleModelHit_without_stateMgr (app : App) (t : ℚ)
    (h : app.actionStateMgr = none) : handleModelHit app t = Except.error app := by
  simp [handleModelHit, h]

/-- Without an animation manager the part of `handleModelHit` after the increment raises
for every new level other than 3: `g_animMgr.playAnimations` is called on `null`, before
any cue is played. -/
theorem handleClearedHit_without_animMgr (app : App) (raised : AngerData) (t : ℚ)
    (h3 : raised.level ≠ 3) (ha : app.animMgr = none) :
    handleClearedHit app raised t = Except.error app := by
  simp [handleClearedHit, h3, callAnimMgr, ha]

/-- C27, the code at two failing inputs.  When `g_actionStateMgr` is `null`, a body hit at
any time raises a `TypeError` and plays nothing.  And in the idle state, when `g_animMgr`
is `null` (the model could not be loaded), a hit that clears the cooldown raises after the
level was incremented: the level is 1, a cool-off timer is pending and no cue was
played. -/
theorem handleModelHit_raises (t : ℚ) :
    handleModelHit { placedApp with actionStateMgr := none } t
        = Except.error { placedApp with actionStateMgr := none } ∧
      ∃ a, handleModelHit { placedApp with animMgr := none } 3000 = Except.error a ∧
        a.angerData = some { level := 1, cooldown := 5500, coolOffId := some 1 } ∧
        a.timers = [⟨1, 8000, TimerAction.coolOff⟩] ∧ a.audio = [] := by
  refine ⟨handleModelHit_without_stateMgr _ t rfl, ?_⟩
  rw [handleModelHit_of_idle { placedApp with animMgr := none }
    { initActionStatesMgr with currentStateName := MDL_STATE_IDLE } 3000 rfl rfl,
    if_neg (by simp [angerOf, placedApp]),
    handleClearedHit_without_animMgr _ _ 3000 (by simp [angerOf, placedApp])
      (by simp [restartCoolOff_state])]
  refine ⟨_, rfl, ?_, ?_, ?_⟩
  · simp [angerOf, placedApp]; norm_num
  · simp [restartCoolOff_state, angerOf, placedApp]; norm_num
  · simp [restartCoolOff_state, placedApp]

/-- `_resetAngerData` leaves the fresh anger data. -/
theorem resetAngerData_fresh (app : App) :
    (resetAngerData app).angerData
      = some { level := 0, cooldown := 0, coolOffId := none } := by
  unfold resetAngerData
  cases app.angerData.bind (fun ad => ad.coolOffId) <;> rfl

/-- The level `_coolOffFn` leaves: a positive level is lowered by one, any other is kept. -/
theorem coolOffFn_level (app : App) (angerData : AngerData) (now : ℚ) :
    (angerOf (coolOffFn app angerData now)).level =
      if 0 < angerData.level then angerData.level - 1 else angerData.level := by
  unfold coolOffFn
  simp only []
  split_ifs <;> simp [angerOf, setTimeout, playAudio]

/-- A `switchState` call of the driver leaves the anger data alone, whether it returns or
raises, whatever states are registered. -/
theorem switchState_angerData (app : App) (stateName : String) (now : ℚ) :
    (stateAfterSwitch (switchState app stateName now)).angerData = app.angerData := by
  unfold switchState
  cases hm : app.actionStateMgr with
  | none => rfl
  | some mgr =>
    simp only []
    cases hl : ActionStateManager.lookup mgr stateName with
    | none => rfl
    | some newState =>
      simp only []
      have hout : Quiet app
          (stateAfter
            (match (ActionStateManager.lookup mgr mgr.currentStateName).bind
                (fun o => o.switchOutFn) with
              | some f => runStateCallback f mgr.currentStateName now app
              | none => Except.ok app)) := by
        cases (ActionStateManager.lookup mgr mgr.currentStateName).bind
            (fun o => o.switchOutFn) with
        | none => exact Quiet.refl app
        | some f => exact quiet_runStateCallback f _ now app
      generalize (match (ActionStateManager.lookup mgr mgr.currentStateName).bind
          (fun o => o.switchOutFn) with
        | some f => runStateCallback f mgr.currentStateName now app
        | none => Except.ok app) = afterOut at hout ⊢
      cases afterOut with
      | error a => exact hout.2.1
      | ok app1 =>
        simp only [stateAfter] at hout
        simp only []
        cases newState.switchInFn with
        | none => exact hout.2.1
        | some g =>
          simp only []
          have hin := quiet_runStateCallback g mgr.currentStateName now
            { app1 with
              actionStateMgr :=
                app1.actionStateMgr.map (fun g => { g with currentStateName := stateName }) }
          generalize runStateCallback g mgr.currentStateName now
            { app1 with
              actionStateMgr :=
                app1.actionStateMgr.map (fun g => { g with currentStateName := stateName }) }
            = r at hin ⊢
          cases r with
          | error a => exact hin.2.1.trans hout.2.1
          | ok a => exact hin.2.1.trans hout.2.1

/-- The part of `handleModelHit` after the increment keeps the anger data when the new
level is below 3, and leaves fresh anger data when the new level is 3, whether it returns
or raises. -/
theorem handleClearedHit_angerData (app : App) (raised : AngerData) (t : ℚ) :
    (raised.level < 3 →
      (stateAfter (handleClearedHit app raised t)).angerData = app.angerData) ∧
    (raised.level = 3 →
      (stateAfter (handleClearedHit app raised t)).angerData
        = some { level := 0, cooldown := 0, coolOffId := none }) := by
  constructor
  · intro hl
    have h3 : ¬ raised.level = 3 := by omega
    have h3le : ¬ 3 ≤ raised.level := by omega
    have hq := quiet_callAnimMgr app t (fun am =>
      AnimationManager.playAnimations am (AnimationManager.Anims.many [pokedRequest]))
    unfold handleClearedHit
    simp only [h3, h3le, if_false]
    generalize callAnimMgr app t (fun am =>
      AnimationManager.playAnimations am (AnimationManager.Anims.many [pokedRequest])) = x
      at hq ⊢
    cases x with
    | error a => exact hq.2.1
    | ok a =>
      simp only [stateAfter] at hq ⊢
      split_ifs <;> exact hq.2.1
  · intro hl
    have h3le : 3 ≤ raised.level := by omega
    have hsw := switchState_angerData (resetAngerData app) MDL_STATE_WAVE t
    have hreset : (resetAngerData app).angerData
        = some { level := 0, cooldown := 0, coolOffId := none } := by
      unfold resetAngerData
      cases app.angerData.bind (fun ad => ad.coolOffId) <;> rfl
    unfold handleClearedHit
    simp only [hl, if_true]
    generalize switchState (resetAngerData app) MDL_STATE_WAVE t = r at hsw ⊢
    cases r with
    | error a => exact hsw.trans hreset
    | ok sw => exact hsw.trans hreset

/-- A body hit keeps the level within `0..2`, whether it returns or raises. -/
theorem handleModelHit_levelBounded (app : App) (t : ℚ) (h : LevelBounded app) :
    LevelBounded (stateAfter (handleModelHit app t)) := by
  cases hm : app.actionStateMgr with
  | none =>
    rw [handleModelHit_without_stateMgr app t hm]
    exact h
  | some mgr =>
    by_cases hs : ActionStateManager.getState mgr = MDL_STATE_IDLE
    · rw [handleModelHit_of_idle app mgr t hm hs]
      split_ifs with hg
      · simpa [LevelBounded, stateAfter, playAudio, angerOf] using h
      · have hc := handleClearedHit_angerData
          { (restartCoolOff { app with angerData := some (angerOf app) } (angerOf app) t).2 with
            angerData := some
              { level := (angerOf app).level + 1, cooldown := t + 2500,
                coolOffId := some app.nextTimerId } }
          { level := (angerOf app).level + 1, cooldown := t + 2500,
            coolOffId := some app.nextTimerId } t
        obtain ⟨h0, h2⟩ := h
        by_cases hl : (angerOf app).level + 1 < 3
        · have e := hc.1 hl
          unfold LevelBounded
          rw [angerOf_of_some _ _ e]
          constructor
          · show 0 ≤ (angerOf app).level + 1
            omega
          · show (angerOf app).level + 1 ≤ 2
            omega
        · have e := hc.2 (by show (angerOf app).level + 1 = 3; omega)
          unfold LevelBounded
          rw [angerOf_of_some _ _ e]
          exact ⟨le_refl _, by norm_num⟩
    · rw [handleModelHit_of_not_idle app mgr t hm hs]
      split_ifs
      · simpa [LevelBounded, stateAfter, playAudio, angerOf] using h
      · exact h

/-- A firing cool-off timer keeps the level within `0..2`. -/
theorem fireCoolOff_levelBounded (app : App) (id : Nat) (t : ℚ) (h : LevelBounded app) :
    LevelBounded (fireCoolOff app id t) := by
  unfold fireCoolOff
  cases had : app.angerData with
  | none => simp [LevelBounded, angerOf, clearTimeout, had]
  | some ad =>
    have hb : 0 ≤ ad.level ∧ ad.level ≤ 2 := by
      simpa [LevelBounded, angerOf, had] using h
    unfold LevelBounded
    rw [coolOffFn_level]
    split_ifs <;> constructor <;> omega

/-- C28: the anger level stays within bounds.  In every driver state reachable from a
`_resetAngerData` call through `handleModelHit` calls (at any time, in any behaviour state,
whether they return or raise), firings of a cool-off timer, further `_resetAngerData` calls
and steps that leave the anger data alone, the stored level is an integer `L` with
`0 ≤ L ≤ 2`: it never goes negative, and a level of 3 is reset to 0 within the hit that
reaches it. -/
theorem level_bounded (app : App) (h : AngerReachable app) :
    0 ≤ (angerOf app).level ∧ (angerOf app).level ≤ 2 := by
  induction h with
  | reset app =>
    rw [angerOf_of_some _ _ (resetAngerData_fresh app)]
    exact ⟨le_refl _, by norm_num⟩
  | hit app t _ ih => exact handleModelHit_levelBounded app t ih
  | coolOff app id t _ ih => exact fireCoolOff_levelBounded app id t ih
  | other app app2 _ he ih =>
    have e : angerOf app2 = angerOf app := by simp [angerOf, he]
    rw [e]
    exact ih

/-- C28, at a concrete state: after two accepted hits on the placed model and a firing of
the cool-off timer in between the level is within `0..2`. -/
theorem level_bounded_witness :
    0 ≤ (angerOf
        (stateAfter
          (handleModelHit
            (fireCoolOff (stateAfter (handleModelHit (resetAngerData placedApp) 3000)) 1 8000)
            9000))).level ∧
      (angerOf
        (stateAfter
          (handleModelHit
            (fireCoolOff (stateAfter (handleModelHit (resetAngerData placedApp) 3000)) 1 8000)
            9000))).level ≤ 2 :=
  level_bounded _
    (AngerReachable.hit _ 9000
      (AngerReachable.coolOff _ 1 8000
        (AngerReachable.hit _ 3000 (AngerReachable.reset placedApp))))

/-- The handlers `handleSelectDelayed` invokes itself are those of its ray cast part, if
an event is stored. -/
theorem handleSelectDelayed_invoked (env : UIEnv) (s : Session) (now : ℚ) :
    (handleSelectDelayed env s now).invoked =
      match s.storedSelectData with
      | some (some ray) => (resolveVirtualHit env s ray now).2.2
      | _ => [] := by
  unfold handleSelectDelayed
  cases s.storedSelectData with
  | none => rfl
  | some inputPose =>
    cases inputPose with
    | none =>
      simp only []
      split_ifs <;> rfl
    | some ray =>
      simp only []
      cases (resolveVirtualHit env s ray now).1 with
      | error e => rfl
      | ok s2 =>
        simp only []
        split_ifs <;> rfl

/-- The handlers invoked by the ray cast part of `handleSelectDelayed`: at most one, the
callback of the first visible HUD element on the ray unless that element is disabled, or
the body hit handler when no visible HUD element is on the ray. -/
theorem resolveVirtualHit_invoked (env : UIEnv) (s : Session) (ray : Ray) (now : ℚ) :
    (resolveVirtualHit env s ray now).2.2 =
      match castRayOnHud ray with
      | hit :: _ =>
        if hit.disabled then []
        else (hit.uiCallback.map (fun cb => Invoked.uiCallback cb hit.uiAction)).toList
      | [] => if ray.modelOnRay then [Invoked.modelHit] else [] := by
  unfold resolveVirtualHit
  cases castRayOnHud ray with
  | nil =>
    simp only []
    split_ifs <;> rfl
  | cons hit rest =>
    simp only []
    cases hit.disabled with
    | true => rfl
    | false =>
      cases hit.uiCallback with
      | none => rfl
      | some cb => rfl

/-- The arbitration within one call of `handleSelectDelayed`. For every stored select event
with an input pose, whatever the callbacks of the HUD do: if a visible HUD element is on the
ray, the only handler invoked is the callback of the nearest one, and that exactly when the
element is not disabled (and has a callback); the body hit handler is not invoked, and the
call ends with the stored event cleared right after the element was dealt with, so the model
is not placed. If no visible HUD element is on the ray and the ray meets the model,
`handleModelHit` is invoked once and nothing else. If the ray meets neither, no handler is
invoked. In no case are a UI callback and `handleModelHit` both invoked. -/
theorem handleSelectDelayed_arbitration (env : UIEnv) (s : Session) (ray : Ray) (now : ℚ)
    (hst : s.storedSelectData = some (some ray)) :
    (∀ hit rest, castRayOnHud ray = hit :: rest →
      (handleSelectDelayed env s now).invoked =
        (if hit.disabled then []
         else (hit.uiCallback.map (fun cb => Invoked.uiCallback cb hit.uiAction)).toList) ∧
      Invoked.modelHit ∉ (handleSelectDelayed env s now).invoked ∧
      (handleSelectDelayed env s now).result =
        match (resolveVirtualHit env s ray now).1 with
        | Except.ok s2 => Except.ok { s2 with storedSelectData := none }
        | Except.error e => Except.error e) ∧
    (castRayOnHud ray = [] → ray.modelOnRay = true →
      (handleSelectDelayed env s now).invoked = [Invoked.modelHit] ∧
      (handleSelectDelayed env s now).result =
        match handleModelHit s.app now with
        | Except.ok a => Except.ok { s with app := a, storedSelectData := none }
        | Except.error a => Except.error { s with app := a }) ∧
    (castRayOnHud ray = [] → ray.modelOnRay = false →
      (handleSelectDelayed env s now).invoked = []) ∧
    (∀ cb action, ¬ (Invoked.uiCallback cb action ∈ (handleSelectDelayed env s now).invoked ∧
      Invoked.modelHit ∈ (handleSelectDelayed env s now).invoked)) := by
  have hinv : (handleSelectDelayed env s now).invoked =
      match castRayOnHud ray with
      | hit :: _ =>
        if hit.disabled then []
        else (hit.uiCallback.map (fun cb => Invoked.uiCallback cb hit.uiAction)).toList
      | [] => if ray.modelOnRay then [Invoked.modelHit] else [] := by
    rw [handleSelectDelayed_invoked, hst]
    exact resolveVirtualHit_invoked env s ray now
  refine ⟨?_, ?_, ?_, ?_⟩
  · intro hit rest hc
    rw [hinv, hc]
    refine ⟨rfl, ?_, ?_⟩
    · simp only []
      split_ifs
      · simp
      · cases hit.uiCallback <;> simp
    · have hv : (resolveVirtualHit env s ray now).2.1 = true := by
        unfold resolveVirtualHit
        rw [hc]
        simp only []
        cases hit.disabled with
        | true => rfl
        | false => cases hit.uiCallback <;> rfl
      unfold handleSelectDelayed
      simp only [hst]
      cases hr : (resolveVirtualHit env s ray now).1 with
      | error e => rfl
      | ok s2 => simp only [hv, if_true]
  · intro hc hm
    rw [hinv, hc]
    refine ⟨by simp [hm], ?_⟩
    have hres : resolveVirtualHit env s ray now =
        ((match handleModelHit s.app now with
          | Except.ok a => Except.ok { s with app := a }
          | Except.error a => Except.error { s with app := a }),
          true, [Invoked.modelHit]) := by
      unfold resolveVirtualHit
      rw [hc]
      simp only [hm, if_true]
    unfold handleSelectDelayed
    simp only [hst, hres]
    cases handleModelHit s.app now with
    | error a => rfl
    | ok a => rfl
  · intro hc hm
    rw [hinv, hc]
    simp [hm]
  · intro cb action
    rw [hinv]
    cases castRayOnHud ray with
    | nil =>
      simp only []
      split_ifs <;> simp
    | cons hit rest =>
      simp only []
      split_ifs
      · simp
      · cases hit.uiCallback <;> simp

/-- The arbitration at concrete inputs.  The ray meets a hidden HUD element, the visible
`umbrella` button and the model: only the callback of the button is invoked when the button is
enabled, and no handler at all when it is disabled.  With no HUD element on the ray, the
body hit handler is the only one invoked. -/
theorem handleSelectDelayed_arbitration_witness :
    (handleSelectDelayed inertUI
        { missedSelect with
          storedSelectData := some (some
            { hudOnRay := [⟨false, false, "move", none⟩, ⟨true, false, "umbrella", some 1⟩],
              modelOnRay := true }) } 0).invoked
        = [Invoked.uiCallback 1 "umbrella"] ∧
      (handleSelectDelayed inertUI
        { missedSelect with
          storedSelectData := some (some
            { hudOnRay := [⟨false, false, "move", none⟩, ⟨true, true, "umbrella", some 1⟩],
              modelOnRay := true }) } 0).invoked
        = [] ∧
      (handleSelectDelayed inertUI
        { missedSelect with
          storedSelectData := some (some { hudOnRay := [], modelOnRay := true }) } 0).invoked
        = [Invoked.modelHit] :=
  ⟨((handleSelectDelayed_arbitration inertUI
        { missedSelect with
          storedSelectData := some (some
            { hudOnRay := [⟨false, false, "move", none⟩, ⟨true, false, "umbrella", some 1⟩],
              modelOnRay := true }) }
        { hudOnRay := [⟨false, false, "move", none⟩, ⟨true, false, "umbrella", some 1⟩],
          modelOnRay := true } 0 rfl).1 ⟨true, false, "umbrella", some 1⟩ [] rfl).1,
    ((handleSelectDelayed_arbitration inertUI
        { missedSelect with
          storedSelectData := some (some
            { hudOnRay := [⟨false, false, "move", none⟩, ⟨true, true, "umbrella", some 1⟩],
              modelOnRay := true }) }
        { hudOnRay := [⟨false, false, "move", none⟩, ⟨true, true, "umbrella", some 1⟩],
          modelOnRay := true } 0 rfl).1 ⟨true, true, "umbrella", some 1⟩ [] rfl).1,
    ((handleSelectDelayed_arbitration inertUI
        { missedSelect with
          storedSelectData := some (some { hudOnRay := [], modelOnRay := true }) }
        { hudOnRay := [], modelOnRay := true } 0 rfl).2.1 rfl rfl).1⟩

/-- A stored select event that meets neither a visible HUD element nor the model invokes
no handler and ends in the reticle part of `handleSelectDelayed`. -/
theorem handleSelectDelayed_of_miss (env : UIEnv) (s : Session) (now : ℚ)
    (inputPose : Option Ray) (hst : s.storedSelectData = some inputPose)
    (hmiss : ∀ ray, inputPose = some ray → castRayOnHud ray = [] ∧ ray.modelOnRay = false) :
    (handleSelectDelayed env s now).invoked = [] ∧
      (handleSelectDelayed env s now).result =
        placeOnRecticle { s with storedSelectData := none } now := by
  cases inputPose with
  | none => simp [handleSelectDelayed, hst]
  | some ray =>
    obtain ⟨hc, hm⟩ := hmiss ray rfl
    have hres : resolveVirtualHit env s ray now = (Except.ok s, false, []) := by
      unfold resolveVirtualHit
      rw [hc]
      simp [hm]
    simp [handleSelectDelayed, hst, hres]

/-- The reticle part of `handleSelectDelayed` leaves the anger data alone, and on a reticle
that is not stable it does nothing. -/
theorem placeOnRecticle_frame (s : Session) (now : ℚ) :
    (sessionAfter ⟨placeOnRecticle s now, []⟩).app.angerData = s.app.angerData ∧
      (s.recticleIsStable = false → placeOnRecticle s now = Except.ok s) := by
  constructor
  · unfold placeOnRecticle
    cases s.recticleIsStable with
    | false => rfl
    | true =>
      simp only [if_true]
      cases hm : s.app.actionStateMgr with
      | none => rfl
      | some mgr =>
        simp only []
        have h := switchState_angerData s.app MDL_STATE_IDLE now
        generalize switchState s.app MDL_STATE_IDLE now = r at h ⊢
        cases r with
        | error a => exact h
        | ok sw => exact h
  · intro h
    simp [placeOnRecticle, h]

/-- The switch-in callback of the idle state returns when the animation manager exists and
its `queueAnimations` call returns: the `Idle` request was handed to the manager, in a
quiet step. -/
theorem idleIn_returns (oldState : String) (now : ℚ) (app : App)
    (am : AnimationManager.Manager) (ha : app.animMgr = some am)
    (hr : AnimCallReturns am (fun am =>
      AnimationManager.queueAnimations am (AnimationManager.Anims.many [idleRequest])
        false)) :
    ∃ a, runStateCallback H_IDLE_IN oldState now app = Except.ok a ∧
      a.animMgr = some
        (AnimationManager.queueAnimations am (AnimationManager.Anims.many [idleRequest])
          false) ∧
      Quiet app a := by
  have hq := quiet_runStateCallback H_IDLE_IN oldState now app
  have hrun : runStateCallback H_IDLE_IN oldState now app =
      Except.ok
        (runAnimCallbacks
          ((AnimationManager.queueAnimations am (AnimationManager.Anims.many [idleRequest])
            false).effects.drop am.effects.length) now
          { app with
            animMgr := some (AnimationManager.queueAnimations am
              (AnimationManager.Anims.many [idleRequest]) false) }) := by
    simp only [runStateCallback, if_true, ha]
    exact callAnimMgr_returns app now _ am ha hr
  rw [hrun] at hq
  exact ⟨_, hrun, (runAnimCallbacks_fields _ now _).1, hq⟩

/-- With the registry of `initActionStates()` and the initial state current, switching to
the idle state runs no switch-out callback, makes the idle state current and runs its
switch-in callback. -/
theorem switchState_idle_initial (app : App) (mgr : ActionStateManager.Manager) (now : ℚ)
    (hm : app.actionStateMgr = some mgr) (hset : SetUp mgr)
    (hs : ActionStateManager.getState mgr = ActionStateManager.UNDEFINED_STATE) :
    switchState app MDL_STATE_IDLE now =
      match runStateCallback H_IDLE_IN ActionStateManager.UNDEFINED_STATE now
          { app with
            actionStateMgr := some { mgr with currentStateName := MDL_STATE_IDLE } } with
      | Except.error a => Except.error a
      | Except.ok a => Except.ok (true, a) := by
  obtain ⟨own, proto, cur⟩ := mgr
  obtain ⟨ho, hp⟩ := hset
  simp only at ho hp
  simp only [ActionStateManager.getState] at hs
  subst ho hp hs
  have h1 : ActionStateManager.lookup
      { own := initActionStatesMgr.own, proto := none,
        currentStateName := ActionStateManager.UNDEFINED_STATE }
      MDL_STATE_IDLE = some ⟨some H_IDLE_IN, none⟩ := by decide
  have h2 : (ActionStateManager.lookup
      { own := initActionStatesMgr.own, proto := none,
        currentStateName := ActionStateManager.UNDEFINED_STATE }
      ActionStateManager.UNDEFINED_STATE).bind (fun o => o.switchOutFn) = none := by decide
  simp only [switchState, hm, h1, h2, Option.map_some']

/-- The reticle part of `handleSelectDelayed` on a stable reticle, with a state machine:
the model is shown, the reticle disabled and the state machine switched to the idle
state. -/
theorem placeOnRecticle_stable (s : Session) (mgr : ActionStateManager.Manager) (now : ℚ)
    (hst : s.recticleIsStable = true) (hm : s.app.actionStateMgr = some mgr) :
    placeOnRecticle s now =
      match switchState s.app MDL_STATE_IDLE now with
      | Except.ok sw =>
        Except.ok
          { s with
            modelVisible := true, recticleIsStable := false
            placements := s.placements + 1, app := sw.2 }
      | Except.error a =>
        Except.error
          { s with
            modelVisible := true, recticleIsStable := false
            placements := s.placements + 1, app := a } := by
  simp only [placeOnRecticle, hst, if_true, hm]

/-- C25, as stated, fails on the code.  In `missedSelect` the model is not placed yet, the
state machine is in its initial state and the reticle is stable.  The stored select event
meets neither a HUD element nor the model, and yet `handleSelectDelayed` puts the model at
the reticle and switches the state machine to the idle state, whose switch-in callback
hands the `Idle` request to the animation manager, which starts it. -/
theorem missed_select_places_model :
    castRayOnHud { hudOnRay := [], modelOnRay := false } = [] ∧
      missedSelect.app.actionStateMgr = some initActionStatesMgr ∧
      ActionStateManager.getState initActionStatesMgr = ActionStateManager.UNDEFINED_STATE ∧
      missedSelect.app.animMgr = some (AnimationManager.create modelClips) ∧
      (handleSelectDelayed inertUI missedSelect 0).invoked = [] ∧
      ∃ s2, (handleSelectDelayed inertUI missedSelect 0).result = Except.ok s2 ∧
        s2.app.actionStateMgr =
          some { initActionStatesMgr with currentStateName := MDL_STATE_IDLE } ∧
        s2.app.animMgr = some
          (AnimationManager.queueAnimations (AnimationManager.create modelClips)
            (AnimationManager.Anims.many [idleRequest]) false) ∧
        s2.modelVisible = true ∧ s2.placements = 1 := by
  have hmiss := handleSelectDelayed_of_miss inertUI missedSelect 0
    (some { hudOnRay := [], modelOnRay := false }) rfl
    (by
      intro ray h
      obtain rfl := Option.some.inj h
      exact ⟨rfl, rfl⟩)
  have hplain : PlainNames
      (AnimationManager.Anims.toList (AnimationManager.Anims.many [idleRequest])) := by
    intro r hr
    simp only [AnimationManager.Anims.toList, List.mem_singleton] at hr
    subst hr
    exact ⟨by decide, by
      intro n hn
      simp [idleRequest, AnimationManager.AnimOpts.named] at hn⟩
  obtain ⟨a, hrun, han, hq⟩ := idleIn_returns ActionStateManager.UNDEFINED_STATE 0
    { unplacedApp with
      actionStateMgr := some { initActionStatesMgr with currentStateName := MDL_STATE_IDLE } }
    (AnimationManager.create modelClips) rfl
    (animCallReturns_of_plain _ _ false
      (fun r hr => absurd hr (List.not_mem_nil _)) hplain)
  have hsw : switchState unplacedApp MDL_STATE_IDLE 0 = Except.ok (true, a) := by
    rw [switchState_idle_initial unplacedApp initActionStatesMgr 0 rfl ⟨rfl, rfl⟩ rfl, hrun]
  have hp : placeOnRecticle { missedSelect with storedSelectData := none } 0 =
      Except.ok
        { missedSelect with
          storedSelectData := none, modelVisible := true, recticleIsStable := false
          placements := 1, app := a } := by
    rw [placeOnRecticle_stable _ initActionStatesMgr 0 rfl rfl]
    have happ : ({ missedSelect with storedSelectData := none } : Session).app
        = unplacedApp := rfl
    rw [happ, hsw]
    rfl
  refine ⟨rfl, rfl, rfl, rfl, hmiss.1, ?_⟩
  rw [hmiss.2, hp]
  exact ⟨_, rfl, hq.1, han, rfl, rfl⟩

/-- C25, as amended: a stored select event that meets neither a visible HUD element nor
the model (or has no input pose) invokes no handler and leaves the anger data unchanged.
When the reticle is not stable, which is the case whenever the model is placed, the call
returns and changes nothing but the stored event, which is cleared: the behaviour state,
the animation manager with its queue and the anger data are as before.  When the reticle
is stable, the model is put at the reticle and the driver is left as by
`g_actionStateMgr.switchState("Idling")`, if there is a state machine. -/
theorem handleSelectDelayed_miss (env : UIEnv) (s : Session) (now : ℚ)
    (inputPose : Option Ray) (hst : s.storedSelectData = some inputPose)
    (hmiss : ∀ ray, inputPose = some ray → castRayOnHud ray = [] ∧ ray.modelOnRay = false) :
    (handleSelectDelayed env s now).invoked = [] ∧
      (sessionAfter (handleSelectDelayed env s now)).app.angerData = s.app.angerData ∧
      (s.recticleIsStable = false →
        (handleSelectDelayed env s now).result =
          Except.ok { s with storedSelectData := none }) ∧
      (s.recticleIsStable = true → ∀ mgr, s.app.actionStateMgr = some mgr →
        (sessionAfter (handleSelectDelayed env s now)).app =
          stateAfterSwitch (switchState s.app MDL_STATE_IDLE now) ∧
        (sessionAfter (handleSelectDelayed env s now)).modelVisible = true ∧
        (sessionAfter (handleSelectDelayed env s now)).placements = s.placements + 1) := by
  obtain ⟨hinv, hres⟩ := handleSelectDelayed_of_miss env s now inputPose hst hmiss
  refine ⟨hinv, ?_, ?_, ?_⟩
  · have h := (placeOnRecticle_frame { s with storedSelectData := none } now).1
    simp only [sessionAfter] at h ⊢
    rw [hres]
    exact h
  · intro hs
    rw [hres]
    exact (placeOnRecticle_frame { s with storedSelectData := none } now).2 hs
  · intro hs mgr hm
    have hp := placeOnRecticle_stable { s with storedSelectData := none } mgr now hs hm
    simp only [sessionAfter]
    rw [hres, hp]
    cases switchState s.app MDL_STATE_IDLE now with
    | error a => exact ⟨rfl, rfl, rfl⟩
    | ok sw => exact ⟨rfl, rfl, rfl⟩

/-- C25, as amended, at concrete inputs: the select event of `missedSelect` once with a
reticle that is not stable, where only the stored event is cleared, and once with the
stable reticle, where the model is placed. -/
theorem handleSelectDelayed_miss_witness :
    (handleSelectDelayed inertUI { missedSelect with recticleIsStable := false } 0).result =
        Except.ok { missedSelect with recticleIsStable := false, storedSelectData := none } ∧
      (sessionAfter (handleSelectDelayed inertUI missedSelect 0)).placements = 0 + 1 ∧
      (sessionAfter (handleSelectDelayed inertUI missedSelect 0)).app.angerData = none :=
  ⟨(handleSelectDelayed_miss inertUI { missedSelect with recticleIsStable := false } 0
      (some { hudOnRay := [], modelOnRay := false }) rfl
      (by
        intro ray h
        obtain rfl := Option.some.inj h
        exact ⟨rfl, rfl⟩)).2.2.1 rfl,
    ((handleSelectDelayed_miss inertUI missedSelect 0
      (some { hudOnRay := [], modelOnRay := false }) rfl
      (by
        intro ray h
        obtain rfl := Option.some.inj h
        exact ⟨rfl, rfl⟩)).2.2.2 rfl initActionStatesMgr rfl).2.2,
    (handleSelectDelayed_miss inertUI missedSelect 0
      (some { hudOnRay := [], modelOnRay := false }) rfl
      (by
        intro ray h
        obtain rfl := Option.some.inj h
        exact ⟨rfl, rfl⟩)).2.1⟩

/-- The animation manager of `placedApp` after the wave request of the wave state was
played: `Wave` is the current base until `3`, without forced playthrough, and a following
`playAnimations` call replaces it at once.  With the request `forcedWave`, which spells the
property as the manager reads it, the base has forced playthrough and the following
`playAnimations` call leaves it in place. -/
theorem waveRequest_eval :
    (AnimationManager.playAnimations
        (AnimationManager.queueAnimations (AnimationManager.create modelClips)
          (AnimationManager.Anims.many [idleRequest]) false)
        (AnimationManager.Anims.many [waveRequest])).currentBaseAnimInfo
        = some ⟨⟨⟨"Wave", 3⟩, none⟩, some 3, none, false⟩ ∧
      (AnimationManager.playAnimations
        (AnimationManager.playAnimations
          (AnimationManager.queueAnimations (AnimationManager.create modelClips)
            (AnimationManager.Anims.many [idleRequest]) false)
          (AnimationManager.Anims.many [waveRequest]))
        (AnimationManager.Anims.many [idleRequest])).currentBaseAnimInfo
        = some ⟨⟨⟨"Idle", 2⟩, none⟩, none, none, false⟩ ∧
      (AnimationManager.playAnimations
        (AnimationManager.queueAnimations (AnimationManager.create modelClips)
          (AnimationManager.Anims.many [idleRequest]) false)
        (AnimationManager.Anims.many [AnimationManager.forcedWave])).currentBaseAnimInfo
        = some ⟨⟨⟨"Wave", 3⟩, none⟩, some 3, none, true⟩ ∧
      (AnimationManager.playAnimations
        (AnimationManager.playAnimations
          (AnimationManager.queueAnimations (AnimationManager.create modelClips)
            (AnimationManager.Anims.many [idleRequest]) false)
          (AnimationManager.Anims.many [AnimationManager.forcedWave]))
        (AnimationManager.Anims.many [idleRequest])).currentBaseAnimInfo
        = some ⟨⟨⟨"Wave", 3⟩, none⟩, some 3, some (11 / 4), true⟩ := by
  refine ⟨?_, ?_, ?_, ?_⟩ <;>
  · simp [AnimationManager.playAnimations, AnimationManager.queueAnimations,
      AnimationManager.create, modelClips, AnimationManager.playNextAnim,
      AnimationManager.playNextAnimFrom, AnimationManager.startsAtOnce,
      AnimationManager.queueAfterPush, AnimationManager.Anims.toList,
      AnimationManager.AnimOpts.named, AnimationManager.truthy,
      AnimationManager.findNextBaseAnimIn, AnimationManager.findNextBaseAnim,
      AnimationManager.effectiveFadeTime, AnimationManager.defaultFadeTime, idleRequest,
      waveRequest, AnimationManager.forcedWave] <;> norm_num

/-- C30, the code at the failing input.  In the state `placedApp` (idle, the `Idle` loop
playing, the `Wave` clip known, nothing queued) the state machine is switched to the wave
state.  The call returns, and the animation manager has `Wave` as its current base until
`3` with `forcePlaythrough = false`: the switch-in callback writes the property as
`forcePlayThrough`, which the manager never reads.  A following
`playAnimations({"name": "Idle", "loop": true})` replaces the wave at once. -/
theorem wave_not_forced :
    ∃ a am,
      switchState placedApp MDL_STATE_WAVE 0 = Except.ok (true, a) ∧
      a.actionStateMgr =
        some { initActionStatesMgr with currentStateName := MDL_STATE_WAVE } ∧
      a.animMgr = some am ∧
      am.currentBaseAnimInfo = some ⟨⟨⟨"Wave", 3⟩, none⟩, some 3, none, false⟩ ∧
      (AnimationManager.playAnimations am
          (AnimationManager.Anims.many [idleRequest])).currentBaseAnimInfo
        = some ⟨⟨⟨"Idle", 2⟩, none⟩, none, none, false⟩ := by
  have hready : WaveReady
      { placedApp with
        actionStateMgr := some { initActionStatesMgr with currentStateName := MDL_STATE_WAVE } }
      := by
    intro am ham
    obtain rfl := Option.some.inj ham
    refine ⟨?_, animCallReturns_of_plain _ _ true ?_ driver_requests_plain.2⟩
    · simp only [queueAnimations_animClips]
      simp [AnimationManager.create, modelClips]
    · have hq : (AnimationManager.queueAnimations (AnimationManager.create modelClips)
          (AnimationManager.Anims.many [idleRequest]) false).animQueue = [] := rfl
      rw [hq]
      exact fun r hr => absurd hr (List.not_mem_nil _)
  obtain ⟨a, hrun, han⟩ := waveIn_returns MDL_STATE_IDLE 0 _ hready
  have hq := quiet_runStateCallback H_WAVE_IN MDL_STATE_IDLE 0
    { placedApp with
      actionStateMgr := some { initActionStatesMgr with currentStateName := MDL_STATE_WAVE } }
  rw [hrun] at hq
  refine ⟨a, _, ?_, hq.1, han, waveRequest_eval.1, waveRequest_eval.2.1⟩
  rw [switchState_wave placedApp
    { initActionStatesMgr with currentStateName := MDL_STATE_IDLE } 0 rfl ⟨rfl, rfl⟩ rfl]
  exact congrArg
    (fun r : Except App App =>
      match r with
      | Except.error a => (Except.error a : Except App (Bool × App))
      | Except.ok a => Except.ok (true, a)) hrun

/-- The part of `handleModelHit` that follows the increment starts no cool-off timer,
whether it returns or raises. -/
theorem handleClearedHit_coolOff (app : App) (raised : AngerData) (t : ℚ) :
    ∀ x ∈ (stateAfter (handleClearedHit app raised t)).timers,
      x.action = TimerAction.coolOff → x ∈ app.timers := by
  have hq : Calm app
      (stateAfter
        (if raised.level = 3 then Except.ok app
         else callAnimMgr app t (fun am =>
          AnimationManager.playAnimations am (AnimationManager.Anims.many [pokedRequest])))) := by
    split_ifs
    · exact calm_refl app
    · exact still_calm (still_callAnimMgr app t _)
  unfold handleClearedHit
  simp only []
  generalize (if raised.level = 3 then Except.ok app
      else callAnimMgr app t (fun am =>
        AnimationManager.playAnimations am (AnimationManager.Anims.many [pokedRequest]))) = r
    at hq ⊢
  cases r with
  | error a => exact hq.2
  | ok app4 =>
    simp only [stateAfter] at hq
    simp only []
    have h5 : ∀ app5 : App, app5.timers = app4.timers →
        ∀ x ∈ (stateAfter
            (if 3 ≤ raised.level then
              match switchState (resetAngerData app5) MDL_STATE_WAVE t with
              | Except.error a => Except.error a
              | Except.ok sw => Except.ok (triggerRoarEffect sw.2)
            else Except.ok app5)).timers,
          x.action = TimerAction.coolOff → x ∈ app.timers := by
      intro app5 h1 x hx hc
      have hreset : ∀ y ∈ (resetAngerData app5).timers, y ∈ app5.timers := by
        intro y hy
        unfold resetAngerData at hy
        cases hb : app5.angerData.bind (fun ad => ad.coolOffId) with
        | none => simpa [hb] using hy
        | some id =>
          simp only [hb, clearTimeout, List.mem_filter] at hy
          exact hy.1
      split_ifs at hx
      · have hsw := switchState_calm (resetAngerData app5) MDL_STATE_WAVE t
        generalize switchState (resetAngerData app5) MDL_STATE_WAVE t = r at hsw hx
        cases r with
        | error a => exact hq.2 x (h1 ▸ hreset x (hsw.2 x hx hc)) hc
        | ok sw => exact hq.2 x (h1 ▸ hreset x (hsw.2 x hx hc)) hc
      · exact hq.2 x (h1 ▸ hx) hc
    refine h5 _ ?_
    split <;> rfl

/-- When the only cool-off timer that can be pending is the stored one, the only cool-off
timer pending after the restart in `handleModelHit` is the new one, due 5000 ms later. -/
theorem restartCoolOff_coolOff (app : App) (t : ℚ) (htr : CoolOffTracked app) :
    ∀ x ∈ (restartCoolOff { app with angerData := some (angerOf app) } (angerOf app) t).2.timers,
      x.action = TimerAction.coolOff → x.due = t + 5000 := by
  intro x hx hc
  rw [restartCoolOff_state] at hx
  simp only [List.mem_append, List.mem_singleton] at hx
  rcases hx with hx | hx
  · exfalso
    cases hid : (angerOf app).coolOffId with
    | none =>
      rw [hid] at hx
      have := htr x hx hc
      rw [hid] at this
      cases this
    | some id =>
      rw [hid] at hx
      simp only [List.mem_filter, ne_eq, decide_not, Bool.not_eq_eq_eq_not, Bool.not_true,
        decide_eq_false_iff_not] at hx
      have := htr x hx.1 hc
      rw [hid] at this
      exact hx.2 (Option.some.inj this).symm
  · subst hx; rfl

/-- After a hit in the idle state, whether it returned or raised and whatever it did, every
pending cool-off timer is due 5000 ms after the hit. -/
theorem hit_coolOff_due (app : App) (mgr : ActionStateManager.Manager) (t : ℚ)
    (hm : app.actionStateMgr = some mgr)
    (hs : ActionStateManager.getState mgr = MDL_STATE_IDLE) (htr : CoolOffTracked app) :
    ∀ x ∈ (stateAfter (handleModelHit app t)).timers,
      x.action = TimerAction.coolOff → x.due = t + 5000 := by
  intro x hx hc
  rw [handleModelHit_of_idle app mgr t hm hs] at hx
  split_ifs at hx
  · exact restartCoolOff_coolOff app t htr x (by simpa [stateAfter, playAudio] using hx) hc
  · have h := handleClearedHit_coolOff _ _ t x hx hc
    exact restartCoolOff_coolOff app t htr x (by simpa using h) hc

/-- After a hit in the idle state that does not reach level 3, whether it returned or
raised, the stored cooldown is `t + 2500` and the state machine is as before. -/
theorem hit_below_climax (app : App) (mgr : ActionStateManager.Manager) (t : ℚ)
    (hm : app.actionStateMgr = some mgr)
    (hs : ActionStateManager.getState mgr = MDL_STATE_IDLE)
    (hn : ¬ ((angerOf app).cooldown < t ∧ 3 ≤ (angerOf app).level + 1)) :
    (stateAfter (handleModelHit app t)).angerData = some
        { level := if t ≤ (angerOf app).cooldown then (angerOf app).level
            else (angerOf app).level + 1
          cooldown := t + 2500
          coolOffId := some app.nextTimerId } := by
  rw [handleModelHit_of_idle app mgr t hm hs]
  by_cases hg : t ≤ (angerOf app).cooldown
  · simp [hg, stateAfter, playAudio]
  · have hl : (angerOf app).level + 1 < 3 := by
      by_contra hge
      exact hn ⟨not_le.mp hg, by omega⟩
    rw [if_neg hg, if_neg hg]
    exact (handleClearedHit_angerData _
      { level := (angerOf app).level + 1, cooldown := t + 2500,
        coolOffId := some app.nextTimerId } t).1 hl

/-- A hit outside the idle state, or in the idle state at a time that does not clear the
stored cooldown, leaves the level as it is. -/
theorem hit_keeps_level (mid : App) (u : ℚ)
    (h : (∀ mgr2, mid.actionStateMgr = some mgr2 →
          ActionStateManager.getState mgr2 ≠ MDL_STATE_IDLE) ∨
        u ≤ (angerOf mid).cooldown) :
    (angerOf (stateAfter (handleModelHit mid u))).level = (angerOf mid).level := by
  cases hm : mid.actionStateMgr with
  | none => rw [handleModelHit_without_stateMgr mid u hm]; rfl
  | some mgr2 =>
    by_cases hs : ActionStateManager.getState mgr2 = MDL_STATE_IDLE
    · rcases h with h | h
      · exact absurd hs (h mgr2 hm)
      · rw [handleModelHit_of_idle mid mgr2 u hm hs, if_pos h]
        simp [stateAfter, playAudio, angerOf]
    · rw [handleModelHit_of_not_idle mid mgr2 u hm hs]
      split_ifs <;> simp [stateAfter, playAudio, angerOf]

/-- A call on the animation manager that returns has replaced the manager by the updated
one. -/
theorem callAnimMgr_animMgr (app a : App) (now : ℚ)
    (f : AnimationManager.Manager → AnimationManager.Manager) (am : AnimationManager.Manager)
    (ha : app.animMgr = some am) (h : callAnimMgr app now f = Except.ok a) :
    a.animMgr = some (f am) := by
  unfold callAnimMgr at h
  simp only [ha] at h
  split_ifs at h
  have e := Except.ok.inj h
  rw [← e]
  exact (runAnimCallbacks_fields _ now _).1

/-- After the switch-in callback of the wave state, whether it returned or raised: the
state machine is as before, and a pending wave-end timer either was pending before or is
the one the callback started, which is due `(duration("Wave") - 0.25) s` after the call
(at once if that is negative). -/
theorem waveIn_after (oldState : String) (now : ℚ) (app : App) :
    (stateAfter (runStateCallback H_WAVE_IN oldState now app)).actionStateMgr
        = app.actionStateMgr ∧
      ∀ x ∈ (stateAfter (runStateCallback H_WAVE_IN oldState now app)).timers, ∀ o,
        x.action = TimerAction.waveEnd o →
        x ∈ app.timers ∨ ∃ am clip, app.animMgr = some am ∧ am.animClips "Wave" = some clip ∧
          x.due = now + max ((clip.duration - AnimationManager.defaultFadeTime) * 1000) 0 := by
  refine ⟨(quiet_runStateCallback H_WAVE_IN oldState now app).1, ?_⟩
  intro x hx o ho
  cases ha : app.animMgr with
  | none =>
    left
    simpa [runStateCallback, ha, H_WAVE_IN, H_IDLE_IN, H_WHISTLE_IN, H_WHISTLE_OUT,
      H_UMBRELLA_IN, H_UMBRELLA_OUT, stateAfter] using hx
  | some am =>
    simp only [runStateCallback, ha, H_WAVE_IN, H_IDLE_IN, H_WHISTLE_IN, H_WHISTLE_OUT,
      H_UMBRELLA_IN, H_UMBRELLA_OUT] at hx
    simp only [Nat.reduceEqDiff, if_false, if_true] at hx
    have hst := still_callAnimMgr app now (fun am =>
      AnimationManager.playAnimations am (AnimationManager.Anims.many [waveRequest]))
    have han := fun a => callAnimMgr_animMgr app a now (fun am =>
      AnimationManager.playAnimations am (AnimationManager.Anims.many [waveRequest])) am ha
    have hold : ∀ (b : App), (∀ y ∈ b.timers, y ∈ app.timers ∨
        (y.action ≠ TimerAction.coolOff ∧
          ∀ oldState, y.action ≠ TimerAction.waveEnd oldState)) → x ∈ b.timers →
        x ∈ app.timers := fun b hb hxb =>
      (hb x hxb).elim id (fun hn => absurd ho (hn.2 o))
    generalize callAnimMgr app now (fun am =>
      AnimationManager.playAnimations am (AnimationManager.Anims.many [waveRequest])) = r
      at hx hst han
    cases r with
    | error a => exact Or.inl (hold a hst.2.2 hx)
    | ok app1 =>
      simp only [stateAfter] at hst
      have h1 := han app1 rfl
      have hget : app1.animMgr.bind (fun am => AnimationManager.getAnimClip am "Wave")
          = am.animClips "Wave" := by
        rw [h1]
        simp only [Option.some_bind, AnimationManager.getAnimClip,
          AnimationManager.playAnimations]
        rw [queueAnimations_animClips]
      simp only [] at hx
      rw [hget] at hx
      cases hclip : am.animClips "Wave" with
      | none =>
        rw [hclip] at hx
        exact Or.inl (hold app1 hst.2.2 hx)
      | some clip =>
        rw [hclip] at hx
        simp only [stateAfter, playAudio, setTimeout, List.mem_append,
          List.mem_singleton] at hx
        rcases hx with hx | hx
        · exact Or.inl (hold app1 hst.2.2 hx)
        · right
          refine ⟨am, clip, rfl, hclip, ?_⟩
          rw [hx]

/-- The part of `handleModelHit` after the increment, for the new level 3 and the state
machine of `initActionStates()` in the idle state, whether it returns or raises: the wave
state is current afterwards, and a pending wave-end timer either was pending before or is
the one the wave state started, due `(duration("Wave") - 0.25) s` later. -/
theorem handleClearedHit_climax_after (app : App) (raised : AngerData) (t : ℚ)
    (mgr : ActionStateManager.Manager) (hl : raised.level = 3)
    (hm : app.actionStateMgr = some mgr) (hset : SetUp mgr)
    (hs : ActionStateManager.getState mgr = MDL_STATE_IDLE) :
    (stateAfter (handleClearedHit app raised t)).actionStateMgr
        = some { mgr with currentStateName := MDL_STATE_WAVE } ∧
      ∀ x ∈ (stateAfter (handleClearedHit app raised t)).timers, ∀ o,
        x.action = TimerAction.waveEnd o →
        x ∈ app.timers ∨ ∃ am clip, app.animMgr = some am ∧ am.animClips "Wave" = some clip ∧
          x.due = t + max ((clip.duration - AnimationManager.defaultFadeTime) * 1000) 0 := by
  have h3le : 3 ≤ raised.level := by omega
  have hreset : (resetAngerData app).actionStateMgr = some mgr ∧
      (resetAngerData app).animMgr = app.animMgr ∧
      ∀ y ∈ (resetAngerData app).timers, y ∈ app.timers := by
    unfold resetAngerData
    cases app.angerData.bind (fun ad => ad.coolOffId) with
    | none => exact ⟨hm, rfl, fun _ h => h⟩
    | some id =>
      refine ⟨hm, rfl, fun y hy => ?_⟩
      simp only [clearTimeout, List.mem_filter] at hy
      exact hy.1
  have hw := waveIn_after MDL_STATE_IDLE t
    { resetAngerData app with
      actionStateMgr := some { mgr with currentStateName := MDL_STATE_WAVE } }
  have hfin : ∀ a : App,
      (a.actionStateMgr = some { mgr with currentStateName := MDL_STATE_WAVE } ∧
        ∀ x ∈ a.timers, ∀ o, x.action = TimerAction.waveEnd o →
          x ∈ (resetAngerData app).timers ∨
          ∃ am clip, (resetAngerData app).animMgr = some am ∧
            am.animClips "Wave" = some clip ∧
            x.due = t + max ((clip.duration - AnimationManager.defaultFadeTime) * 1000) 0) →
      (a.actionStateMgr = some { mgr with currentStateName := MDL_STATE_WAVE } ∧
        ∀ x ∈ a.timers, ∀ o, x.action = TimerAction.waveEnd o →
          x ∈ app.timers ∨
          ∃ am clip, app.animMgr = some am ∧ am.animClips "Wave" = some clip ∧
            x.due = t + max ((clip.duration - AnimationManager.defaultFadeTime) * 1000) 0) := by
    intro a h
    refine ⟨h.1, fun x hx o ho => ?_⟩
    rcases h.2 x hx o ho with h1 | ⟨am, clip, h1, h2, h3⟩
    · exact Or.inl (hreset.2.2 x h1)
    · exact Or.inr ⟨am, clip, hreset.2.1 ▸ h1, h2, h3⟩
  unfold handleClearedHit
  simp only [hl, h3le, if_true]
  rw [switchState_wave _ mgr t hreset.1 hset hs]
  generalize runStateCallback H_WAVE_IN MDL_STATE_IDLE t
    { resetAngerData app with
      actionStateMgr := some { mgr with currentStateName := MDL_STATE_WAVE } } = r at hw ⊢
  cases r with
  | error a => exact hfin a hw
  | ok a => exact hfin a hw

/-- A hit in the idle state that clears the cooldown and reaches level 3, with the state
machine of `initActionStates()`, whether it returns or raises: the anger data is fresh, the
wave state is current, and a pending wave-end timer either was pending before or is due
`(duration("Wave") - 0.25) s` after the hit. -/
theorem climaxHit_after (app : App) (mgr : ActionStateManager.Manager) (t : ℚ)
    (hm : app.actionStateMgr = some mgr)
    (hs : ActionStateManager.getState mgr = MDL_STATE_IDLE) (hset : SetUp mgr)
    (hc : (angerOf app).cooldown < t) (hl : (angerOf app).level + 1 = 3) :
    (stateAfter (handleModelHit app t)).angerData
        = some { level := 0, cooldown := 0, coolOffId := none } ∧
      (stateAfter (handleModelHit app t)).actionStateMgr
        = some { mgr with currentStateName := MDL_STATE_WAVE } ∧
      ∀ x ∈ (stateAfter (handleModelHit app t)).timers, ∀ o,
        x.action = TimerAction.waveEnd o →
        x ∈ app.timers ∨ ∃ am clip, app.animMgr = some am ∧ am.animClips "Wave" = some clip ∧
          x.due = t + max ((clip.duration - AnimationManager.defaultFadeTime) * 1000) 0 := by
  rw [handleModelHit_of_idle app mgr t hm hs, if_neg (not_le.mpr hc)]
  have hX : ({ (restartCoolOff { app with angerData := some (angerOf app) }
        (angerOf app) t).2 with
      angerData := some
        { level := (angerOf app).level + 1, cooldown := t + 2500,
          coolOffId := some app.nextTimerId } } : App).actionStateMgr = some mgr := by
    simp [restartCoolOff_state, hm]
  obtain ⟨h1, h2⟩ := handleClearedHit_climax_after _
    { level := (angerOf app).level + 1, cooldown := t + 2500,
      coolOffId := some app.nextTimerId } t mgr hl hX hset hs
  refine ⟨(handleClearedHit_angerData _ _ t).2 hl, h1, fun x hx o ho => ?_⟩
  rcases h2 x hx o ho with h | ⟨am, clip, ha, hclip, hdue⟩
  · left
    rw [restartCoolOff_state] at h
    simp only [List.mem_append, List.mem_singleton] at h
    rcases h with h | h
    · cases hid : (angerOf app).coolOffId with
      | none => simpa [hid] using h
      | some id =>
        rw [hid] at h
        exact (List.mem_filter.mp h).1
    · subst h
      cases ho
  · right
    exact ⟨am, clip, by simpa [restartCoolOff_state] using ha, hclip, hdue⟩

/-- C19, as amended.  The cooldown gate: in the idle state, whatever the anger data, a hit
at a time `t ≤ cooldown` returns without raising the level, plays the neutral `"nopoke"`
cue, sets the cooldown to `t + 2500` and replaces the pending cool-off timer by a new one
due at `t + 5000`; the animation manager and the behaviour state are not touched.  Two
hits at `t` and `t + 1000`, with nothing in between but what the driver does by itself up
to `t + 1000` (firings of timers that are due, frames) and no cool-off timer pending at the
start other than the stored one: the second hit leaves the level as the first hit left it,
whether the hits return or raise, unless the first hit reached level 3 and the idle state
is current again at the second hit.  The wave state that the hit reaching level 3 starts
lasts `duration("Wave") - 0.25` seconds: with the state machine of `initActionStates()`, no
wave-end timer pending at the start and a `Wave` clip longer than 1.25 s (or none, or no
animation manager), the wave state is still current at the second hit, which leaves the
level at 0.  The conditions on the pending timers and on the state machine hold in every
state the driver reaches with the idle state current (`reachable_idle_ready`). -/
theorem handleModelHit_cooldown (app : App) (mgr : ActionStateManager.Manager) (t : ℚ)
    (hm : app.actionStateMgr = some mgr)
    (hs : ActionStateManager.getState mgr = MDL_STATE_IDLE) :
    (t ≤ (angerOf app).cooldown →
      ∃ app2, handleModelHit app t = Except.ok app2 ∧
        app2.angerData = some
          { level := (angerOf app).level, cooldown := t + 2500,
            coolOffId := some app.nextTimerId } ∧
        app2.audio = app.audio ++ [AudioCall.playAudio "nopoke" true false 0] ∧
        app2.timers =
          (match (angerOf app).coolOffId with
            | some id => app.timers.filter (fun x => x.id ≠ id)
            | none => app.timers)
            ++ [⟨app.nextTimerId, t + 5000, TimerAction.coolOff⟩] ∧
        app2.actionStateMgr = app.actionStateMgr ∧ app2.animMgr = app.animMgr ∧
        app2.roarTriggers = app.roarTriggers) ∧
    (CoolOffTracked app → ∀ mid : App,
      Elapses (t + 1000) (stateAfter (handleModelHit app t)) mid →
      (¬ ((angerOf app).cooldown < t ∧ 3 ≤ (angerOf app).level + 1) ∨
        ∀ mgr2, mid.actionStateMgr = some mgr2 →
          ActionStateManager.getState mgr2 ≠ MDL_STATE_IDLE) →
      (angerOf (stateAfter (handleModelHit mid (t + 1000)))).level =
        (angerOf (stateAfter (handleModelHit app t))).level) ∧
    (SetUp mgr → CoolOffTracked app → NoWaveEndPending app →
      (angerOf app).cooldown < t → (angerOf app).level + 1 = 3 →
      (∀ am clip, app.animMgr = some am → am.animClips "Wave" = some clip →
        5 / 4 < clip.duration) →
      ∀ mid : App, Elapses (t + 1000) (stateAfter (handleModelHit app t)) mid →
        mid.actionStateMgr = some { mgr with currentStateName := MDL_STATE_WAVE } ∧
        (angerOf (stateAfter (handleModelHit app t))).level = 0 ∧
        (angerOf (stateAfter (handleModelHit mid (t + 1000)))).level = 0) := by
  refine ⟨?_, ?_, ?_⟩
  · intro hg
    rw [handleModelHit_of_idle app mgr t hm hs, if_pos hg]
    refine ⟨_, rfl, rfl, ?_, ?_, ?_, ?_, ?_⟩ <;>
      simp [playAudio, restartCoolOff_state]
  · intro htr mid hel hcase
    have hdue := hit_coolOff_due app mgr t hm hs htr
    have hcalm := elapses_calm (t + 1000) _ _ hel
      (fun x hx hc => by rw [hdue x hx hc]; linarith)
    have hanger : angerOf mid = angerOf (stateAfter (handleModelHit app t)) := by
      simp only [angerOf, hcalm.1]
    rw [← hanger]
    apply hit_keeps_level
    rcases hcase with hn | hni
    · right
      rw [hanger, angerOf_of_some _ _ (hit_below_climax app mgr t hm hs hn)]
      show t + 1000 ≤ t + 2500
      linarith
    · exact Or.inl hni
  · intro hset htr hnw hc hl hlong mid hel
    obtain ⟨had, hst, htm⟩ := climaxHit_after app mgr t hm hs hset hc hl
    have hdue := hit_coolOff_due app mgr t hm hs htr
    have hstill := elapses_still (t + 1000) _ _ hel
      (fun x hx hc => by rw [hdue x hx hc]; linarith)
      (fun x hx o ho => by
        rcases htm x hx o ho with h | ⟨am, clip, h1, h2, h3⟩
        · exact absurd ho (hnw x h o)
        · have hd := hlong am clip h1 h2
          have h1000 : (1000 : ℚ) < (clip.duration - AnimationManager.defaultFadeTime) * 1000 := by
            unfold AnimationManager.defaultFadeTime
            linarith
          have := lt_of_lt_of_le h1000 (le_max_left _ (0 : ℚ))
          rw [h3]
          linarith)
    have hmid : mid.actionStateMgr
        = some { mgr with currentStateName := MDL_STATE_WAVE } := hstill.1.trans hst
    have hanger : angerOf mid = angerOf (stateAfter (handleModelHit app t)) := by
      simp only [angerOf, hstill.2.1]
    have h0 : (angerOf (stateAfter (handleModelHit app t))).level = 0 := by
      rw [angerOf_of_some _ _ had]
    refine ⟨hmid, h0, ?_⟩
    rw [hit_keeps_level mid (t + 1000) (Or.inl (fun mgr2 h2 => by
      rw [hmid] at h2
      rw [← Option.some.inj h2]
      simp only [ActionStateManager.getState]
      decide)), hanger, h0]

/-- The switch-in callback of the wave state, with an animation manager that knows the
`"Wave"` clip and whose `playAnimations` call returns: the callback returns, and the
wave-end timer it started is pending, due `(duration("Wave") - 0.25) s` later. -/
theorem waveIn_starts_timer (oldState : String) (now : ℚ) (app : App)
    (am : AnimationManager.Manager) (clip : AnimationManager.Clip)
    (ha : app.animMgr = some am) (hclip : am.animClips "Wave" = some clip)
    (hret : AnimCallReturns am (fun am =>
      AnimationManager.playAnimations am (AnimationManager.Anims.many [waveRequest]))) :
    ∃ a id, runStateCallback H_WAVE_IN oldState now app = Except.ok a ∧
      (⟨id, now + max ((clip.duration - AnimationManager.defaultFadeTime) * 1000) 0,
        TimerAction.waveEnd oldState⟩ : Timer) ∈ a.timers := by
  have hcall := callAnimMgr_returns app now _ am ha hret
  have hfld := runAnimCallbacks_fields
    (((AnimationManager.playAnimations am
      (AnimationManager.Anims.many [waveRequest])).effects.drop am.effects.length)) now
    { app with animMgr := some (AnimationManager.playAnimations am
      (AnimationManager.Anims.many [waveRequest])) }
  have hget : AnimationManager.getAnimClip (AnimationManager.playAnimations am
      (AnimationManager.Anims.many [waveRequest])) "Wave" = some clip := by
    simp only [AnimationManager.getAnimClip, AnimationManager.playAnimations]
    rw [queueAnimations_animClips]
    exact hclip
  simp only [runStateCallback, ha, H_WAVE_IN, H_IDLE_IN, H_WHISTLE_IN, H_WHISTLE_OUT,
    H_UMBRELLA_IN, H_UMBRELLA_OUT]
  simp only [Nat.reduceEqDiff, if_false, if_true]
  rw [hcall]
  simp only [hfld.1, Option.some_bind, hget]
  have key : ∀ (app1 : App) (d : ℚ) (w : String),
      ∃ a id,
        (Except.ok
          (playAudio
            { (setTimeout app1 now d (TimerAction.waveEnd oldState)).2 with
              timerIdWaveEnd := some (setTimeout app1 now d (TimerAction.waveEnd oldState)).1
              curWaveSound := w }
            w true false 0) : Except App App) = Except.ok a ∧
        (⟨id, now + d, TimerAction.waveEnd oldState⟩ : Timer) ∈ a.timers :=
    fun app1 d w => ⟨_, app1.nextTimerId, rfl, by simp [playAudio, setTimeout]⟩
  exact key _ _ _

/-- The part of `handleModelHit` after the increment, for the new level 3, with the state
machine of `initActionStates()` in the idle state and an animation manager that can play
the `"Wave"` clip: afterwards a wave-end timer for the idle state is pending, due
`(duration("Wave") - 0.25) s` later. -/
theorem handleClearedHit_climax_timer (app : App) (raised : AngerData) (t : ℚ)
    (mgr : ActionStateManager.Manager) (am : AnimationManager.Manager)
    (clip : AnimationManager.Clip) (hl : raised.level = 3)
    (hm : app.actionStateMgr = some mgr) (hset : SetUp mgr)
    (hs : ActionStateManager.getState mgr = MDL_STATE_IDLE)
    (ha : app.animMgr = some am) (hclip : am.animClips "Wave" = some clip)
    (hret : AnimCallReturns am (fun am =>
      AnimationManager.playAnimations am (AnimationManager.Anims.many [waveRequest]))) :
    ∃ x ∈ (stateAfter (handleClearedHit app raised t)).timers,
      x.action = TimerAction.waveEnd MDL_STATE_IDLE ∧
      x.due = t + max ((clip.duration - AnimationManager.defaultFadeTime) * 1000) 0 := by
  have h3le : 3 ≤ raised.level := by omega
  have hreset : (resetAngerData app).actionStateMgr = some mgr ∧
      (resetAngerData app).animMgr = some am := by
    unfold resetAngerData
    cases app.angerData.bind (fun ad => ad.coolOffId) <;> exact ⟨hm, ha⟩
  obtain ⟨a, id, hrun, hmem⟩ := waveIn_starts_timer MDL_STATE_IDLE t
    { resetAngerData app with
      actionStateMgr := some { mgr with currentStateName := MDL_STATE_WAVE } }
    am clip hreset.2 hclip hret
  unfold handleClearedHit
  simp only [hl, h3le, if_true]
  rw [switchState_wave _ mgr t hreset.1 hset hs, hrun]
  exact ⟨_, hmem, rfl, rfl⟩

/-- A hit in the idle state that clears the cooldown and reaches level 3, with the state
machine of `initActionStates()` and an animation manager that can play the `"Wave"` clip:
afterwards a wave-end timer for the idle state is pending, due
`(duration("Wave") - 0.25) s` after the hit. -/
theorem climaxHit_timer (app : App) (mgr : ActionStateManager.Manager) (t : ℚ)
    (am : AnimationManager.Manager) (clip : AnimationManager.Clip)
    (hm : app.actionStateMgr = some mgr)
    (hs : ActionStateManager.getState mgr = MDL_STATE_IDLE) (hset : SetUp mgr)
    (hc : (angerOf app).cooldown < t) (hl : (angerOf app).level + 1 = 3)
    (ha : app.animMgr = some am) (hclip : am.animClips "Wave" = some clip)
    (hret : AnimCallReturns am (fun am =>
      AnimationManager.playAnimations am (AnimationManager.Anims.many [waveRequest]))) :
    ∃ x ∈ (stateAfter (handleModelHit app t)).timers,
      x.action = TimerAction.waveEnd MDL_STATE_IDLE ∧
      x.due = t + max ((clip.duration - AnimationManager.defaultFadeTime) * 1000) 0 := by
  rw [handleModelHit_of_idle app mgr t hm hs, if_neg (not_le.mpr hc)]
  exact handleClearedHit_climax_timer _
    { level := (angerOf app).level + 1, cooldown := t + 2500,
      coolOffId := some app.nextTimerId } t mgr am clip hl
    (by simp [restartCoolOff_state, hm]) hset hs (by simp [restartCoolOff_state, ha])
    hclip hret

/-- With the registry of `initActionStates()` and the wave state current, a switch to the
idle state makes the idle state current, whether its callbacks return or raise. -/
theorem switchState_to_idle (app : App) (mgr : ActionStateManager.Manager) (now : ℚ)
    (hm : app.actionStateMgr = some mgr) (hset : SetUp mgr)
    (hs : ActionStateManager.getState mgr = MDL_STATE_WAVE) :
    (stateAfterSwitch (switchState app MDL_STATE_IDLE now)).actionStateMgr
      = some { mgr with currentStateName := MDL_STATE_IDLE } := by
  obtain ⟨own, proto, cur⟩ := mgr
  obtain ⟨ho, hp⟩ := hset
  simp only at ho hp
  simp only [ActionStateManager.getState] at hs
  subst ho hp hs
  have h1 : ActionStateManager.lookup
      { own := initActionStatesMgr.own, proto := none, currentStateName := MDL_STATE_WAVE }
      MDL_STATE_IDLE = some ⟨some H_IDLE_IN, none⟩ := by decide
  have h2 : (ActionStateManager.lookup
      { own := initActionStatesMgr.own, proto := none, currentStateName := MDL_STATE_WAVE }
      MDL_STATE_WAVE).bind (fun o => o.switchOutFn) = some H_WAVE_OUT := by decide
  have hout := quiet_runStateCallback H_WAVE_OUT MDL_STATE_WAVE now app
  have hok : ∃ a, runStateCallback H_WAVE_OUT MDL_STATE_WAVE now app = Except.ok a := by
    simp only [runStateCallback, H_WAVE_OUT, H_WAVE_IN, H_IDLE_IN, H_WHISTLE_IN, H_WHISTLE_OUT,
      H_UMBRELLA_IN, H_UMBRELLA_OUT]
    simp only [Nat.reduceEqDiff, if_false, if_true]
    exact ⟨_, rfl⟩
  obtain ⟨a, ha⟩ := hok
  rw [ha] at hout
  simp only [stateAfter] at hout
  simp only [switchState, hm, h1, h2, ha]
  have hin := quiet_runStateCallback H_IDLE_IN MDL_STATE_WAVE now
    { a with
      actionStateMgr :=
        a.actionStateMgr.map (fun g => { g with currentStateName := MDL_STATE_IDLE }) }
  generalize runStateCallback H_IDLE_IN MDL_STATE_WAVE now
    { a with
      actionStateMgr :=
        a.actionStateMgr.map (fun g => { g with currentStateName := MDL_STATE_IDLE }) }
    = r at hin ⊢
  have hfin : (a.actionStateMgr.map
      (fun g : ActionStateManager.Manager => { g with currentStateName := MDL_STATE_IDLE }))
      = some { own := initActionStatesMgr.own, proto := none,
               currentStateName := MDL_STATE_IDLE } := by
    rw [hout.1, hm]
    rfl
  cases r with
  | error b => exact hin.1.trans hfin
  | ok b => exact hin.1.trans hfin

/-- The wave-end timer for the idle state fires while the wave state is current, with the
registry of `initActionStates()`: the idle state is current afterwards and the anger data
is as before. -/
theorem fireWaveEnd_after (app : App) (x : Timer) (now : ℚ)
    (mgr : ActionStateManager.Manager) (hx : x.action = TimerAction.waveEnd MDL_STATE_IDLE)
    (hm : app.actionStateMgr = some mgr) (hset : SetUp mgr)
    (hs : ActionStateManager.getState mgr = MDL_STATE_WAVE) :
    (stateAfter (fireTimer app x now)).actionStateMgr
        = some { mgr with currentStateName := MDL_STATE_IDLE } ∧
      (stateAfter (fireTimer app x now)).angerData = app.angerData := by
  refine ⟨?_, (fireTimer_calm app x now (by rw [hx]; simp)).1⟩
  have h := switchState_to_idle { clearTimeout app x.id with timerIdWaveEnd := none } mgr now
    hm hset hs
  unfold fireTimer
  rw [hx]
  simp only []
  generalize switchState { clearTimeout app x.id with timerIdWaveEnd := none }
    MDL_STATE_IDLE now = r at h ⊢
  cases r with
  | error a => exact h
  | ok sw => exact h

/-- C19, the amended statement at concrete inputs: a hit at 5000 ms in the state
`angryApp`, whose cooldown runs until 5500 ms, keeps the level 2 and restarts the cooldown
and the cool-off timer; and a hit at 4000 ms that follows a hit at 3000 ms on the placed
model, with a frame in between, leaves the level as it was. -/
theorem handleModelHit_cooldown_witness :
    (∃ app2, handleModelHit angryApp 5000 = Except.ok app2 ∧
      app2.angerData = some { level := 2, cooldown := 7500, coolOffId := some 3 } ∧
      app2.audio = [AudioCall.playAudio "nopoke" true false 0] ∧
      app2.timers = [⟨3, 10000, TimerAction.coolOff⟩]) ∧
    (angerOf (stateAfter
        (handleModelHit
          (stateAfter (frameUpdate (stateAfter (handleModelHit placedApp 3000)) 3500 (1 / 2)))
          (3000 + 1000)))).level =
      (angerOf (stateAfter (handleModelHit placedApp 3000))).level := by
  constructor
  · obtain ⟨app2, h, ha, hau, ht, -, -, -⟩ :=
      (handleModelHit_cooldown angryApp
        { initActionStatesMgr with currentStateName := MDL_STATE_IDLE } 5000 rfl rfl).1
        (by simp [angerOf, angryApp]; norm_num)
    refine ⟨app2, h, ?_, ?_, ?_⟩
    · rw [ha]; simp [angerOf, angryApp, placedApp]; norm_num
    · rw [hau]; simp [angryApp, placedApp]
    · rw [ht]; simp [angerOf, angryApp, placedApp]; norm_num
  · exact (handleModelHit_cooldown placedApp
      { initActionStatesMgr with currentStateName := MDL_STATE_IDLE } 3000 rfl rfl).2.1
      (by intro x hx; simp [placedApp] at hx) _
      (Elapses.frame _ _ 3500 (1 / 2) (by norm_num) (Elapses.done _))
      (Or.inl (by simp [angerOf, placedApp]))

/-- C19, as stated, fails on the code.  The model has a `Wave` clip of one second; the
level is 2 and the cooldown is over at 5500 ms.  The hit at 6000 ms reaches level 3: it
resets the anger data (level 0, cooldown 0) and starts the wave state, whose end timer is
due at 6750 ms.  That timer fires at 6750 ms and switches back to the idle state, and the
hit at 7000 ms, one second after the first, is accepted: it raises the level from 0 to
1. -/
theorem second_hit_after_short_wave :
    CoolOffTracked angryShortWave ∧
      (angerOf (stateAfter (handleModelHit angryShortWave 6000))).level = 0 ∧
      ∃ x ∈ (stateAfter (handleModelHit angryShortWave 6000)).timers,
        x.action = TimerAction.waveEnd MDL_STATE_IDLE ∧ x.due = 6750 ∧
        Elapses (6000 + 1000) (stateAfter (handleModelHit angryShortWave 6000))
          (stateAfter (fireTimer (stateAfter (handleModelHit angryShortWave 6000)) x 6750)) ∧
        (angerOf (stateAfter
          (handleModelHit
            (stateAfter (fireTimer (stateAfter (handleModelHit angryShortWave 6000)) x 6750))
            (6000 + 1000)))).level = 1 := by
  have hm : angryShortWave.actionStateMgr
      = some { initActionStatesMgr with currentStateName := MDL_STATE_IDLE } := rfl
  have hset : SetUp { initActionStatesMgr with currentStateName := MDL_STATE_IDLE } :=
    ⟨rfl, rfl⟩
  have hc : (angerOf angryShortWave).cooldown < 6000 := by
    simp [angerOf, angryShortWave, angryApp]; norm_num
  have hl : (angerOf angryShortWave).level + 1 = 3 := by
    simp [angerOf, angryShortWave, angryApp]
  have htr : CoolOffTracked angryShortWave := by
    intro x hx _
    have hx2 : x = ⟨2, 8000, TimerAction.coolOff⟩ := by
      simpa [angryShortWave, angryApp] using hx
    rw [hx2]
    rfl
  obtain ⟨had, hst, -⟩ := climaxHit_after angryShortWave _ 6000 hm rfl hset hc hl
  have hclip : (AnimationManager.queueAnimations (AnimationManager.create shortWaveClips)
      (AnimationManager.Anims.many [idleRequest]) false).animClips "Wave"
      = some ⟨"Wave", 1⟩ := by
    rw [queueAnimations_animClips]
    simp [AnimationManager.create, shortWaveClips]
  have hq : (AnimationManager.queueAnimations (AnimationManager.create shortWaveClips)
      (AnimationManager.Anims.many [idleRequest]) false).animQueue = [] := rfl
  obtain ⟨x, hx, hxa, hxd⟩ := climaxHit_timer angryShortWave _ 6000 _ ⟨"Wave", 1⟩ hm rfl hset
    hc hl rfl hclip
    (animCallReturns_of_plain _ _ true
      (by rw [hq]; exact fun r hr => absurd hr (List.not_mem_nil _))
      driver_requests_plain.2)
  have hdue : x.due = 6750 := by
    rw [hxd]
    simp [AnimationManager.defaultFadeTime]
    norm_num
  obtain ⟨hmid, hmad⟩ := fireWaveEnd_after (stateAfter (handleModelHit angryShortWave 6000)) x
    6750 _ hxa hst hset rfl
  have h0 : (angerOf (stateAfter (handleModelHit angryShortWave 6000))).level = 0 := by
    rw [angerOf_of_some _ _ had]
  refine ⟨htr, h0, x, hx, hxa, hdue, ?_, ?_⟩
  · exact Elapses.timer _ _ x 6750 hx (le_of_eq hdue) (by norm_num) (Elapses.done _)
  · have hfresh : angerOf (stateAfter
        (fireTimer (stateAfter (handleModelHit angryShortWave 6000)) x 6750))
        = { level := 0, cooldown := 0, coolOffId := none } :=
      angerOf_of_some _ _ (hmad.trans had)
    rw [angerOf_of_some _ _
      (hit_below_climax _ _ (6000 + 1000) hmid rfl (by rw [hfresh]; norm_num)), hfresh]
    norm_num

/-- The part of `handleModelHit` after the increment is a still step when the new level is
below 3, whether it returns or raises. -/
theorem handleClearedHit_below_still (app : App) (raised : AngerData) (t : ℚ)
    (hl : raised.level < 3) : Still app (stateAfter (handleClearedHit app raised t)) := by
  have h3 : ¬ raised.level = 3 := by omega
  have h3le : ¬ 3 ≤ raised.level := by omega
  have hq := still_callAnimMgr app t (fun am =>
    AnimationManager.playAnimations am (AnimationManager.Anims.many [pokedRequest]))
  unfold handleClearedHit
  simp only [h3, h3le, if_false]
  generalize callAnimMgr app t (fun am =>
    AnimationManager.playAnimations am (AnimationManager.Anims.many [pokedRequest])) = x
    at hq ⊢
  cases x with
  | error a => exact hq
  | ok a =>
    simp only [stateAfter] at hq ⊢
    split_ifs <;> exact still_trans hq ⟨rfl, rfl, fun _ h => Or.inl h⟩

/-- After a hit in the idle state that does not reach level 3, whether it returned or
raised: the state machine is as before, and a pending timer is the cool-off timer the hit
started, or was pending before and is not the one whose id was stored, or is neither a
cool-off nor a wave-end timer. -/
theorem hit_below_still (app : App) (mgr : ActionStateManager.Manager) (t : ℚ)
    (hm : app.actionStateMgr = some mgr)
    (hs : ActionStateManager.getState mgr = MDL_STATE_IDLE)
    (hn : ¬ ((angerOf app).cooldown < t ∧ 3 ≤ (angerOf app).level + 1)) :
    (stateAfter (handleModelHit app t)).actionStateMgr = some mgr ∧
      ∀ x ∈ (stateAfter (handleModelHit app t)).timers,
        x = ⟨app.nextTimerId, t + 5000, TimerAction.coolOff⟩ ∨
        (x ∈ app.timers ∧ (angerOf app).coolOffId ≠ some x.id) ∨
        (x.action ≠ TimerAction.coolOff ∧
          ∀ oldState, x.action ≠ TimerAction.waveEnd oldState) := by
  have hrest : ∀ x ∈ (restartCoolOff { app with angerData := some (angerOf app) }
        (angerOf app) t).2.timers,
      x = ⟨app.nextTimerId, t + 5000, TimerAction.coolOff⟩ ∨
      (x ∈ app.timers ∧ (angerOf app).coolOffId ≠ some x.id) := by
    intro x hx
    rw [restartCoolOff_state] at hx
    simp only [List.mem_append, List.mem_singleton] at hx
    rcases hx with hx | hx
    · right
      cases hid : (angerOf app).coolOffId with
      | none =>
        rw [hid] at hx
        exact ⟨hx, by simp⟩
      | some id =>
        rw [hid] at hx
        simp only [List.mem_filter, ne_eq, decide_not, Bool.not_eq_eq_eq_not, Bool.not_true,
          decide_eq_false_iff_not] at hx
        exact ⟨hx.1, fun h => hx.2 (Option.some.inj h).symm⟩
    · exact Or.inl hx
  rw [handleModelHit_of_idle app mgr t hm hs]
  by_cases hg : t ≤ (angerOf app).cooldown
  · rw [if_pos hg]
    refine ⟨by simp [stateAfter, playAudio, restartCoolOff_state, hm], fun x hx => ?_⟩
    rcases hrest x (by simpa [stateAfter, playAudio] using hx) with h | h
    · exact Or.inl h
    · exact Or.inr (Or.inl h)
  · have hl : (angerOf app).level + 1 < 3 := by
      by_contra hge
      exact hn ⟨not_le.mp hg, by omega⟩
    rw [if_neg hg]
    have hst := handleClearedHit_below_still
      { (restartCoolOff { app with angerData := some (angerOf app) } (angerOf app) t).2 with
        angerData := some
          { level := (angerOf app).level + 1, cooldown := t + 2500,
            coolOffId := some app.nextTimerId } }
      { level := (angerOf app).level + 1, cooldown := t + 2500,
        coolOffId := some app.nextTimerId } t hl
    refine ⟨hst.1.trans (by simp [restartCoolOff_state, hm]), fun x hx => ?_⟩
    rcases hst.2.2 x hx with h | h
    · rcases hrest x (by simpa using h) with h | h
      · exact Or.inl h
      · exact Or.inr (Or.inl h)
    · exact Or.inr (Or.inr h)

/-- A hit in the idle state that does not reach level 3, followed by what the driver does
by itself up to a time before the cool-off timer of the hit is due, when no stray cool-off
timer and no wave-end timer was pending: the idle state is still current, the anger data
is as the hit left it, and again no stray cool-off timer and no wave-end timer is
pending. -/
theorem hit_then_elapses (app mid : App) (mgr : ActionStateManager.Manager) (t hi : ℚ)
    (hm : app.actionStateMgr = some mgr)
    (hs : ActionStateManager.getState mgr = MDL_STATE_IDLE)
    (htr : CoolOffTracked app) (hwe : NoWaveEndPending app)
    (hn : ¬ ((angerOf app).cooldown < t ∧ 3 ≤ (angerOf app).level + 1))
    (hhi : hi < t + 5000) (hel : Elapses hi (stateAfter (handleModelHit app t)) mid) :
    mid.actionStateMgr = some mgr ∧
      mid.angerData = some
        { level := if t ≤ (angerOf app).cooldown then (angerOf app).level
            else (angerOf app).level + 1
          cooldown := t + 2500
          coolOffId := some app.nextTimerId } ∧
      CoolOffTracked mid ∧ NoWaveEndPending mid := by
  obtain ⟨hst, htm⟩ := hit_below_still app mgr t hm hs hn
  have had := hit_below_climax app mgr t hm hs hn
  have hdue := hit_coolOff_due app mgr t hm hs htr
  have hstill := elapses_still hi _ _ hel
    (fun x hx hc => by rw [hdue x hx hc]; exact hhi)
    (fun x hx o ho => by
      rcases htm x hx with h | h | h
      · rw [h] at ho; cases ho
      · exact absurd ho (hwe x h.1 o)
      · exact absurd ho (h.2 o))
  have hmad := hstill.2.1.trans had
  refine ⟨hstill.1.trans hst, hmad, ?_, ?_⟩
  · intro x hx hc
    rw [angerOf_of_some _ _ hmad]
    rcases hstill.2.2 x hx with h | h
    · rcases htm x h with h | h | h
      · rw [h]
      · exact absurd (htr x h.1 hc) h.2
      · exact absurd hc h.1
    · exact absurd hc h.1
  · intro x hx o ho
    rcases hstill.2.2 x hx with h | h
    · rcases htm x h with h | h | h
      · rw [h] at ho; cases ho
      · exact hwe x h.1 o ho
      · exact h.2 o ho
    · exact h.2 o ho

/-- C21: scenario 3.  The driver has the state machine of `initActionStates()` in the idle
state and fresh anger data (as `_resetAngerData` creates it, or none yet), and neither a
cool-off timer nor a wave-end timer is pending, as is the case in every state the driver
reaches with the idle state current and fresh anger data (`reachable_idle_ready`).  Three
body hits come at `t`, `t + 3000` and `t + 6000` ms, where `t > 0` is the value of
`performance.now()` at the first hit; between the hits the driver does what it does by
itself (firings of timers that are due, frames).  Whether the hits return or raise: after the first hit the level is 1, after the
second it is 2, the third hit finds the idle state, level 2 and a cooldown that is over, so
that it raises the level to 3, and after it the anger data is fresh again (level 0) and
the wave state is current. -/
theorem three_hits_reach_wave (app mid1 mid2 : App) (mgr : ActionStateManager.Manager)
    (t : ℚ) (hm : app.actionStateMgr = some mgr)
    (hs : ActionStateManager.getState mgr = MDL_STATE_IDLE) (hset : SetUp mgr)
    (hfresh : angerOf app = { level := 0, cooldown := 0, coolOffId := none })
    (ht : 0 < t) (hco : ∀ x ∈ app.timers, x.action ≠ TimerAction.coolOff)
    (hwe : NoWaveEndPending app)
    (h1 : Elapses (t + 3000) (stateAfter (handleModelHit app t)) mid1)
    (h2 : Elapses (t + 6000) (stateAfter (handleModelHit mid1 (t + 3000))) mid2) :
    (angerOf (stateAfter (handleModelHit app t))).level = 1 ∧
      (angerOf (stateAfter (handleModelHit mid1 (t + 3000)))).level = 2 ∧
      (mid2.actionStateMgr = some mgr ∧ (angerOf mid2).level + 1 = 3 ∧
        (angerOf mid2).cooldown < t + 6000) ∧
      (stateAfter (handleModelHit mid2 (t + 6000))).angerData
        = some { level := 0, cooldown := 0, coolOffId := none } ∧
      (stateAfter (handleModelHit mid2 (t + 6000))).actionStateMgr
        = some { mgr with currentStateName := MDL_STATE_WAVE } := by
  have htr : CoolOffTracked app := fun x hx hc => absurd hc (hco x hx)
  have hn1 : ¬ ((angerOf app).cooldown < t ∧ 3 ≤ (angerOf app).level + 1) := by
    rw [hfresh]; norm_num
  have hg1 : ¬ t ≤ (angerOf app).cooldown := by
    rw [hfresh]; exact not_le.mpr ht
  have had1 := hit_below_climax app mgr t hm hs hn1
  rw [if_neg hg1, hfresh] at had1
  obtain ⟨hm1, hmad1, htr1, hwe1⟩ := hit_then_elapses app mid1 mgr t (t + 3000) hm hs htr hwe
    hn1 (by linarith) h1
  rw [if_neg hg1, hfresh] at hmad1
  have ha1 := angerOf_of_some _ _ hmad1
  have hn2 : ¬ ((angerOf mid1).cooldown < t + 3000 ∧ 3 ≤ (angerOf mid1).level + 1) := by
    rw [ha1]; norm_num
  have hg2 : ¬ t + 3000 ≤ (angerOf mid1).cooldown := by
    rw [ha1]
    show ¬ t + 3000 ≤ t + 2500
    linarith
  have had2 := hit_below_climax mid1 mgr (t + 3000) hm1 hs hn2
  rw [if_neg hg2, ha1] at had2
  obtain ⟨hm2, hmad2, -, -⟩ := hit_then_elapses mid1 mid2 mgr (t + 3000) (t + 6000) hm1 hs
    htr1 hwe1 hn2 (by linarith) h2
  rw [if_neg hg2, ha1] at hmad2
  have ha2 := angerOf_of_some _ _ hmad2
  have hc3 : (angerOf mid2).cooldown < t + 6000 := by
    rw [ha2]
    show t + 3000 + 2500 < t + 6000
    linarith
  have hl3 : (angerOf mid2).level + 1 = 3 := by
    rw [ha2]; norm_num
  obtain ⟨had3, hst3, -⟩ := climaxHit_after mid2 mgr (t + 6000) hm2 hs hset hc3 hl3
  refine ⟨?_, ?_, ⟨hm2, hl3, hc3⟩, had3, hst3⟩
  · rw [angerOf_of_some _ _ had1]; norm_num
  · rw [angerOf_of_some _ _ had2]; norm_num

/-- C21, at concrete inputs: hits at 1000, 4000 and 7000 ms on the placed model, with a
frame between the second and the third. -/
theorem three_hits_reach_wave_witness :
    (angerOf (stateAfter (handleModelHit placedApp 1000))).level = 1 ∧
      (angerOf (stateAfter
        (handleModelHit (stateAfter (handleModelHit placedApp 1000)) (1000 + 3000)))).level
        = 2 ∧
      (stateAfter
        (handleModelHit
          (stateAfter
            (frameUpdate
              (stateAfter
                (handleModelHit (stateAfter (handleModelHit placedApp 1000)) (1000 + 3000)))
              5000 1))
          (1000 + 6000))).angerData
        = some { level := 0, cooldown := 0, coolOffId := none } ∧
      (stateAfter
        (handleModelHit
          (stateAfter
            (frameUpdate
              (stateAfter
                (handleModelHit (stateAfter (handleModelHit placedApp 1000)) (1000 + 3000)))
              5000 1))
          (1000 + 6000))).actionStateMgr
        = some { initActionStatesMgr with currentStateName := MDL_STATE_WAVE } := by
  have h := three_hits_reach_wave placedApp _ _
    { initActionStatesMgr with currentStateName := MDL_STATE_IDLE } 1000 rfl rfl
    ⟨rfl, rfl⟩ rfl (by norm_num) (by intro x hx; simp [placedApp] at hx)
    (by intro x hx; simp [placedApp] at hx) (Elapses.done _)
    (Elapses.frame _ _ 5000 1 (by norm_num) (Elapses.done _))
  exact ⟨h.1, h.2.1, h.2.2.2.1, h.2.2.2.2⟩

/-- The switch-in callback of the wave state raises when the animation manager exists and
has no `"Wave"` clip: `getAnimClip("Wave")` is `undefined` and its `duration` is read. -/
theorem waveIn_raises (oldState : String) (now : ℚ) (app : App)
    (am : AnimationManager.Manager) (ha : app.animMgr = some am)
    (hclip : am.animClips "Wave" = none)
    (hret : AnimCallReturns am (fun am =>
      AnimationManager.playAnimations am (AnimationManager.Anims.many [waveRequest]))) :
    ∃ a, runStateCallback H_WAVE_IN oldState now app = Except.error a := by
  have hcall := callAnimMgr_returns app now _ am ha hret
  have hfld := runAnimCallbacks_fields
    (((AnimationManager.playAnimations am
      (AnimationManager.Anims.many [waveRequest])).effects.drop am.effects.length)) now
    { app with animMgr := some (AnimationManager.playAnimations am
      (AnimationManager.Anims.many [waveRequest])) }
  have hget : AnimationManager.getAnimClip (AnimationManager.playAnimations am
      (AnimationManager.Anims.many [waveRequest])) "Wave" = none := by
    simp only [AnimationManager.getAnimClip, AnimationManager.playAnimations]
    rw [queueAnimations_animClips]
    exact hclip
  simp only [runStateCallback, ha, H_WAVE_IN, H_IDLE_IN, H_WHISTLE_IN, H_WHISTLE_OUT,
    H_UMBRELLA_IN, H_UMBRELLA_OUT]
  simp only [Nat.reduceEqDiff, if_false, if_true]
  rw [hcall]
  simp only [hfld.1, Option.some_bind, hget]
  exact ⟨_, rfl⟩

/-- The part of `handleModelHit` after the increment, for the new level 3, with the state
machine of `initActionStates()` in the idle state and an animation manager without a
`"Wave"` clip: the call raises inside the switch to the wave state, before the roar effect
is triggered. -/
theorem handleClearedHit_climax_raises (app : App) (raised : AngerData) (t : ℚ)
    (mgr : ActionStateManager.Manager) (am : AnimationManager.Manager)
    (hl : raised.level = 3) (hm : app.actionStateMgr = some mgr) (hset : SetUp mgr)
    (hs : ActionStateManager.getState mgr = MDL_STATE_IDLE)
    (ha : app.animMgr = some am) (hclip : am.animClips "Wave" = none)
    (hret : AnimCallReturns am (fun am =>
      AnimationManager.playAnimations am (AnimationManager.Anims.many [waveRequest]))) :
    ∃ a, handleClearedHit app raised t = Except.error a ∧
      a.roarTriggers = app.roarTriggers ∧
      a.audio.filter isPokeCue = app.audio.filter isPokeCue := by
  have h3le : 3 ≤ raised.level := by omega
  have hreset : (resetAngerData app).actionStateMgr = some mgr ∧
      (resetAngerData app).animMgr = some am ∧
      (resetAngerData app).roarTriggers = app.roarTriggers ∧
      (resetAngerData app).audio = app.audio := by
    unfold resetAngerData
    cases app.angerData.bind (fun ad => ad.coolOffId) <;> exact ⟨hm, ha, rfl, rfl⟩
  obtain ⟨a, hrun⟩ := waveIn_raises MDL_STATE_IDLE t
    { resetAngerData app with
      actionStateMgr := some { mgr with currentStateName := MDL_STATE_WAVE } }
    am hreset.2.1 hclip hret
  have hq := quiet_runStateCallback H_WAVE_IN MDL_STATE_IDLE t
    { resetAngerData app with
      actionStateMgr := some { mgr with currentStateName := MDL_STATE_WAVE } }
  rw [hrun] at hq
  refine ⟨a, ?_, hq.2.2.1.trans hreset.2.2.1, hq.2.2.2.1.trans (by simp [hreset.2.2.2])⟩
  unfold handleClearedHit
  simp only [hl, h3le, if_true]
  rw [switchState_wave _ mgr t hreset.1 hset hs, hrun]
  simp

/-- C20, the code at two failing inputs.  (1) The fallback box is placed (`g_animMgr` is
`null`), idle, at level 1 with the cooldown over at 5500 ms.  The hit at 6000 ms is
accepted: the level becomes 2, the cooldown 8500 and the cool-off timer is restarted for
11000 ms; then `g_animMgr.playAnimations` raises, and the cue `"poke2"` is not played.
(2) The model has no `Wave` clip, the level is 2 and the cooldown is over at 5500 ms.  The
hit at 6000 ms reaches level 3: the anger data is reset and the wave state becomes current,
but its switch-in callback raises on the missing clip: no wave-end timer is started and the
roar effect is not triggered. -/
theorem accepted_hit_cut_short :
    (∃ a, handleModelHit boxApp 6000 = Except.error a ∧
      a.angerData = some { level := 2, cooldown := 8500, coolOffId := some 2 } ∧
      a.timers = [⟨2, 11000, TimerAction.coolOff⟩] ∧ a.audio = []) ∧
    (∃ a, handleModelHit angryWaveLess 6000 = Except.error a ∧
      a.angerData = some { level := 0, cooldown := 0, coolOffId := none } ∧
      a.actionStateMgr
        = some { initActionStatesMgr with currentStateName := MDL_STATE_WAVE } ∧
      (∀ x ∈ a.timers, ∀ oldState, x.action ≠ TimerAction.waveEnd oldState) ∧
      a.roarTriggers = 0) := by
  constructor
  · rw [handleModelHit_of_idle boxApp
      { initActionStatesMgr with currentStateName := MDL_STATE_IDLE } 6000 rfl rfl,
      if_neg (by simp [angerOf, boxApp]; norm_num),
      handleClearedHit_without_animMgr _ _ 6000 (by simp [angerOf, boxApp])
        (by simp [restartCoolOff_state, boxApp])]
    refine ⟨_, rfl, ?_, ?_, ?_⟩
    · simp [angerOf, boxApp]; norm_num
    · simp [restartCoolOff_state, angerOf, boxApp]; norm_num
    · simp [restartCoolOff_state, boxApp, placedApp]
  · have hm : angryWaveLess.actionStateMgr
        = some { initActionStatesMgr with currentStateName := MDL_STATE_IDLE } := rfl
    have hset : SetUp { initActionStatesMgr with currentStateName := MDL_STATE_IDLE } :=
      ⟨rfl, rfl⟩
    have hc : (angerOf angryWaveLess).cooldown < 6000 := by
      simp [angerOf, angryWaveLess, angryApp]; norm_num
    have hl : (angerOf angryWaveLess).level + 1 = 3 := by
      simp [angerOf, angryWaveLess, angryApp]
    have hclip : (AnimationManager.queueAnimations (AnimationManager.create waveLessClips)
        (AnimationManager.Anims.many [idleRequest]) false).animClips "Wave" = none := by
      rw [queueAnimations_animClips]
      simp [AnimationManager.create, waveLessClips]
    have hq : (AnimationManager.queueAnimations (AnimationManager.create waveLessClips)
        (AnimationManager.Anims.many [idleRequest]) false).animQueue = [] := rfl
    obtain ⟨had, hst, htm⟩ := climaxHit_after angryWaveLess _ 6000 hm rfl hset hc hl
    obtain ⟨a, hrun, hroar, -⟩ := handleClearedHit_climax_raises
      { (restartCoolOff { angryWaveLess with angerData := some (angerOf angryWaveLess) }
          (angerOf angryWaveLess) 6000).2 with
        angerData := some
          { level := (angerOf angryWaveLess).level + 1, cooldown := 6000 + 2500,
            coolOffId := some angryWaveLess.nextTimerId } }
      { level := (angerOf angryWaveLess).level + 1, cooldown := 6000 + 2500,
        coolOffId := some angryWaveLess.nextTimerId } 6000 _ _ hl
      (by simp [restartCoolOff_state, hm]) hset rfl
      (by simp [restartCoolOff_state, angryWaveLess]) hclip
      (animCallReturns_of_plain _ _ true
        (by rw [hq]; exact fun r hr => absurd hr (List.not_mem_nil _))
        driver_requests_plain.2)
    have he : handleModelHit angryWaveLess 6000 = Except.error a := by
      rw [handleModelHit_of_idle angryWaveLess _ 6000 hm rfl, if_neg (not_le.mpr hc)]
      exact hrun
    rw [he] at had hst htm
    refine ⟨a, he, had, hst, ?_, ?_⟩
    · intro x hx o ho
      rcases htm x hx o ho with h | ⟨am, clip, h1, h2, -⟩
      · have hx2 : x = ⟨2, 8000, TimerAction.coolOff⟩ := by
          simpa [angryWaveLess, angryApp] using h
        rw [hx2] at ho
        cases ho
      · have e : am = AnimationManager.queueAnimations (AnimationManager.create waveLessClips)
            (AnimationManager.Anims.many [idleRequest]) false := (Option.some.inj h1).symm
        rw [e, hclip] at h2
        cases h2
    · rw [hroar]
      simp [restartCoolOff_state, angryWaveLess, angryApp, placedApp]

/-- A stored select event whose ray meets no visible HUD element and meets the model:
`handleSelectDelayed` invokes `handleModelHit` and nothing else; when the handler returns
the stored event is cleared, and when it raises the stored event stays. -/
theorem handleSelectDelayed_of_model_hit (env : UIEnv) (s : Session) (ray : Ray) (now : ℚ)
    (hst : s.storedSelectData = some (some ray)) (hud : castRayOnHud ray = [])
    (hmod : ray.modelOnRay = true) :
    (handleSelectDelayed env s now).invoked = [Invoked.modelHit] ∧
      (handleSelectDelayed env s now).result =
        match handleModelHit s.app now with
        | Except.ok a => Except.ok { s with app := a, storedSelectData := none }
        | Except.error a => Except.error { s with app := a } := by
  unfold handleSelectDelayed resolveVirtualHit
  simp only [hst, hud, hmod, if_true]
  cases handleModelHit s.app now with
  | error a => exact ⟨rfl, rfl⟩
  | ok a => exact ⟨rfl, rfl⟩

/-- C24, the code at the failing input.  The fallback box is placed (`g_animMgr` is
`null`) and idle, and one select event is stored whose ray meets no HUD element and meets
the box.  In the frame at 3000 ms `handleSelectDelayed` invokes `handleModelHit`, which
raises after it raised the level; the assignment that clears the stored event is not
reached, so the event is still stored.  In the next frame, at 3016 ms,
`handleSelectDelayed` resolves the same event again and invokes `handleModelHit` a second
time (this time the hit meets the cooldown gate, plays `"nopoke"` and returns), and only
then is the stored event cleared. -/
theorem select_event_handled_twice :
    boxSession.storedSelectData = some (some { hudOnRay := [], modelOnRay := true }) ∧
      (handleSelectDelayed inertUI boxSession 3000).invoked = [Invoked.modelHit] ∧
      (∃ s1, (handleSelectDelayed inertUI boxSession 3000).result = Except.error s1) ∧
      (sessionAfter (handleSelectDelayed inertUI boxSession 3000)).storedSelectData
        = boxSession.storedSelectData ∧
      (angerOf (sessionAfter (handleSelectDelayed inertUI boxSession 3000)).app).level = 1 ∧
      (handleSelectDelayed inertUI
        (sessionAfter (handleSelectDelayed inertUI boxSession 3000)) 3016).invoked
        = [Invoked.modelHit] ∧
      (∃ s2, (handleSelectDelayed inertUI
          (sessionAfter (handleSelectDelayed inertUI boxSession 3000)) 3016).result
          = Except.ok s2 ∧
        s2.storedSelectData = none ∧
        s2.app.audio = [AudioCall.playAudio "nopoke" true false 0]) := by
  obtain ⟨hi1, hr1⟩ := handleSelectDelayed_of_model_hit inertUI boxSession
    { hudOnRay := [], modelOnRay := true } 3000 rfl rfl rfl
  have e1 : ∃ a, handleModelHit boxSession.app 3000 = Except.error a ∧
      a.angerData = some { level := 1, cooldown := 5500, coolOffId := some 1 } ∧
      a.actionStateMgr
        = some { initActionStatesMgr with currentStateName := MDL_STATE_IDLE } ∧
      a.audio = [] := by
    rw [handleModelHit_of_idle boxSession.app
      { initActionStatesMgr with currentStateName := MDL_STATE_IDLE } 3000 rfl rfl,
      if_neg (by simp [angerOf, boxSession, placedApp]),
      handleClearedHit_without_animMgr _ _ 3000 (by simp [angerOf, boxSession, placedApp])
        (by simp [restartCoolOff_state, boxSession])]
    refine ⟨_, rfl, ?_, ?_, ?_⟩
    · simp [angerOf, boxSession, placedApp]; norm_num
    · simp [restartCoolOff_state, boxSession, placedApp]
    · simp [restartCoolOff_state, boxSession, placedApp]
  obtain ⟨a, ha, had, hasm, haud⟩ := e1
  rw [ha] at hr1
  have hs1 : sessionAfter (handleSelectDelayed inertUI boxSession 3000)
      = { boxSession with app := a } := by
    simp only [sessionAfter, hr1]
  obtain ⟨hi2, hr2⟩ := handleSelectDelayed_of_model_hit inertUI { boxSession with app := a }
    { hudOnRay := [], modelOnRay := true } 3016 rfl rfl rfl
  have e2 : handleModelHit a 3016 =
      Except.ok
        (playAudio
          { (restartCoolOff { a with angerData := some (angerOf a) } (angerOf a) 3016).2 with
            angerData := some
              { angerOf a with coolOffId := some a.nextTimerId, cooldown := 3016 + 2500 } }
          "nopoke" true false 0) := by
    rw [handleModelHit_of_idle a _ 3016 hasm rfl,
      if_pos (by rw [angerOf_of_some a _ had]; norm_num)]
  rw [hs1]
  refine ⟨rfl, hi1, ⟨_, hr1⟩, rfl, by rw [angerOf_of_some a _ had], hi2, ?_⟩
  rw [hr2]
  simp only [e2]
  exact ⟨_, rfl, rfl, by simp [playAudio, restartCoolOff_state, haud]⟩

/-- A step that changes nothing keeps the wave-end bookkeeping. -/
theorem kept_refl (app : App) : Kept app app :=
  ⟨rfl, still_refl app⟩

/-- Steps that keep the wave-end bookkeeping compose. -/
theorem kept_trans {a b c : App} (h1 : Kept a b) (h2 : Kept b c) : Kept a c :=
  ⟨h2.1.trans h1.1, still_trans h1.2 h2.2⟩

/-- A step that changes neither the state machine, the anger data, the pending timers nor
`g_timerIdWaveEnd` keeps the wave-end bookkeeping. -/
theorem kept_of_fields (app a : App) (h1 : a.actionStateMgr = app.actionStateMgr)
    (h2 : a.angerData = app.angerData) (h3 : a.timers = app.timers)
    (h4 : a.timerIdWaveEnd = app.timerIdWaveEnd) : Kept app a :=
  ⟨h4, h1, h2, fun _ hx => Or.inl (h3 ▸ hx)⟩

/-- Starting a timer that is neither a cool-off timer nor a wave-end timer keeps the
wave-end bookkeeping. -/
theorem kept_setTimeout (app : App) (now delayMs : ℚ) (action : TimerAction)
    (h : action ≠ TimerAction.coolOff)
    (hw : ∀ oldState, action ≠ TimerAction.waveEnd oldState) :
    Kept app (setTimeout app now delayMs action).2 := by
  refine ⟨rfl, rfl, rfl, ?_⟩
  intro x hx
  simp only [setTimeout, List.mem_append, List.mem_singleton] at hx
  rcases hx with hx | hx
  · exact Or.inl hx
  · subst hx; exact Or.inr ⟨h, hw⟩

/-- Cancelling a timer keeps the wave-end bookkeeping. -/
theorem kept_clearTimeout (app : App) (id : Nat) : Kept app (clearTimeout app id) := by
  refine ⟨rfl, rfl, rfl, ?_⟩
  intro x hx
  simp only [clearTimeout, List.mem_filter] at hx
  exact Or.inl hx.1

/-- A request callback leaves `g_timerIdWaveEnd` alone. -/
theorem kept_animCallback (cb : AnimationManager.Callback) (now : ℚ) (app : App) :
    Kept app (animCallback cb now app) := by
  refine ⟨?_, still_animCallback cb now app⟩
  unfold animCallback
  split_ifs
  · rfl
  · cases app.timerIdUmbrellaHide <;> rfl
  · rfl

/-- Running the request callbacks of a list of calls keeps the wave-end bookkeeping. -/
theorem kept_runAnimCallbacks (effects : List AnimationManager.Effect) (now : ℚ) :
    ∀ app : App, Kept app (runAnimCallbacks effects now app) := by
  induction effects with
  | nil => intro app; exact kept_refl app
  | cons e es ih =>
    intro app
    simp only [runAnimCallbacks, List.foldl_cons]
    cases e with
    | callback cb name => exact kept_trans (kept_animCallback cb now app) (ih _)
    | _ => exact ih app

/-- A call on the animation manager keeps the wave-end bookkeeping, whether it returns or
raises. -/
theorem kept_callAnimMgr (app : App) (now : ℚ)
    (f : AnimationManager.Manager → AnimationManager.Manager) :
    Kept app (stateAfter (callAnimMgr app now f)) := by
  unfold callAnimMgr
  cases app.animMgr with
  | none => exact kept_refl app
  | some am =>
    have h : Kept app
        (runAnimCallbacks
          ((((f am).effects.drop am.effects.length)).takeWhile
            (fun e => !AnimationManager.raisesTypeError e)) now
          { app with animMgr := some (f am) }) :=
      kept_trans (b := { app with animMgr := some (f am) })
        (kept_of_fields _ _ rfl rfl rfl rfl) (kept_runAnimCallbacks _ now _)
    simp only []
    split_ifs <;> exact h

/-- Sequencing: when a call keeps the wave-end bookkeeping and what follows its return does
too, so does the whole. -/
theorem kept_andThen (app : App) (x : Except App App) (k : App → Except App App) :
    Kept app (stateAfter x) → (∀ a, Kept a (stateAfter (k a))) →
    Kept app
      (stateAfter
        (match x with
          | Except.error a => Except.error a
          | Except.ok a => k a)) := by
  intro h1 h2
  cases x with
  | error a => exact h1
  | ok a => exact kept_trans h1 (h2 a)

/-- Every callback of `initActionStates()` other than the two of the wave state keeps the
wave-end bookkeeping, whether it returns or raises. -/
theorem kept_runStateCallback (h : ActionStateManager.Handler) (oldState : String) (now : ℚ)
    (app : App) (hin : h ≠ H_WAVE_IN) (hout : h ≠ H_WAVE_OUT) :
    Kept app (stateAfter (runStateCallback h oldState now app)) := by
  unfold runStateCallback
  split_ifs
  · cases hm : app.animMgr with
    | none => exact kept_refl app
    | some am => simpa [hm] using kept_callAnimMgr app now _
  · cases hm : app.animMgr with
    | none => exact kept_refl app
    | some am => simpa [hm] using kept_callAnimMgr app now _
  · refine kept_andThen app _
      (fun app1 =>
        match app1.timerIdWhistle with
        | some id => Except.ok { clearTimeout app1 id with timerIdWhistle := none }
        | none => Except.ok (stopAudio app1 "flute" 1)) ?_ ?_
    · cases hm : app.animMgr with
      | none => exact kept_refl app
      | some am => simpa [hm] using kept_callAnimMgr app now _
    · intro a
      beta_reduce
      cases a.timerIdWhistle with
      | none => exact kept_of_fields _ _ rfl rfl rfl rfl
      | some id =>
        exact kept_trans (kept_clearTimeout a id) (kept_of_fields _ _ rfl rfl rfl rfl)
  · cases hm : app.animMgr with
    | none => exact kept_refl app
    | some am =>
      cases hu : app.umbrellaObj with
      | none => exact kept_refl app
      | some obj => simpa [hm, hu] using kept_callAnimMgr app now _
  · cases hm : app.animMgr with
    | none => exact kept_refl app
    | some am =>
      cases hu : app.umbrellaObj with
      | none => exact kept_refl app
      | some obj =>
        simp only []
        have hq1 : Kept app
            (match app.timerIdUmbrellaShow with
              | some id => { clearTimeout app id with timerIdUmbrellaShow := none }
              | none => app) := by
          cases app.timerIdUmbrellaShow with
          | none => exact kept_refl app
          | some id =>
            exact kept_trans (kept_clearTimeout app id) (kept_of_fields _ _ rfl rfl rfl rfl)
        refine kept_trans hq1 ?_
        refine kept_trans (kept_setTimeout _ now (2360 - 600) TimerAction.umbrellaHide
          (by decide) (by simp)) ?_
        refine kept_trans (kept_of_fields _
          { (setTimeout
              (match app.timerIdUmbrellaShow with
                | some id => { clearTimeout app id with timerIdUmbrellaShow := none }
                | none => app) now (2360 - 600) TimerAction.umbrellaHide).2 with
            timerIdUmbrellaHide := some
              (setTimeout
                (match app.timerIdUmbrellaShow with
                  | some id => { clearTimeout app id with timerIdUmbrellaShow := none }
                  | none => app) now (2360 - 600) TimerAction.umbrellaHide).1 }
          rfl rfl rfl rfl) ?_
        exact kept_andThen _ _ (fun app2 => Except.ok (stopAudio app2 "rain" 2))
          (kept_callAnimMgr _ now _) (fun a => kept_of_fields _ _ rfl rfl rfl rfl)
  · exact kept_refl app

/-- With the registry of `initActionStates()`, a lookup does not depend on the current
state. -/
theorem lookup_setUp (mgr : ActionStateManager.Manager) (hset : SetUp mgr) (n : String) :
    ActionStateManager.lookup mgr n = ActionStateManager.lookup initActionStatesMgr n := by
  obtain ⟨own, proto, cur⟩ := mgr
  obtain ⟨ho, hp⟩ := hset
  simp only at ho hp
  subst ho hp
  rfl

/-- The entries of the registry of `initActionStates()`: the four states of the driver
have the callbacks registered for them, and any other name that resolves resolves to a
value without callbacks. -/
theorem lookup_initActionStates (n : String) (e : ActionStateManager.StateEntry)
    (he : ActionStateManager.lookup initActionStatesMgr n = some e) :
    (n = MDL_STATE_WAVE ∧ e = ⟨some H_WAVE_IN, some H_WAVE_OUT⟩) ∨
    (n = MDL_STATE_UMBRELLA ∧ e = ⟨some H_UMBRELLA_IN, some H_UMBRELLA_OUT⟩) ∨
    (n = MDL_STATE_WHISTLE ∧ e = ⟨some H_WHISTLE_IN, some H_WHISTLE_OUT⟩) ∨
    (n = MDL_STATE_IDLE ∧ e = ⟨some H_IDLE_IN, none⟩) ∨
    e = ⟨none, none⟩ := by
  by_cases h1 : n = MDL_STATE_WAVE
  · subst h1
    have h2 : ActionStateManager.lookup initActionStatesMgr MDL_STATE_WAVE
        = some ⟨some H_WAVE_IN, some H_WAVE_OUT⟩ := by decide
    rw [h2] at he
    exact Or.inl ⟨rfl, (Option.some.inj he).symm⟩
  · by_cases h2 : n = MDL_STATE_UMBRELLA
    · subst h2
      have h3 : ActionStateManager.lookup initActionStatesMgr MDL_STATE_UMBRELLA
          = some ⟨some H_UMBRELLA_IN, some H_UMBRELLA_OUT⟩ := by decide
      rw [h3] at he
      exact Or.inr (Or.inl ⟨rfl, (Option.some.inj he).symm⟩)
    · by_cases h3 : n = MDL_STATE_WHISTLE
      · subst h3
        have h4 : ActionStateManager.lookup initActionStatesMgr MDL_STATE_WHISTLE
            = some ⟨some H_WHISTLE_IN, some H_WHISTLE_OUT⟩ := by decide
        rw [h4] at he
        exact Or.inr (Or.inr (Or.inl ⟨rfl, (Option.some.inj he).symm⟩))
      · by_cases h4 : n = MDL_STATE_IDLE
        · subst h4
          have h5 : ActionStateManager.lookup initActionStatesMgr MDL_STATE_IDLE
              = some ⟨some H_IDLE_IN, none⟩ := by decide
          rw [h5] at he
          exact Or.inr (Or.inr (Or.inr (Or.inl ⟨rfl, (Option.some.inj he).symm⟩)))
        · refine Or.inr (Or.inr (Or.inr (Or.inr ?_)))
          have hown : initActionStatesMgr.own =
              [(MDL_STATE_WAVE, ⟨some H_WAVE_IN, some H_WAVE_OUT⟩),
               (MDL_STATE_UMBRELLA, ⟨some H_UMBRELLA_IN, some H_UMBRELLA_OUT⟩),
               (MDL_STATE_WHISTLE, ⟨some H_WHISTLE_IN, some H_WHISTLE_OUT⟩),
               (MDL_STATE_IDLE, ⟨some H_IDLE_IN, none⟩)] := by decide
          have hproto : initActionStatesMgr.proto = none := by decide
          have b1 : (n == MDL_STATE_WAVE) = false := by simpa using h1
          have b2 : (n == MDL_STATE_UMBRELLA) = false := by simpa using h2
          have b3 : (n == MDL_STATE_WHISTLE) = false := by simpa using h3
          have b4 : (n == MDL_STATE_IDLE) = false := by simpa using h4
          unfold ActionStateManager.lookup at he
          rw [hown, hproto] at he
          by_cases hp : n = "__proto__"
          · simp [hp, ActionStateManager.noHandlers] at he
            exact he.symm
          · simp only [hp, if_false, List.lookup, b1, b2, b3, b4,
              ActionStateManager.inheritedMember, ActionStateManager.noHandlers] at he
            split_ifs at he
            exact (Option.some.inj he).symm

/-- A tracked state stays tracked under a step that keeps the wave-end bookkeeping. -/
theorem tracked_of_kept (app a : App) (h : Tracked app) (hk : Kept app a) : Tracked a := by
  obtain ⟨hset, hco, hwe⟩ := h
  obtain ⟨hid, hm, had, ht⟩ := hk
  refine ⟨?_, ?_, ?_⟩
  · intro mgr hmgr
    exact hset mgr (hm ▸ hmgr)
  · intro x hx hc
    have hx2 : x ∈ app.timers := (ht x hx).elim id (fun hn => absurd hc hn.1)
    have h3 := hco x hx2 hc
    unfold angerOf at h3 ⊢
    rw [had]
    exact h3
  · intro x hx o hw
    have hx2 : x ∈ app.timers := (ht x hx).elim id (fun hn => absurd hw (hn.2 o))
    obtain ⟨h1, h2⟩ := hwe x hx2 o hw
    exact ⟨hid.trans h1, fun mgr hmgr => h2 mgr (hm ▸ hmgr)⟩

/-- The switch-out callback of the wave state returns; it leaves the state machine and the
anger data alone, clears `g_timerIdWaveEnd` and cancels the timer stored there. -/
theorem waveOut_result (oldState : String) (now : ℚ) (app : App) :
    ∃ a, runStateCallback H_WAVE_OUT oldState now app = Except.ok a ∧
      a.actionStateMgr = app.actionStateMgr ∧ a.angerData = app.angerData ∧
      a.timerIdWaveEnd = none ∧
      ∀ x ∈ a.timers, x ∈ app.timers ∧ app.timerIdWaveEnd ≠ some x.id := by
  simp only [runStateCallback, H_WAVE_OUT, H_WAVE_IN, H_IDLE_IN, H_WHISTLE_IN, H_WHISTLE_OUT,
    H_UMBRELLA_IN, H_UMBRELLA_OUT]
  simp only [Nat.reduceEqDiff, if_false, if_true]
  refine ⟨_, rfl, ?_⟩
  cases hid : app.timerIdWaveEnd with
  | none => exact ⟨rfl, rfl, hid, fun x hx => ⟨hx, by simp⟩⟩
  | some id =>
    refine ⟨rfl, rfl, rfl, ?_⟩
    intro x hx
    simp only [stopAudio, clearTimeout, List.mem_filter, ne_eq, decide_not,
      Bool.not_eq_eq_eq_not, Bool.not_true, decide_eq_false_iff_not] at hx
    exact ⟨hx.1, fun h => hx.2 (Option.some.inj h).symm⟩

/-- The switch-in callback of the wave state, whether it returns or raises: it leaves the
state machine alone, and a timer pending afterwards was pending before, or is a flute or
umbrella timer, or is the wave-end timer whose id it stored in `g_timerIdWaveEnd`. -/
theorem waveIn_result (oldState : String) (now : ℚ) (app : App) :
    (stateAfter (runStateCallback H_WAVE_IN oldState now app)).actionStateMgr
        = app.actionStateMgr ∧
      ∀ x ∈ (stateAfter (runStateCallback H_WAVE_IN oldState now app)).timers,
        x ∈ app.timers ∨
        (x.action ≠ TimerAction.coolOff ∧
          ∀ o, x.action ≠ TimerAction.waveEnd o) ∨
        (stateAfter (runStateCallback H_WAVE_IN oldState now app)).timerIdWaveEnd
          = some x.id := by
  refine ⟨(quiet_runStateCallback H_WAVE_IN oldState now app).1, ?_⟩
  simp only [runStateCallback, H_WAVE_OUT, H_WAVE_IN, H_IDLE_IN, H_WHISTLE_IN, H_WHISTLE_OUT,
    H_UMBRELLA_IN, H_UMBRELLA_OUT]
  simp only [Nat.reduceEqDiff, if_false, if_true]
  cases hm : app.animMgr with
  | none => exact fun x hx => Or.inl hx
  | some am =>
    simp only []
    have hk := kept_callAnimMgr app now (fun am =>
      AnimationManager.playAnimations am (AnimationManager.Anims.many [waveRequest]))
    generalize callAnimMgr app now (fun am =>
      AnimationManager.playAnimations am (AnimationManager.Anims.many [waveRequest])) = r
      at hk ⊢
    have hold : ∀ x ∈ (stateAfter r).timers, x ∈ app.timers ∨
        (x.action ≠ TimerAction.coolOff ∧ ∀ o, x.action ≠ TimerAction.waveEnd o) :=
      hk.2.2.2
    cases r with
    | error a1 =>
      intro x hx
      exact (hold x hx).elim Or.inl (fun h => Or.inr (Or.inl h))
    | ok app1 =>
      simp only [stateAfter] at hold
      simp only []
      cases hclip : app1.animMgr.bind (fun am => AnimationManager.getAnimClip am "Wave") with
      | none =>
        intro x hx
        exact (hold x hx).elim Or.inl (fun h => Or.inr (Or.inl h))
      | some clip =>
        intro x hx
        simp only [stateAfter, playAudio, setTimeout, List.mem_append,
          List.mem_singleton] at hx
        rcases hx with hx | hx
        · exact (hold x hx).elim Or.inl (fun h => Or.inr (Or.inl h))
        · subst hx
          exact Or.inr (Or.inr rfl)

/-- The switch-out phase of `switchState` on a tracked state with the registry of
`initActionStates()`: the state machine is left alone, the wave-end timer stays tracked,
and when the callback returns no wave-end timer is pending. -/
theorem switchOut_waveEnd (app : App) (mgr : ActionStateManager.Manager) (now : ℚ)
    (hm : app.actionStateMgr = some mgr) (hset : SetUp mgr) (hwe : WaveEndTracked app)
    (r1 : Except App App)
    (hr : r1 =
      match (ActionStateManager.lookup mgr mgr.currentStateName).bind
          (fun o => o.switchOutFn) with
      | some f => runStateCallback f mgr.currentStateName now app
      | none => Except.ok app) :
    (stateAfter r1).actionStateMgr = some mgr ∧ WaveEndTracked (stateAfter r1) ∧
      ∀ app1, r1 = Except.ok app1 → NoWaveEndPending app1 := by
  have hvac : ∀ a : App, NoWaveEndPending a → WaveEndTracked a :=
    fun a hno x hx o hw => absurd hw (hno x hx o)
  by_cases hs : mgr.currentStateName = MDL_STATE_WAVE
  · have hb : (ActionStateManager.lookup mgr mgr.currentStateName).bind
        (fun o => o.switchOutFn) = some H_WAVE_OUT := by
      rw [lookup_setUp mgr hset, hs]
      decide
    rw [hb] at hr
    obtain ⟨a, ha, h1, _, _, h4⟩ := waveOut_result mgr.currentStateName now app
    simp only [] at hr
    rw [ha] at hr
    subst hr
    have hno : NoWaveEndPending a := by
      intro x hx o hw
      exact (h4 x hx).2 (hwe x (h4 x hx).1 o hw).1
    exact ⟨h1.trans hm, hvac a hno, fun app1 h => by cases h; exact hno⟩
  · have hno : NoWaveEndPending app := by
      intro x hx o hw
      exact hs ((hwe x hx o hw).2 mgr hm)
    have hkept : Kept app (stateAfter r1) := by
      cases hlk : ActionStateManager.lookup mgr mgr.currentStateName with
      | none =>
        rw [hlk] at hr
        subst hr
        exact kept_refl app
      | some e =>
        rw [hlk] at hr
        simp only [Option.bind] at hr
        have hcases := lookup_initActionStates mgr.currentStateName e
          (by rw [← lookup_setUp mgr hset]; exact hlk)
        rcases hcases with ⟨h1, _⟩ | ⟨_, h2⟩ | ⟨_, h2⟩ | ⟨_, h2⟩ | h2
        · exact absurd h1 hs
        · subst h2
          subst hr
          exact kept_runStateCallback H_UMBRELLA_OUT _ now app (by decide) (by decide)
        · subst h2
          subst hr
          exact kept_runStateCallback H_WHISTLE_OUT _ now app (by decide) (by decide)
        · subst h2
          subst hr
          exact kept_refl app
        · subst h2
          subst hr
          exact kept_refl app
    have hno2 : NoWaveEndPending (stateAfter r1) := by
      intro x hx o hw
      exact (hkept.2.2.2 x hx).elim (fun h => hno x h o hw) (fun h => h.2 o hw)
    refine ⟨hkept.2.1.trans hm, hvac _ hno2, ?_⟩
    intro app1 h
    subst h
    exact hno2

/-- The switch-in phase of `switchState` for the state `stateName`, entered with no
wave-end timer pending: the state machine is left alone, and the wave-end timer is tracked
afterwards, whether the callback returns or raises. -/
theorem switchIn_waveEnd (app2 : App) (mgr2 : ActionStateManager.Manager) (now : ℚ)
    (oldState stateName : String) (newState : ActionStateManager.StateEntry)
    (hm : app2.actionStateMgr = some mgr2)
    (hs : ActionStateManager.getState mgr2 = stateName)
    (hl : ActionStateManager.lookup initActionStatesMgr stateName = some newState)
    (hno : NoWaveEndPending app2) (r : Except App (Bool × App))
    (hr : r =
      match newState.switchInFn with
      | some g =>
        (match runStateCallback g oldState now app2 with
          | Except.error a => Except.error a
          | Except.ok app3 => Except.ok (true, app3))
      | none => Except.ok (true, app2)) :
    (stateAfterSwitch r).actionStateMgr = some mgr2 ∧ WaveEndTracked (stateAfterSwitch r) := by
  have hvac : ∀ a : App, NoWaveEndPending a → WaveEndTracked a :=
    fun a hno x hx o hw => absurd hw (hno x hx o)
  have hafter : ∀ g,
      stateAfterSwitch
        (match runStateCallback g oldState now app2 with
          | Except.error a => Except.error a
          | Except.ok app3 => Except.ok (true, app3))
        = stateAfter (runStateCallback g oldState now app2) := by
    intro g
    cases runStateCallback g oldState now app2 <;> rfl
  have hkeep : ∀ g, g ≠ H_WAVE_IN → g ≠ H_WAVE_OUT →
      (stateAfter (runStateCallback g oldState now app2)).actionStateMgr = some mgr2 ∧
        WaveEndTracked (stateAfter (runStateCallback g oldState now app2)) := by
    intro g h1 h2
    have hk := kept_runStateCallback g oldState now app2 h1 h2
    refine ⟨hk.2.1.trans hm, hvac _ ?_⟩
    intro x hx o hw
    exact (hk.2.2.2 x hx).elim (fun h => hno x h o hw) (fun h => h.2 o hw)
  rcases lookup_initActionStates stateName newState hl with
    ⟨h1, h2⟩ | ⟨_, h2⟩ | ⟨_, h2⟩ | ⟨_, h2⟩ | h2
  · subst h2
    simp only [] at hr
    subst hr
    rw [hafter]
    obtain ⟨hw1, hw2⟩ := waveIn_result oldState now app2
    refine ⟨hw1.trans hm, ?_⟩
    intro x hx o hw
    rcases hw2 x hx with h | h | h
    · exact absurd hw (hno x h o)
    · exact absurd hw (h.2 o)
    · refine ⟨h, fun mgr hmgr => ?_⟩
      rw [hw1, hm] at hmgr
      cases hmgr
      exact hs.trans h1
  · subst h2
    simp only [] at hr
    subst hr
    rw [hafter]
    exact hkeep H_UMBRELLA_IN (by decide) (by decide)
  · subst h2
    simp only [] at hr
    subst hr
    rw [hafter]
    exact hkeep H_WHISTLE_IN (by decide) (by decide)
  · subst h2
    simp only [] at hr
    subst hr
    rw [hafter]
    exact hkeep H_IDLE_IN (by decide) (by decide)
  · subst h2
    simp only [] at hr
    subst hr
    exact ⟨hm, hvac _ hno⟩

/-- A `switchState` call of the driver on a state whose state machine has the registry of
`initActionStates()` and whose wave-end timer is tracked leaves such a state, whether it
returns or raises. -/
theorem switchState_waveEnd (app : App) (stateName : String) (now : ℚ)
    (hset : ∀ mgr, app.actionStateMgr = some mgr → SetUp mgr) (hwe : WaveEndTracked app) :
    (∀ mgr, (stateAfterSwitch (switchState app stateName now)).actionStateMgr = some mgr →
        SetUp mgr) ∧
      WaveEndTracked (stateAfterSwitch (switchState app stateName now)) := by
  unfold switchState
  cases hm : app.actionStateMgr with
  | none => exact ⟨fun mgr h => hset mgr h, hwe⟩
  | some mgr =>
    have hmgr := hset mgr hm
    simp only []
    cases hl : ActionStateManager.lookup mgr stateName with
    | none => exact ⟨fun m h => hset m h, hwe⟩
    | some newState =>
      simp only []
      obtain ⟨ho1, ho2, ho3⟩ := switchOut_waveEnd app mgr now hm hmgr hwe _ rfl
      generalize (match (ActionStateManager.lookup mgr mgr.currentStateName).bind
          (fun o => o.switchOutFn) with
        | some f => runStateCallback f mgr.currentStateName now app
        | none => Except.ok app) = afterOut at ho1 ho2 ho3 ⊢
      cases afterOut with
      | error a =>
        refine ⟨fun m h => ?_, ho2⟩
        simp only [stateAfter] at ho1
        simp only [stateAfterSwitch] at h
        rw [ho1] at h
        cases h
        exact hmgr
      | ok app1 =>
        simp only [stateAfter] at ho1
        simp only []
        have hm2 : ({ app1 with
            actionStateMgr :=
              app1.actionStateMgr.map
                (fun g => { g with currentStateName := stateName }) } : App).actionStateMgr
            = some { mgr with currentStateName := stateName } := by
          show app1.actionStateMgr.map _ = _
          rw [ho1]
          rfl
        obtain ⟨hi1, hi2⟩ := switchIn_waveEnd
          { app1 with
            actionStateMgr :=
              app1.actionStateMgr.map (fun g => { g with currentStateName := stateName }) }
          { mgr with currentStateName := stateName } now mgr.currentStateName stateName
          newState hm2 rfl (by rw [← lookup_setUp mgr hmgr]; exact hl)
          (ho3 app1 rfl) _ rfl
        refine ⟨fun m h => ?_, hi2⟩
        rw [hi1] at h
        cases h
        exact ⟨hmgr.1, hmgr.2⟩

/-- A tracked cool-off timer stays tracked under a calm step. -/
theorem coolOffTracked_of_calm (app a : App) (h : CoolOffTracked app) (hc : Calm app a) :
    CoolOffTracked a := by
  intro x hx hco
  have h3 := h x (hc.2 x hx hco) hco
  unfold angerOf at h3 ⊢
  rw [hc.1]
  exact h3

/-- A `switchState` call of the driver leaves a tracked state tracked, whether it returns
or raises. -/
theorem tracked_switchState (app : App) (stateName : String) (now : ℚ) (h : Tracked app) :
    Tracked (stateAfterSwitch (switchState app stateName now)) := by
  obtain ⟨hset, hco, hwe⟩ := h
  obtain ⟨h1, h2⟩ := switchState_waveEnd app stateName now hset hwe
  exact ⟨h1, coolOffTracked_of_calm _ _ hco (switchState_calm app stateName now), h2⟩

/-- `_resetAngerData` leaves the state machine and `g_timerIdWaveEnd` alone, and a timer
pending afterwards was pending before and is not the stored cool-off timer. -/
theorem resetAngerData_timers (app : App) :
    (resetAngerData app).actionStateMgr = app.actionStateMgr ∧
      (resetAngerData app).timerIdWaveEnd = app.timerIdWaveEnd ∧
      ∀ y ∈ (resetAngerData app).timers,
        y ∈ app.timers ∧ (angerOf app).coolOffId ≠ some y.id := by
  have key : ∀ v : Option Nat,
      (match v with
        | some id => clearTimeout app id
        | none => app).actionStateMgr = app.actionStateMgr ∧
      (match v with
        | some id => clearTimeout app id
        | none => app).timerIdWaveEnd = app.timerIdWaveEnd ∧
      ∀ y ∈ (match v with
        | some id => clearTimeout app id
        | none => app).timers, y ∈ app.timers ∧ v ≠ some y.id := by
    intro v
    cases v with
    | none => exact ⟨rfl, rfl, fun y hy => ⟨hy, by simp⟩⟩
    | some id =>
      refine ⟨rfl, rfl, fun y hy => ?_⟩
      simp only [clearTimeout, List.mem_filter, ne_eq, decide_not, Bool.not_eq_eq_eq_not,
        Bool.not_true, decide_eq_false_iff_not] at hy
      exact ⟨hy.1, fun h => hy.2 (Option.some.inj h).symm⟩
  have hv : app.angerData.bind (fun ad => ad.coolOffId) = (angerOf app).coolOffId := by
    unfold angerOf
    cases app.angerData <;> rfl
  obtain ⟨h1, h2, h3⟩ := key (app.angerData.bind (fun ad => ad.coolOffId))
  exact ⟨h1, h2, fun y hy => ⟨(h3 y hy).1, hv ▸ (h3 y hy).2⟩⟩

/-- `_resetAngerData` leaves a tracked state tracked: the stored cool-off timer is
cancelled, so none is pending afterwards. -/
theorem tracked_resetAngerData (app : App) (h : Tracked app) :
    Tracked (resetAngerData app) := by
  obtain ⟨hset, hco, hwe⟩ := h
  obtain ⟨h1, h2, h3⟩ := resetAngerData_timers app
  refine ⟨fun mgr hm => hset mgr (h1 ▸ hm), ?_, ?_⟩
  · intro x hx hc
    exact absurd (hco x (h3 x hx).1 hc) (h3 x hx).2
  · intro x hx o hw
    obtain ⟨h4, h5⟩ := hwe x (h3 x hx).1 o hw
    exact ⟨h2.trans h4, fun mgr hm => h5 mgr (h1 ▸ hm)⟩

/-- The restart of the cool-off timer in `handleModelHit`, with the id of the new timer
stored in the anger data, leaves a tracked state tracked. -/
theorem tracked_restartCoolOff (app : App) (t : ℚ) (ad : AngerData) (h : Tracked app)
    (hid : ad.coolOffId = some app.nextTimerId) :
    Tracked
      { (restartCoolOff { app with angerData := some (angerOf app) } (angerOf app) t).2 with
        angerData := some ad } := by
  obtain ⟨hset, hco, hwe⟩ := h
  rw [restartCoolOff_state]
  have hold : ∀ x ∈ ((match (angerOf app).coolOffId with
      | some id => app.timers.filter (fun y => y.id ≠ id)
      | none => app.timers) : List Timer),
      x ∈ app.timers ∧ (angerOf app).coolOffId ≠ some x.id := by
    intro x hx
    cases hc : (angerOf app).coolOffId with
    | none => rw [hc] at hx; exact ⟨hx, by simp⟩
    | some id =>
      rw [hc] at hx
      simp only [List.mem_filter, ne_eq, decide_not, Bool.not_eq_eq_eq_not, Bool.not_true,
        decide_eq_false_iff_not] at hx
      exact ⟨hx.1, fun h => hx.2 (Option.some.inj h).symm⟩
  refine ⟨fun mgr hm => hset mgr hm, ?_, ?_⟩
  · intro x hx hc
    simp only [List.mem_append, List.mem_singleton] at hx
    rcases hx with hx | hx
    · exact absurd (hco x (hold x hx).1 hc) (hold x hx).2
    · subst hx
      simpa [angerOf] using hid
  · intro x hx o hw
    simp only [List.mem_append, List.mem_singleton] at hx
    rcases hx with hx | hx
    · exact hwe x (hold x hx).1 o hw
    · subst hx
      cases hw

/-- The part of `handleModelHit` that follows the increment leaves a tracked state tracked,
whether it returns or raises. -/
theorem tracked_handleClearedHit (app : App) (raised : AngerData) (t : ℚ) (h : Tracked app) :
    Tracked (stateAfter (handleClearedHit app raised t)) := by
  have hk : Kept app
      (stateAfter
        (if raised.level = 3 then Except.ok app
         else callAnimMgr app t (fun am =>
          AnimationManager.playAnimations am (AnimationManager.Anims.many [pokedRequest])))) := by
    split_ifs
    · exact kept_refl app
    · exact kept_callAnimMgr app t _
  unfold handleClearedHit
  simp only []
  generalize (if raised.level = 3 then Except.ok app
      else callAnimMgr app t (fun am =>
        AnimationManager.playAnimations am (AnimationManager.Anims.many [pokedRequest]))) = r
    at hk ⊢
  cases r with
  | error a => exact tracked_of_kept app a h hk
  | ok app4 =>
    simp only [stateAfter] at hk
    simp only []
    have h5 : ∀ app5 : App, Kept app4 app5 →
        Tracked (stateAfter
            (if 3 ≤ raised.level then
              match switchState (resetAngerData app5) MDL_STATE_WAVE t with
              | Except.error a => Except.error a
              | Except.ok sw => Except.ok (triggerRoarEffect sw.2)
            else Except.ok app5)) := by
      intro app5 hk5
      have ht5 : Tracked app5 := tracked_of_kept app app5 h (kept_trans hk hk5)
      split_ifs
      · have hsw := tracked_switchState (resetAngerData app5) MDL_STATE_WAVE t
          (tracked_resetAngerData app5 ht5)
        generalize switchState (resetAngerData app5) MDL_STATE_WAVE t = r at hsw ⊢
        cases r with
        | error a => exact hsw
        | ok sw =>
          exact tracked_of_kept _ _ hsw (kept_of_fields _ _ rfl rfl rfl rfl)
      · exact ht5
    refine h5 _ ?_
    split
    · exact kept_of_fields _ _ rfl rfl rfl rfl
    · exact kept_refl app4

/-- A body hit leaves a tracked state tracked, whether it returns or raises. -/
theorem tracked_handleModelHit (app : App) (t : ℚ) (h : Tracked app) :
    Tracked (stateAfter (handleModelHit app t)) := by
  cases hm : app.actionStateMgr with
  | none =>
    rw [handleModelHit_without_stateMgr app t hm]
    exact h
  | some mgr =>
    by_cases hs : ActionStateManager.getState mgr = MDL_STATE_IDLE
    · rw [handleModelHit_of_idle app mgr t hm hs]
      split_ifs
      · exact tracked_of_kept _ _
          (tracked_restartCoolOff app t
            { angerOf app with coolOffId := some app.nextTimerId, cooldown := t + 2500 } h rfl)
          (kept_of_fields _ _ rfl rfl rfl rfl)
      · exact tracked_handleClearedHit _ _ t
          (tracked_restartCoolOff app t
            { level := (angerOf app).level + 1, cooldown := t + 2500,
              coolOffId := some app.nextTimerId } h rfl)
    · rw [handleModelHit_of_not_idle app mgr t hm hs]
      split_ifs
      · exact tracked_of_kept _ _ h (kept_of_fields _ _ rfl rfl rfl rfl)
      · exact h

/-- `_coolOffFn`, run while no cool-off timer is pending, leaves the bookkeeping intact: the
only cool-off timer pending afterwards is the one it starts, whose id it stores. -/
theorem tracked_coolOffFn (app : App) (ad : AngerData) (now : ℚ)
    (hset : ∀ mgr, app.actionStateMgr = some mgr → SetUp mgr)
    (hno : ∀ y ∈ app.timers, y.action ≠ TimerAction.coolOff) (hwe : WaveEndTracked app) :
    Tracked (coolOffFn app ad now) := by
  unfold coolOffFn
  simp only []
  have h1 : ∀ app1 : App, app1.actionStateMgr = app.actionStateMgr →
      app1.timers = app.timers → app1.timerIdWaveEnd = app.timerIdWaveEnd →
      ∀ cooled : AngerData,
      Tracked
        (if 0 < cooled.level then
          { (setTimeout app1 now 5000 TimerAction.coolOff).2 with
            angerData := some
              { cooled with
                coolOffId := some (setTimeout app1 now 5000 TimerAction.coolOff).1 } }
        else { app1 with angerData := some { cooled with coolOffId := none } }) := by
    intro app1 e1 e2 e3 cooled
    split_ifs
    · refine ⟨fun mgr hm => hset mgr (e1 ▸ hm), ?_, ?_⟩
      · intro x hx hc
        simp only [setTimeout, List.mem_append, List.mem_singleton] at hx
        rcases hx with hx | hx
        · exact absurd hc (hno x (e2 ▸ hx))
        · subst hx
          rfl
      · intro x hx o hw
        simp only [setTimeout, List.mem_append, List.mem_singleton] at hx
        rcases hx with hx | hx
        · obtain ⟨h4, h5⟩ := hwe x (e2 ▸ hx) o hw
          exact ⟨e3.trans h4, fun mgr hm => h5 mgr (e1 ▸ hm)⟩
        · subst hx
          cases hw
    · refine ⟨fun mgr hm => hset mgr (e1 ▸ hm), ?_, ?_⟩
      · intro x hx hc
        exact absurd hc (hno x (e2 ▸ hx))
      · intro x hx o hw
        obtain ⟨h4, h5⟩ := hwe x (e2 ▸ hx) o hw
        exact ⟨e3.trans h4, fun mgr hm => h5 mgr (e1 ▸ hm)⟩
  refine h1 _ ?_ ?_ ?_ _
  · split_ifs <;> rfl
  · split_ifs <;> rfl
  · split_ifs <;> rfl

/-- The firing of a pending timer leaves a tracked state tracked, whether the function of
the timer returns or raises. -/
theorem tracked_fireTimer (app : App) (x : Timer) (now : ℚ) (h : Tracked app)
    (hx : x ∈ app.timers) : Tracked (stateAfter (fireTimer app x now)) := by
  have hclear : Kept app (clearTimeout app x.id) := kept_clearTimeout app x.id
  obtain ⟨hset, hco, hwe⟩ := h
  unfold fireTimer
  cases hxa : x.action with
  | whistleFlute =>
    exact tracked_of_kept _ _ ⟨hset, hco, hwe⟩
      (kept_trans hclear (kept_of_fields _ _ rfl rfl rfl rfl))
  | umbrellaShow =>
    exact tracked_of_kept _ _ ⟨hset, hco, hwe⟩
      (kept_trans hclear (kept_of_fields _ _ rfl rfl rfl rfl))
  | umbrellaHide =>
    exact tracked_of_kept _ _ ⟨hset, hco, hwe⟩
      (kept_trans hclear (kept_of_fields _ _ rfl rfl rfl rfl))
  | coolOff =>
    simp only [stateAfter, fireCoolOff]
    cases had : app.angerData with
    | none => exact tracked_of_kept _ _ ⟨hset, hco, hwe⟩ hclear
    | some ad =>
      have htc := tracked_of_kept _ _ ⟨hset, hco, hwe⟩ hclear
      refine tracked_coolOffFn (clearTimeout app x.id) ad now htc.1 ?_ htc.2.2
      intro y hy hc
      simp only [clearTimeout, List.mem_filter, ne_eq, decide_not, Bool.not_eq_eq_eq_not,
        Bool.not_true, decide_eq_false_iff_not] at hy
      have e1 := hco y hy.1 hc
      have e2 := hco x hx hxa
      rw [e2] at e1
      exact hy.2 (Option.some.inj e1).symm
  | waveEnd oldState =>
    simp only []
    have h0 : Tracked { clearTimeout app x.id with timerIdWaveEnd := none } := by
      refine ⟨fun mgr hm => hset mgr hm, ?_, ?_⟩
      · intro y hy hc
        simp only [clearTimeout, List.mem_filter] at hy
        exact hco y hy.1 hc
      · intro y hy o hw
        simp only [clearTimeout, List.mem_filter, ne_eq, decide_not, Bool.not_eq_eq_eq_not,
          Bool.not_true, decide_eq_false_iff_not] at hy
        have e1 := (hwe y hy.1 o hw).1
        have e2 := (hwe x hx oldState hxa).1
        rw [e2] at e1
        exact absurd (Option.some.inj e1).symm hy.2
    have hsw := tracked_switchState _ oldState now h0
    generalize switchState { clearTimeout app x.id with timerIdWaveEnd := none }
      oldState now = r at hsw ⊢
    cases r with
    | error a => exact hsw
    | ok sw => exact hsw

/-- A frame leaves a tracked state tracked, whether the update of the animation manager
returns or raises. -/
theorem tracked_frameUpdate (app : App) (now delta : ℚ) (h : Tracked app) :
    Tracked (stateAfter (frameUpdate app now delta)) := by
  unfold frameUpdate
  cases hm : app.animMgr with
  | none => exact h
  | some am => exact tracked_of_kept _ _ h (kept_callAnimMgr app now _)

/-- `stopModelAnimations()` leaves a tracked state tracked, whether it returns or raises,
and when it returns no wave-end timer is pending. -/
theorem tracked_stopModelAnimations (app : App) (now : ℚ) (h : Tracked app) :
    Tracked (stateAfter (stopModelAnimations app now)) ∧
      ∀ a, stopModelAnimations app now = Except.ok a → NoWaveEndPending a := by
  have hk : Kept app
      (stateAfter
        (match app.animMgr with
          | none => Except.ok app
          | some _ => callAnimMgr app now AnimationManager.stopAll)) := by
    cases app.animMgr with
    | none => exact kept_refl app
    | some am => exact kept_callAnimMgr app now _
  unfold stopModelAnimations
  simp only []
  generalize (match app.animMgr with
    | none => Except.ok app
    | some _ => callAnimMgr app now AnimationManager.stopAll) = r at hk ⊢
  cases r with
  | error a => exact ⟨tracked_of_kept _ _ h hk, fun a h => by cases h⟩
  | ok app1 =>
    simp only [stateAfter] at hk ⊢
    have h1 := tracked_of_kept _ _ h hk
    have key : ∀ app2 : App, Tracked app2 →
        Tracked
          (match app2.timerIdWaveEnd with
            | some id => { clearTimeout app2 id with timerIdWaveEnd := none }
            | none => app2) ∧
        NoWaveEndPending
          (match app2.timerIdWaveEnd with
            | some id => { clearTimeout app2 id with timerIdWaveEnd := none }
            | none => app2) := by
      intro app2 h2
      obtain ⟨hset, hco, hwe⟩ := h2
      cases hid : app2.timerIdWaveEnd with
      | none =>
        have hno : NoWaveEndPending app2 := by
          intro y hy o hw
          have := (hwe y hy o hw).1
          rw [hid] at this
          cases this
        exact ⟨⟨hset, hco, hwe⟩, hno⟩
      | some id =>
        have hno : NoWaveEndPending
            { clearTimeout app2 id with timerIdWaveEnd := none } := by
          intro y hy o hw
          simp only [clearTimeout, List.mem_filter, ne_eq, decide_not,
            Bool.not_eq_eq_eq_not, Bool.not_true, decide_eq_false_iff_not] at hy
          have := (hwe y hy.1 o hw).1
          rw [hid] at this
          exact hy.2 (Option.some.inj this).symm
        refine ⟨⟨fun mgr hm => hset mgr hm, ?_,
          fun y hy o hw => absurd hw (hno y hy o)⟩, hno⟩
        intro y hy hc
        simp only [clearTimeout, List.mem_filter] at hy
        exact hco y hy.1 hc
    have hstep : ∀ (a : App) (v : Option Nat) (b : Nat → App),
        (∀ id, Kept a (b id)) →
        Kept a (match v with | some id => b id | none => a) := by
      intro a v b hb
      cases v with
      | none => exact kept_refl a
      | some id => exact hb id
    have hk2 := hstep app1 app1.timerIdWhistle
      (fun id => { clearTimeout app1 id with timerIdWhistle := none })
      (fun id => kept_trans (kept_clearTimeout app1 id) (kept_of_fields _ _ rfl rfl rfl rfl))
    have h2 := tracked_of_kept _ _ h1 hk2
    obtain ⟨h3, hno3⟩ := key _ h2
    generalize (match (match app1.timerIdWhistle with
          | some id => { clearTimeout app1 id with timerIdWhistle := none }
          | none => app1).timerIdWaveEnd with
        | some id =>
          { clearTimeout (match app1.timerIdWhistle with
              | some id => { clearTimeout app1 id with timerIdWhistle := none }
              | none => app1) id with timerIdWaveEnd := none }
        | none =>
          (match app1.timerIdWhistle with
            | some id => { clearTimeout app1 id with timerIdWhistle := none }
            | none => app1)) = app3 at h3 hno3 ⊢
    have hk4 := hstep app3 app3.timerIdUmbrellaShow
      (fun id => { clearTimeout app3 id with timerIdUmbrellaShow := none })
      (fun id => kept_trans (kept_clearTimeout app3 id) (kept_of_fields _ _ rfl rfl rfl rfl))
    generalize (match app3.timerIdUmbrellaShow with
        | some id => { clearTimeout app3 id with timerIdUmbrellaShow := none }
        | none => app3) = app4 at hk4 ⊢
    have hk5 := hstep app4 app4.timerIdUmbrellaHide
      (fun id => { clearTimeout app4 id with timerIdUmbrellaHide := none })
      (fun id => kept_trans (kept_clearTimeout app4 id) (kept_of_fields _ _ rfl rfl rfl rfl))
    generalize (match app4.timerIdUmbrellaHide with
        | some id => { clearTimeout app4 id with timerIdUmbrellaHide := none }
        | none => app4) = app5 at hk5 ⊢
    have hk35 := kept_trans hk4 hk5
    refine ⟨tracked_of_kept _ _ h3 hk35, ?_⟩
    intro a ha
    cases ha
    intro y hy o hw
    exact (hk35.2.2.2 y hy).elim (fun h => hno3 y h o hw) (fun h => h.2 o hw)

/-- Every state the driver reaches is tracked: its state machine has the registry of
`initActionStates()`, the only cool-off timer that can be pending is the one stored in the
anger data, and a wave-end timer is pending only while the wave state is current. -/
theorem driver_tracked (app : App) (h : DriverReachable app) : Tracked app := by
  induction h with
  | start app ht hset =>
    refine ⟨hset, ?_, ?_⟩
    · intro x hx
      rw [ht] at hx
      cases hx
    · intro x hx
      rw [ht] at hx
      cases hx
  | hit app t _ ih => exact tracked_handleModelHit app t ih
  | timer app x now _ hx ih => exact tracked_fireTimer app x now ih hx
  | frame app now delta _ ih => exact tracked_frameUpdate app now delta ih
  | switch app stateName now _ ih => exact tracked_switchState app stateName now ih
  | resetAnger app _ ih => exact tracked_resetAngerData app ih
  | stop app now _ ih => exact (tracked_stopModelAnimations app now ih).1
  | delete app a now _ ha ih =>
    obtain ⟨h1, h2⟩ := tracked_stopModelAnimations (resetAngerData app) now
      (tracked_resetAngerData app ih)
    rw [ha] at h1
    have hno := h2 a ha
    obtain ⟨hset, hco, _⟩ := h1
    refine ⟨?_, hco, fun y hy o hw => absurd hw (hno y hy o)⟩
    intro mgr hm
    cases hmgr : a.actionStateMgr with
    | none =>
      simp only [hmgr, Option.map_none'] at hm
      cases hm
    | some mgr0 =>
      simp only [hmgr, Option.map_some'] at hm
      cases hm
      exact hset mgr0 hmgr
  | other app a _ e1 e2 e3 e4 ih =>
    exact tracked_of_kept app a ih (kept_of_fields app a e1 e2 e3 e4)

/-- In a state the driver reaches with the idle state current, the hypotheses of the hit
scenarios hold: the registry is the one of `initActionStates()`, no wave-end timer is
pending, the cool-off timer is tracked, and with fresh anger data (or none yet) no cool-off
timer is pending. -/
theorem reachable_idle_ready (app : App) (mgr : ActionStateManager.Manager)
    (h : DriverReachable app) (hm : app.actionStateMgr = some mgr)
    (hs : ActionStateManager.getState mgr = MDL_STATE_IDLE) :
    SetUp mgr ∧ CoolOffTracked app ∧ NoWaveEndPending app ∧
      ((angerOf app).coolOffId = none →
        ∀ x ∈ app.timers, x.action ≠ TimerAction.coolOff) := by
  obtain ⟨hset, hco, hwe⟩ := driver_tracked app h
  refine ⟨hset mgr hm, hco, ?_, ?_⟩
  · intro x hx o hw
    have := (hwe x hx o hw).2 mgr hm
    rw [hs] at this
    exact absurd this (by decide)
  · intro hnone x hx hc
    have := hco x hx hc
    rw [hnone] at this
    cases this

/-- The hypotheses of the hit scenarios at a concrete state: the state after the model was
placed is reached by the driver and has the idle state current. -/
theorem reachable_idle_ready_witness :
    DriverReachable placedApp ∧
      SetUp { initActionStatesMgr with currentStateName := MDL_STATE_IDLE } ∧
      CoolOffTracked placedApp ∧ NoWaveEndPending placedApp :=
  ⟨DriverReachable.start placedApp rfl (fun mgr hm => by cases hm; exact ⟨rfl, rfl⟩),
    (reachable_idle_ready placedApp _
      (DriverReachable.start placedApp rfl (fun mgr hm => by cases hm; exact ⟨rfl, rfl⟩))
      rfl rfl).1,
    (reachable_idle_ready placedApp _
      (DriverReachable.start placedApp rfl (fun mgr hm => by cases hm; exact ⟨rfl, rfl⟩))
      rfl rfl).2.1,
    (reachable_idle_ready placedApp _
      (DriverReachable.start placedApp rfl (fun mgr hm => by cases hm; exact ⟨rfl, rfl⟩))
      rfl rfl).2.2.1⟩

end Totoroar
